import Mathlib

/-!
# Cadence: the AI-slop detection strategies

A shallow embedding of `internal/detector/patterns/ai_slop_strategies.go`
and of the helpers it relies on, of `internal/metrics/velocity.go`, of
`internal/config/config.go` and of the text extraction of
`internal/web/fetcher.go`, followed by theorems about each of them.

Conventions of the embedding

* A Go string is the list of its bytes, each held as the code point of the
  same number (`List Char`); `len(s)` is the length of that list and
  `utf8.runes` is what a `range` loop yields, invalid bytes included.
* `int64` counters are integers; no operation of the strategies can overflow.
* A finite `float64` is the rational number it denotes; every arithmetic
  operation rounds its exact result to the nearest value with a 53-bit
  significand, ties to even (`F64.rnd`).  The quantities the strategies
  compute stay far inside the normal range of the format.
* The iteration over a Go map takes the order of the visit as a parameter.
* The file system and the environment are an explicit `World`; the libraries
  viper, cast, yaml and goquery are modelled as far as the code uses them.
-/

namespace Cadence

/-! ## Go strings -/

/-- A Go string: a sequence of bytes. A byte is held as the code point of the
same number, 0 to 255, so that an ASCII literal of the source is the list of
its characters; a literal with a byte above 127 is written with escapes. A
code point above 255 stands for no byte and is treated as an invalid one. The
text of a string in the sense of Go, the code points a `range` loop yields, is
`utf8.runes`. -/
abbrev Str := List Char

/-- Go `len(s)`: the number of bytes. -/
def byteLen (s : Str) : Nat := s.length

namespace utf8

/-- Go `utf8.RuneError`, U+FFFD. -/
def RuneError : Char := Char.ofNat 0xFFFD

/-- Whether the byte `b` lies between `lo` and `hi`. -/
def between (lo hi : Nat) (b : Char) : Bool := lo ≤ b.toNat && b.toNat ≤ hi

/-- Go `utf8.DecodeRuneInString`: the first code point of `s` and the number of
bytes of its encoding. A byte that does not start a well-formed encoding
(shortest form, no surrogate, at most U+10FFFF) gives U+FFFD and the width 1. -/
def DecodeRune : Str → Char × Nat
  | [] => (RuneError, 0)
  | b0 :: rest =>
    if b0.toNat < 0x80 then (b0, 1)
    else if between 0xC2 0xDF b0 then
      match rest with
      | b1 :: _ =>
        if between 0x80 0xBF b1 then
          (Char.ofNat ((b0.toNat - 0xC0) * 64 + (b1.toNat - 0x80)), 2)
        else (RuneError, 1)
      | _ => (RuneError, 1)
    else if between 0xE0 0xEF b0 then
      match rest with
      | b1 :: b2 :: _ =>
        if between (if b0.toNat = 0xE0 then 0xA0 else 0x80)
              (if b0.toNat = 0xED then 0x9F else 0xBF) b1 && between 0x80 0xBF b2 then
          (Char.ofNat ((b0.toNat - 0xE0) * 4096 + (b1.toNat - 0x80) * 64 + (b2.toNat - 0x80)), 3)
        else (RuneError, 1)
      | _ => (RuneError, 1)
    else if between 0xF0 0xF4 b0 then
      match rest with
      | b1 :: b2 :: b3 :: _ =>
        if between (if b0.toNat = 0xF0 then 0x90 else 0x80)
              (if b0.toNat = 0xF4 then 0x8F else 0xBF) b1 && between 0x80 0xBF b2 &&
            between 0x80 0xBF b3 then
          (Char.ofNat ((b0.toNat - 0xF0) * 262144 + (b1.toNat - 0x80) * 4096
            + (b2.toNat - 0x80) * 64 + (b3.toNat - 0x80)), 4)
        else (RuneError, 1)
      | _ => (RuneError, 1)
    else (RuneError, 1)

/-- The decoding of a string from a position on: `skip` is the number of bytes
still covered by the code point decoded last. -/
def unitsFrom : Nat → Str → List (Char × Str)
  | _, [] => []
  | skip + 1, _ :: bs => unitsFrom skip bs
  | 0, b :: bs =>
    ((DecodeRune (b :: bs)).1, (b :: bs).take (DecodeRune (b :: bs)).2)
      :: unitsFrom ((DecodeRune (b :: bs)).2 - 1) bs

/-- What a loop `for _, r := range s` goes through: each code point of `s`
with the bytes it was decoded from, an invalid byte giving U+FFFD. -/
def units (s : Str) : List (Char × Str) := unitsFrom 0 s

/-- The code points of `s`, as `range` yields them. -/
def runes (s : Str) : List Char := (units s).map fun u => u.1

/-- Go `utf8.AppendRune`: the UTF-8 encoding of a code point. -/
def EncodeRune (r : Char) : Str :=
  if r.toNat < 0x80 then [r]
  else if r.toNat < 0x800 then
    [Char.ofNat (0xC0 + r.toNat / 64), Char.ofNat (0x80 + r.toNat % 64)]
  else if r.toNat < 0x10000 then
    [Char.ofNat (0xE0 + r.toNat / 4096), Char.ofNat (0x80 + r.toNat / 64 % 64),
      Char.ofNat (0x80 + r.toNat % 64)]
  else
    [Char.ofNat (0xF0 + r.toNat / 262144), Char.ofNat (0x80 + r.toNat / 4096 % 64),
      Char.ofNat (0x80 + r.toNat / 64 % 64), Char.ofNat (0x80 + r.toNat % 64)]

/-- The bytes of a text given by its code points. -/
def encode (text : List Char) : Str := text.flatMap EncodeRune

end utf8

namespace unicode

/-- The simple lower-case mapping of the Unicode Character Database above
U+007F, as Go's package `unicode` holds it: in a run (first, last, step,
offset) every code point `first + k * step` up to `last` is mapped to itself
plus `offset`. -/
def lowerRanges : List (Nat × Nat × Nat × Int) :=
  [ (0xC0, 0xD6, 1, 32), (0xD8, 0xDE, 1, 32), (0x100, 0x12E, 2, 1), (0x130, 0x130, 1, -199),
    (0x132, 0x136, 2, 1), (0x139, 0x147, 2, 1), (0x14A, 0x176, 2, 1), (0x178, 0x178, 1, -121),
    (0x179, 0x17D, 2, 1), (0x181, 0x181, 1, 210), (0x182, 0x184, 2, 1), (0x186, 0x186, 1, 206),
    (0x187, 0x187, 1, 1), (0x189, 0x18A, 1, 205), (0x18B, 0x18B, 1, 1), (0x18E, 0x18E, 1, 79),
    (0x18F, 0x18F, 1, 202), (0x190, 0x190, 1, 203), (0x191, 0x191, 1, 1), (0x193, 0x193, 1, 205),
    (0x194, 0x194, 1, 207), (0x196, 0x196, 1, 211), (0x197, 0x197, 1, 209), (0x198, 0x198, 1, 1),
    (0x19C, 0x19C, 1, 211), (0x19D, 0x19D, 1, 213), (0x19F, 0x19F, 1, 214), (0x1A0, 0x1A4, 2, 1),
    (0x1A6, 0x1A6, 1, 218), (0x1A7, 0x1A7, 1, 1), (0x1A9, 0x1A9, 1, 218), (0x1AC, 0x1AC, 1, 1),
    (0x1AE, 0x1AE, 1, 218), (0x1AF, 0x1AF, 1, 1), (0x1B1, 0x1B2, 1, 217), (0x1B3, 0x1B5, 2, 1),
    (0x1B7, 0x1B7, 1, 219), (0x1B8, 0x1B8, 1, 1), (0x1BC, 0x1BC, 1, 1), (0x1C4, 0x1C4, 1, 2),
    (0x1C5, 0x1C5, 1, 1), (0x1C7, 0x1C7, 1, 2), (0x1C8, 0x1C8, 1, 1), (0x1CA, 0x1CA, 1, 2),
    (0x1CB, 0x1DB, 2, 1), (0x1DE, 0x1EE, 2, 1), (0x1F1, 0x1F1, 1, 2), (0x1F2, 0x1F4, 2, 1),
    (0x1F6, 0x1F6, 1, -97), (0x1F7, 0x1F7, 1, -56), (0x1F8, 0x21E, 2, 1),
    (0x220, 0x220, 1, -130), (0x222, 0x232, 2, 1), (0x23A, 0x23A, 1, 10795),
    (0x23B, 0x23B, 1, 1), (0x23D, 0x23D, 1, -163), (0x23E, 0x23E, 1, 10792),
    (0x241, 0x241, 1, 1), (0x243, 0x243, 1, -195), (0x244, 0x244, 1, 69), (0x245, 0x245, 1, 71),
    (0x246, 0x24E, 2, 1), (0x370, 0x372, 2, 1), (0x376, 0x376, 1, 1), (0x37F, 0x37F, 1, 116),
    (0x386, 0x386, 1, 38), (0x388, 0x38A, 1, 37), (0x38C, 0x38C, 1, 64), (0x38E, 0x38F, 1, 63),
    (0x391, 0x3A1, 1, 32), (0x3A3, 0x3AB, 1, 32), (0x3CF, 0x3CF, 1, 8), (0x3D8, 0x3EE, 2, 1),
    (0x3F4, 0x3F4, 1, -60), (0x3F7, 0x3F7, 1, 1), (0x3F9, 0x3F9, 1, -7), (0x3FA, 0x3FA, 1, 1),
    (0x3FD, 0x3FF, 1, -130), (0x400, 0x40F, 1, 80), (0x410, 0x42F, 1, 32), (0x460, 0x480, 2, 1),
    (0x48A, 0x4BE, 2, 1), (0x4C0, 0x4C0, 1, 15), (0x4C1, 0x4CD, 2, 1), (0x4D0, 0x52E, 2, 1),
    (0x531, 0x556, 1, 48), (0x10A0, 0x10C5, 1, 7264), (0x10C7, 0x10C7, 1, 7264),
    (0x10CD, 0x10CD, 1, 7264), (0x13A0, 0x13EF, 1, 38864), (0x13F0, 0x13F5, 1, 8),
    (0x1C90, 0x1CBA, 1, -3008), (0x1CBD, 0x1CBF, 1, -3008), (0x1E00, 0x1E94, 2, 1),
    (0x1E9E, 0x1E9E, 1, -7615), (0x1EA0, 0x1EFE, 2, 1), (0x1F08, 0x1F0F, 1, -8),
    (0x1F18, 0x1F1D, 1, -8), (0x1F28, 0x1F2F, 1, -8), (0x1F38, 0x1F3F, 1, -8),
    (0x1F48, 0x1F4D, 1, -8), (0x1F59, 0x1F5F, 2, -8), (0x1F68, 0x1F6F, 1, -8),
    (0x1F88, 0x1F8F, 1, -8), (0x1F98, 0x1F9F, 1, -8), (0x1FA8, 0x1FAF, 1, -8),
    (0x1FB8, 0x1FB9, 1, -8), (0x1FBA, 0x1FBB, 1, -74), (0x1FBC, 0x1FBC, 1, -9),
    (0x1FC8, 0x1FCB, 1, -86), (0x1FCC, 0x1FCC, 1, -9), (0x1FD8, 0x1FD9, 1, -8),
    (0x1FDA, 0x1FDB, 1, -100), (0x1FE8, 0x1FE9, 1, -8), (0x1FEA, 0x1FEB, 1, -112),
    (0x1FEC, 0x1FEC, 1, -7), (0x1FF8, 0x1FF9, 1, -128), (0x1FFA, 0x1FFB, 1, -126),
    (0x1FFC, 0x1FFC, 1, -9), (0x2126, 0x2126, 1, -7517), (0x212A, 0x212A, 1, -8383),
    (0x212B, 0x212B, 1, -8262), (0x2132, 0x2132, 1, 28), (0x2160, 0x216F, 1, 16),
    (0x2183, 0x2183, 1, 1), (0x24B6, 0x24CF, 1, 26), (0x2C00, 0x2C2F, 1, 48),
    (0x2C60, 0x2C60, 1, 1), (0x2C62, 0x2C62, 1, -10743), (0x2C63, 0x2C63, 1, -3814),
    (0x2C64, 0x2C64, 1, -10727), (0x2C67, 0x2C6B, 2, 1), (0x2C6D, 0x2C6D, 1, -10780),
    (0x2C6E, 0x2C6E, 1, -10749), (0x2C6F, 0x2C6F, 1, -10783), (0x2C70, 0x2C70, 1, -10782),
    (0x2C72, 0x2C72, 1, 1), (0x2C75, 0x2C75, 1, 1), (0x2C7E, 0x2C7F, 1, -10815),
    (0x2C80, 0x2CE2, 2, 1), (0x2CEB, 0x2CED, 2, 1), (0x2CF2, 0x2CF2, 1, 1),
    (0xA640, 0xA66C, 2, 1), (0xA680, 0xA69A, 2, 1), (0xA722, 0xA72E, 2, 1),
    (0xA732, 0xA76E, 2, 1), (0xA779, 0xA77B, 2, 1), (0xA77D, 0xA77D, 1, -35332),
    (0xA77E, 0xA786, 2, 1), (0xA78B, 0xA78B, 1, 1), (0xA78D, 0xA78D, 1, -42280),
    (0xA790, 0xA792, 2, 1), (0xA796, 0xA7A8, 2, 1), (0xA7AA, 0xA7AA, 1, -42308),
    (0xA7AB, 0xA7AB, 1, -42319), (0xA7AC, 0xA7AC, 1, -42315), (0xA7AD, 0xA7AD, 1, -42305),
    (0xA7AE, 0xA7AE, 1, -42308), (0xA7B0, 0xA7B0, 1, -42258), (0xA7B1, 0xA7B1, 1, -42282),
    (0xA7B2, 0xA7B2, 1, -42261), (0xA7B3, 0xA7B3, 1, 928), (0xA7B4, 0xA7C2, 2, 1),
    (0xA7C4, 0xA7C4, 1, -48), (0xA7C5, 0xA7C5, 1, -42307), (0xA7C6, 0xA7C6, 1, -35384),
    (0xA7C7, 0xA7C9, 2, 1), (0xA7D0, 0xA7D0, 1, 1), (0xA7D6, 0xA7D8, 2, 1),
    (0xA7F5, 0xA7F5, 1, 1), (0xFF21, 0xFF3A, 1, 32), (0x10400, 0x10427, 1, 40),
    (0x104B0, 0x104D3, 1, 40), (0x10570, 0x1057A, 1, 39), (0x1057C, 0x1058A, 1, 39),
    (0x1058C, 0x10592, 1, 39), (0x10594, 0x10595, 1, 39), (0x10C80, 0x10CB2, 1, 64),
    (0x118A0, 0x118BF, 1, 32), (0x16E40, 0x16E5F, 1, 32), (0x1E900, 0x1E921, 1, 34) ]

/-- Go `unicode.ToLower`. -/
def ToLower (r : Char) : Char :=
  if r.toNat < 0x80 then
    if 'A' ≤ r ∧ r ≤ 'Z' then Char.ofNat (r.toNat + 32) else r
  else
    match lowerRanges.find? fun e =>
        decide (e.1 ≤ r.toNat ∧ r.toNat ≤ e.2.1 ∧ (r.toNat - e.1) % e.2.2.1 = 0) with
    | some e => Char.ofNat ((r.toNat : Int) + e.2.2.2).toNat
    | none => r

end unicode

namespace strings

/-- Go `unicode.ToLower`. -/
def toLowerRune (c : Char) : Char := unicode.ToLower c

/-- Go `strings.ToLower`: every code point of the string, as `range` yields
them, is mapped to lower case and encoded again; an invalid byte comes out as
the encoding of U+FFFD. -/
def ToLower (s : Str) : Str := utf8.encode ((utf8.runes s).map toLowerRune)

/-- Go `unicode.IsSpace`. -/
def isSpace (c : Char) : Bool :=
  let n := c.toNat
  (9 ≤ n && n ≤ 13) || n = 0x20 || n = 0x85 || n = 0xA0 || n = 0x1680 ||
  (0x2000 ≤ n && n ≤ 0x200A) || n = 0x2028 || n = 0x2029 || n = 0x202F ||
  n = 0x205F || n = 0x3000

/-- Go `strings.HasPrefix`. -/
def HasPrefix (s p : Str) : Bool := p.isPrefixOf s

/-- Go `strings.TrimPrefix`. -/
def TrimPrefix (s p : Str) : Str := if HasPrefix s p then s.drop p.length else s

/-- Go `strings.Contains`: `sub` occurs in `s` as a contiguous run of bytes. -/
def Contains : Str → Str → Bool
  | [], sub => HasPrefix [] sub
  | c :: cs, sub => HasPrefix (c :: cs) sub || Contains cs sub

/-- The scan of `strings.Count` for a non-empty `sub`: `skip` is the number of
positions still covered by the occurrence counted last. -/
def countFrom (sub : Str) : Nat → Str → Nat
  | _, [] => 0
  | skip + 1, _ :: cs => countFrom sub skip cs
  | 0, c :: cs =>
    if HasPrefix (c :: cs) sub then countFrom sub (sub.length - 1) cs + 1
    else countFrom sub 0 cs

/-- Go `strings.Count` for a non-empty `sub`: the number of non-overlapping
occurrences of `sub`. For the empty `sub` Go counts the code points plus one. -/
def Count (s sub : Str) : Nat :=
  if sub = [] then (utf8.runes s).length + 1 else countFrom sub 0 s

/-- Go `strings.Split(s, sep)` for a separator of one byte. -/
def Split (sep : Char) : Str → List Str
  | [] => [[]]
  | c :: cs =>
    if c = sep then [] :: Split sep cs
    else
      match Split sep cs with
      | [] => [[c]]
      | l :: ls => (c :: l) :: ls

/-- Go `strings.Join(parts, sep)` for a separator of one byte. -/
def Join (sep : Char) : List Str → Str
  | [] => []
  | [l] => l
  | l :: l2 :: ls => l ++ sep :: Join sep (l2 :: ls)

/-- The fields of a decoded string: the bytes of each maximal run of code
points that are no white space. -/
def fieldsOf : List (Char × Str) → List Str
  | [] => []
  | u :: us =>
    if isSpace u.1 then fieldsOf us
    else
      match us, fieldsOf us with
      | d :: _, w :: ws => if isSpace d.1 then u.2 :: w :: ws else (u.2 ++ w) :: ws
      | _, ws => u.2 :: ws

/-- Go `strings.Fields`: the maximal runs of code points that are no white
space. -/
def Fields (s : Str) : List Str := fieldsOf (utf8.units s)

/-- Go `strings.TrimSpace`: the string without its leading and its trailing
white-space code points. -/
def TrimSpace (s : Str) : Str :=
  ((((utf8.units s).dropWhile fun u => isSpace u.1).reverse.dropWhile
    fun u => isSpace u.1).reverse).flatMap fun u => u.2

end strings

/-- Go `fmt.Sprintf("%d", n)`. -/
def fmtInt (n : Int) : Str := (toString n).toList

/-! ## float64 arithmetic -/

namespace F64

/-- The integer nearest to `x`, a tie going to the even neighbour. -/
def roundEven (x : ℚ) : ℤ :=
  if x - ⌊x⌋ < 1 / 2 then ⌊x⌋
  else if 1 / 2 < x - ⌊x⌋ then ⌊x⌋ + 1
  else if ⌊x⌋ % 2 = 0 then ⌊x⌋ else ⌊x⌋ + 1

/-- The unit in the last place of the binade of `q`: with
`2 ^ e ≤ |q| < 2 ^ (e + 1)` it is `2 ^ (e - 52)`. -/
def ulp (q : ℚ) : ℚ := 2 ^ (Int.log 2 |q| - 52)

/-- Rounding to the nearest float64, ties to even. -/
def rnd (q : ℚ) : ℚ := if q = 0 then 0 else roundEven (q / ulp q) * ulp q

/-- Go `float64(n)` for an integer `n`. -/
def ofInt (n : Int) : ℚ := rnd n

/-- A decimal constant of the source, as the compiler rounds it. -/
def lit (q : ℚ) : ℚ := rnd q

/-- Go `x + y` on float64. -/
def add (x y : ℚ) : ℚ := rnd (x + y)

/-- Go `x - y` on float64. -/
def sub (x y : ℚ) : ℚ := rnd (x - y)

/-- Go `x / y` on float64, for `y ≠ 0`. -/
def div (x y : ℚ) : ℚ := rnd (x / y)

/-- Go `int(x)` for a float64 `x`: truncation toward zero. For a value outside
the range of the 64-bit `int` the result depends on the platform; the value
taken is the one of the amd64 conversion, -2^63. -/
def toInt (x : ℚ) : Int :=
  if -2 ^ 63 ≤ (if 0 ≤ x then ⌊x⌋ else ⌈x⌉) ∧ (if 0 ≤ x then ⌊x⌋ else ⌈x⌉) < 2 ^ 63 then
    if 0 ≤ x then ⌊x⌋ else ⌈x⌉
  else -2 ^ 63

end F64

/-- Go `time.Duration.Seconds` of a duration of `d` nanoseconds:
`float64(d / Second) + float64(d % Second) / 1e9`. -/
def Seconds (d : Int) : ℚ :=
  F64.add (F64.ofInt (d.tdiv 1000000000))
    (F64.div (F64.ofInt (d.tmod 1000000000)) (F64.lit 1000000000))

/-- The decimal digits of `n`, padded on the left with zeros to `width`. -/
def padDigits (width n : Nat) : Str :=
  let ds := (toString n).toList
  List.replicate (width - ds.length) '0' ++ ds

/-- Go `fmt.Sprintf("%.<prec>f", x)`: the exact value of `x` rounded to `prec`
decimals, ties to even. -/
def fmtFixed (prec : Nat) (x : ℚ) : Str :=
  let n := (F64.roundEven (|x| * 10 ^ prec)).toNat
  (if x < 0 then ['-'] else []) ++ (toString (n / 10 ^ prec)).toList ++
    (if prec = 0 then [] else '.' :: padDigits prec (n % 10 ^ prec))

/-! ## Data model -/

/-- Modelled from the spec: `Commit` of `internal/git`, whose declaration is
not among the sources: hash, author, message and timestamp. -/
structure Commit where
  Hash : Str
  Author : Str
  Message : Str
  Timestamp : Int

/-- Modelled from the spec: `DiffStats` of `internal/git`. The strategies pass
`Additions` as an `int64`. -/
structure DiffStats where
  Additions : Int
  Deletions : Int
  FilesChanged : Int

/-- Modelled from the spec: `CommitPair` of `internal/git`. `TimeDelta` is a
Go `time.Duration`, a count of nanoseconds. -/
structure CommitPair where
  Previous : Commit
  Current : Commit
  Stats : DiffStats
  TimeDelta : Int
  DiffContent : Str

/-- Modelled from the spec: `RepositoryStats` of `internal/metrics`,
repository-scoped counters handed to every strategy. -/
structure RepositoryStats where
  counters : List Int

/-- The number of entries of `patterns` that occur in `text`: the loop
`for _, pattern := range patterns { if strings.Contains(text, pattern) { n++ } }`. -/
def countMatches (text : Str) (patterns : List Str) : Nat :=
  patterns.countP fun pattern => strings.Contains text pattern

/-- The added lines of a diff, as the naming, error-handling and template
analyses extract them: the lines that start with `+` but not with `+++`,
without their leading `+`. -/
def addedLines (diffContent : Str) : List Str :=
  ((strings.Split '\n' diffContent).filter fun line =>
      strings.HasPrefix line "+".toList && !strings.HasPrefix line "+++".toList).map
    fun line => strings.TrimPrefix line "+".toList

/-! ## Commit-message strategy -/

structure CommitMessageStrategy where
  enabled : Bool

def NewCommitMessageStrategy : CommitMessageStrategy := { enabled := true }

namespace CommitMessageStrategy

def Name (_s : CommitMessageStrategy) : Str := "commit_message_analysis".toList

def aiPatterns : List Str :=
  [ "implement".toList, "add functionality".toList, "update code".toList,
    "refactor code".toList, "improve implementation".toList,
    "enhance functionality".toList, "optimize performance".toList,
    "fix issues".toList, "improve code quality".toList, "add new features".toList,
    "update implementation".toList, "add support for".toList ]

def genericPatterns : List Str :=
  [ "initial commit".toList, "update readme".toList, "update dependencies".toList,
    "minor fixes".toList, "code cleanup".toList, "bug fixes".toList,
    "improvements".toList, "updates".toList, "changes".toList,
    "modifications".toList ]

def Detect (s : CommitMessageStrategy) (pair : CommitPair) (_repoStats : RepositoryStats) :
    Bool × Str :=
  if !s.enabled then (false, [])
  else
    let msg := strings.ToLower pair.Current.Message
    let aiScore := countMatches msg aiPatterns
    let genericScore := countMatches msg genericPatterns
    if aiScore ≥ 2 ∨ genericScore ≥ 1 then
      (true,
        "Suspicious commit message patterns - generic/AI-like phrasing (AI patterns: ".toList
          ++ fmtInt aiScore ++ ", generic: ".toList ++ fmtInt genericScore ++ ")".toList)
    else
      let words := strings.Fields msg
      if words.length > 8 ∧
          (strings.Contains msg "implement".toList ∨ strings.Contains msg "functionality".toList) then
        (true, "Overly verbose yet generic commit message - typical of AI generation".toList)
      else (false, [])

end CommitMessageStrategy

/-! ## Naming-pattern strategy -/

/-- The helper `isPerfectCamelCase`: `word[0]` is the first byte, the loop
ranges over the code points. -/
def isPerfectCamelCase (word : Str) : Bool :=
  if byteLen word < 2 then false
  else
    match word with
    | [] => false
    | b :: _ =>
      if !(97 ≤ b.toNat ∧ b.toNat ≤ 122) then false
      else ((utf8.runes word).countP fun r => 'A' ≤ r ∧ r ≤ 'Z') == 1

structure NamingPatternStrategy where
  enabled : Bool

def NewNamingPatternStrategy : NamingPatternStrategy := { enabled := true }

namespace NamingPatternStrategy

def Name (_s : NamingPatternStrategy) : Str := "naming_pattern_analysis".toList

def genericVarPatterns : List Str :=
  [ "var1".toList, "var2".toList, "temp".toList, "data".toList, "result".toList,
    "value".toList, "item".toList, "element".toList, "obj".toList, "instance".toList,
    "helper".toList, "utility".toList, "manager".toList ]

def genericNames : List Str :=
  [ "variable".toList, "function".toList, "method".toList, "class".toList,
    "object".toList, "instance".toList, "data".toList, "result".toList,
    "value".toList, "item".toList, "element".toList, "component".toList,
    "helper".toList, "utility".toList, "manager".toList, "handler".toList,
    "service".toList ]

/-- The value of `suspiciousPatterns` when `analyzeCodeContent` reaches its
final test, for the added lines `added`. -/
def suspiciousPatterns (added : List Str) : Nat :=
  let codeContent := strings.Join '\n' added
  let generic := countMatches (strings.ToLower codeContent) genericVarPatterns
  let todoCount := strings.Count (strings.ToLower codeContent) "todo".toList
  let fixmeCount := strings.Count (strings.ToLower codeContent) "fixme".toList
  let words := strings.Fields codeContent
  let perfectCamelCaseCount := words.countP fun word => byteLen word > 4 && isPerfectCamelCase word
  let errorHandlingCount :=
    strings.Count codeContent "catch".toList + strings.Count codeContent "except".toList
      + strings.Count codeContent "try".toList
  generic
    + (if todoCount > 2 ∨ fixmeCount > 1 then 1 else 0)
    + (if words.length > 10 ∧
          F64.div (F64.ofInt perfectCamelCaseCount) (F64.ofInt words.length) > F64.lit (3 / 10)
        then 1 else 0)
    + (if (strings.Contains codeContent "catch".toList ∨
            strings.Contains codeContent "except".toList) ∧
          errorHandlingCount > added.length / 20
        then 1 else 0)

def analyzeCodeContent (diffContent : Str) : Bool × Str :=
  let added := addedLines diffContent
  if added.length = 0 then (false, [])
  else if suspiciousPatterns added ≥ 2 then
    (true,
      "Code contains multiple AI-slop patterns (".toList ++ fmtInt (suspiciousPatterns added)
        ++ " detected) - generic names, TODO comments, perfect patterns".toList)
  else (false, [])

def Detect (s : NamingPatternStrategy) (pair : CommitPair) (_repoStats : RepositoryStats) :
    Bool × Str :=
  if !s.enabled then (false, [])
  else if pair.DiffContent ≠ [] then analyzeCodeContent pair.DiffContent
  else
    let msg := strings.ToLower pair.Current.Message
    let nameCount := countMatches msg genericNames
    if nameCount ≥ 2 then
      (true,
        "Commit message contains multiple generic naming terms (".toList ++ fmtInt nameCount
          ++ ") - may indicate AI-generated variable names".toList)
    else (false, [])

end NamingPatternStrategy

/-! ## Structural-consistency strategy -/

/-- The helper `isNearInteger`. -/
def isNearInteger (value tolerance : ℚ) : Bool :=
  let remainder := F64.sub value (F64.ofInt (F64.toInt value))
  remainder < tolerance || remainder > F64.sub 1 tolerance

structure StructuralConsistencyStrategy where
  enabled : Bool

def NewStructuralConsistencyStrategy : StructuralConsistencyStrategy := { enabled := true }

namespace StructuralConsistencyStrategy

def Name (_s : StructuralConsistencyStrategy) : Str := "structural_consistency_analysis".toList

/-- The quotient `float64(additions) / float64(deletions)`. -/
def ratioOf (pair : CommitPair) : ℚ :=
  F64.div (F64.ofInt pair.Stats.Additions) (F64.ofInt pair.Stats.Deletions)

def Detect (s : StructuralConsistencyStrategy) (pair : CommitPair)
    (_repoStats : RepositoryStats) : Bool × Str :=
  if !s.enabled then (false, [])
  else if pair.Stats.Additions > 100 ∧ pair.Stats.Deletions > 100 then
    if ratioOf pair ≥ F64.lit (9 / 10) ∧ ratioOf pair ≤ F64.lit (11 / 10) then
      (true,
        "Suspiciously balanced addition/deletion ratio: ".toList ++ fmtFixed 2 (ratioOf pair)
          ++ " - may indicate automated refactoring".toList)
    else if isNearInteger (ratioOf pair) (F64.lit (1 / 20)) ||
        isNearInteger (F64.div 1 (ratioOf pair)) (F64.lit (1 / 20)) then
      (true,
        "Suspiciously consistent addition/deletion ratio: ".toList ++ fmtFixed 2 (ratioOf pair)
          ++ " - may indicate template-based generation".toList)
    else (false, [])
  else (false, [])

end StructuralConsistencyStrategy

/-! ## Burst-pattern strategy -/

structure BurstPatternStrategy where
  maxCommitsPerHour : Int
  enabled : Bool

def NewBurstPatternStrategy (maxPerHour : Int) : BurstPatternStrategy :=
  { maxCommitsPerHour := maxPerHour, enabled := true }

namespace BurstPatternStrategy

def Name (_s : BurstPatternStrategy) : Str := "burst_pattern_analysis".toList

def Detect (s : BurstPatternStrategy) (pair : CommitPair) (_repoStats : RepositoryStats) :
    Bool × Str :=
  if !s.enabled ∨ s.maxCommitsPerHour ≤ 0 then (false, [])
  else if Seconds pair.TimeDelta < F64.lit 300 ∧ pair.Stats.Additions > 50 then
    (true,
      "Rapid commit pattern: ".toList ++ fmtFixed 1 (Seconds pair.TimeDelta)
        ++ " seconds between substantial commits - may indicate batch processing".toList)
  else (false, [])

end BurstPatternStrategy

/-! ## Error-handling strategy -/

structure ErrorHandlingPatternStrategy where
  enabled : Bool

def NewErrorHandlingPatternStrategy : ErrorHandlingPatternStrategy := { enabled := true }

namespace ErrorHandlingPatternStrategy

def Name (_s : ErrorHandlingPatternStrategy) : Str := "error_handling_analysis".toList

/-- The patterns whose occurrences `analyzeErrorHandling` adds up, in the
order of the source. -/
def errorPatterns : List Str :=
  [ "try".toList, "catch".toList, "except".toList, "throw".toList, "throws".toList,
    "error".toList, "exception".toList, "handle".toList, "if err != nil".toList,
    ".catch(".toList, "rescue".toList ]

/-- The value of `errorHandlingPatterns` for the lower-cased added text. -/
def errorHandlingPatterns (codeContent : Str) : Nat :=
  (errorPatterns.map fun pattern => strings.Count codeContent pattern).sum

def analyzeErrorHandling (diffContent : Str) (additions : Int) : Bool × Str :=
  let added := addedLines diffContent
  if added.length < 20 then (false, [])
  else
    let codeContent := strings.ToLower (strings.Join '\n' added)
    let observed := errorHandlingPatterns codeContent
    let expectedErrorHandling := added.length / 30
    if additions > 100 ∧ observed < expectedErrorHandling then
      (true,
        "Large code addition (".toList ++ fmtInt additions
          ++ " lines) with insufficient error handling (".toList ++ fmtInt observed
          ++ " patterns, expected ~".toList ++ fmtInt expectedErrorHandling
          ++ ") - typical AI omission".toList)
    else if observed > added.length / 5 then
      (true,
        "Excessive error handling patterns (".toList ++ fmtInt observed ++ " in ".toList
          ++ fmtInt added.length ++ " lines) - may indicate AI over-compensation".toList)
    else (false, [])

/-- The test `hasErrorPatterns` of the commit-message fallback. -/
def hasErrorPatterns (msg : Str) : Bool :=
  strings.Contains msg "error".toList || strings.Contains msg "exception".toList ||
    strings.Contains msg "try".toList || strings.Contains msg "catch".toList ||
    strings.Contains msg "handle".toList

def Detect (s : ErrorHandlingPatternStrategy) (pair : CommitPair)
    (_repoStats : RepositoryStats) : Bool × Str :=
  if !s.enabled then (false, [])
  else if pair.DiffContent ≠ [] ∧ pair.Stats.Additions > 50 then
    analyzeErrorHandling pair.DiffContent pair.Stats.Additions
  else if pair.Stats.Additions > 200 then
    let msg := strings.ToLower pair.Current.Message
    if !hasErrorPatterns msg ∧ pair.Stats.Additions > 300 then
      (true,
        "Large code addition (".toList ++ fmtInt pair.Stats.Additions
          ++ " lines) with no error handling mentions - AI often omits error handling".toList)
    else (false, [])
  else (false, [])

end ErrorHandlingPatternStrategy

/-! ## Template-pattern strategy -/

structure TemplatePatternStrategy where
  enabled : Bool

def NewTemplatePatternStrategy : TemplatePatternStrategy := { enabled := true }

namespace TemplatePatternStrategy

def Name (_s : TemplatePatternStrategy) : Str := "template_pattern_analysis".toList

def templatePatterns : List Str :=
  [ "boilerplate".toList, "template".toList, "skeleton".toList, "scaffold".toList,
    "stub".toList, "placeholder".toList, "todo".toList, "fixme".toList ]

def templateComments : List Str :=
  [ "todo".toList, "fixme".toList, "placeholder".toList, "implement".toList,
    "add code here".toList, "your code here".toList, "example".toList, "sample".toList,
    "template".toList, "boilerplate".toList ]

/-- The body of the repetition loop for one pair of adjacent added lines:
whether the pair raises `repetitiveCount`. -/
def similarLines (a b : Str) : Bool :=
  let line1 := strings.TrimSpace a
  let line2 := strings.TrimSpace b
  if byteLen line1 > 10 ∧ byteLen line2 > 10 then
    let words1 := strings.Fields line1
    let words2 := strings.Fields line2
    if words1.length = words2.length ∧ words1.length > 3 then
      decide ((List.zip words1 words2).countP (fun w => w.1 ≠ w.2) ≤ 2)
    else false
  else false

/-- The value of `repetitiveCount` after the loop over adjacent added lines. -/
def repetitiveCount : List Str → Nat
  | a :: b :: rest => (if similarLines a b then 1 else 0) + repetitiveCount (b :: rest)
  | _ => 0

/-- The indentation width the loop computes for a line: a space counts 1, a
tab 4, up to the first other code point. -/
def indentOf : Str → Nat
  | [] => 0
  | c :: cs => if c = ' ' then indentOf cs + 1 else if c = '\t' then indentOf cs + 4 else 0

/-- The update `indentationLevels[indent]++` on a map held as a list of
(key, count) entries. -/
def bump (indent : Nat) : List (Nat × Nat) → List (Nat × Nat)
  | [] => [(indent, 1)]
  | (k, n) :: rest => if k = indent then (k, n + 1) :: rest else (k, n) :: bump indent rest

/-- The map `indentationLevels` after the loop over the added lines. -/
def indentationLevels (added : List Str) : List (Nat × Nat) :=
  added.foldl
    (fun levels line => if strings.TrimSpace line ≠ [] then bump (indentOf line) levels else levels)
    []

/-- The value of `consistentIndentation` after the loop over the entries of
the map, visited in the order `entries`. -/
def consistentIndentation (totalLines : Nat) (entries : List (Nat × Nat)) : Nat :=
  entries.foldl (fun acc e => if e.2 > totalLines / 10 then acc + e.2 else acc) 0

/-- The lines collected in `importLines`. -/
def importLines (added : List Str) : List Str :=
  added.filter fun line => strings.Contains (strings.ToLower line) "import".toList

/-- The value of `suspiciousPatterns` when `analyzeTemplatePatterns` reaches its
final test, for the added lines `added`. -/
def suspiciousPatterns (added : List Str) : Nat :=
  let lowerContent := strings.ToLower (strings.Join '\n' added)
  let totalLines := added.length
  countMatches lowerContent templateComments
    + (if repetitiveCount added > added.length / 8 then 1 else 0)
    + (if totalLines > 20 ∧
          F64.div (F64.ofInt (consistentIndentation totalLines (indentationLevels added)))
            (F64.ofInt totalLines) > F64.lit (9 / 10)
        then 1 else 0)
    + (if strings.Contains lowerContent "import".toList ∧ (importLines added).length > 5 ∧
          added.length < (importLines added).length * 10
        then 1 else 0)

def analyzeTemplatePatterns (diffContent : Str) : Bool × Str :=
  let added := addedLines diffContent
  if added.length < 10 then (false, [])
  else if suspiciousPatterns added ≥ 2 then
    (true,
      "Template/generated code patterns detected (".toList ++ fmtInt (suspiciousPatterns added)
        ++ " indicators) - repetitive structure, perfect formatting, template comments".toList)
  else (false, [])

/-- The commit-message fallback at the end of `Detect`. -/
def messageFallback (pair : CommitPair) : Bool × Str :=
  let msg := strings.ToLower pair.Current.Message
  let patternCount := countMatches msg templatePatterns
  if patternCount > 0 ∧ pair.Stats.Additions > 100 then
    (true,
      "Template/boilerplate patterns detected in large commit (".toList
        ++ fmtInt pair.Stats.Additions ++ " lines) - may be AI-generated scaffold".toList)
  else (false, [])

def Detect (s : TemplatePatternStrategy) (pair : CommitPair) (_repoStats : RepositoryStats) :
    Bool × Str :=
  if !s.enabled then (false, [])
  else
    let content :=
      if pair.DiffContent ≠ [] ∧ pair.Stats.Additions > 50 then
        analyzeTemplatePatterns pair.DiffContent
      else (false, [])
    if content.1 then content else messageFallback pair

end TemplatePatternStrategy

/-! ## File-dispersion strategy -/

structure FileExtensionPatternStrategy where
  enabled : Bool

def NewFileExtensionPatternStrategy : FileExtensionPatternStrategy := { enabled := true }

namespace FileExtensionPatternStrategy

def Name (_s : FileExtensionPatternStrategy) : Str := "file_extension_analysis".toList

/-- The quotient `float64(additions) / float64(filesChanged)`. -/
def avgLinesPerFile (pair : CommitPair) : ℚ :=
  F64.div (F64.ofInt pair.Stats.Additions) (F64.ofInt pair.Stats.FilesChanged)

/-- The value `1.0 - (avg - float64(int(avg)))`. -/
def consistency (avg : ℚ) : ℚ :=
  F64.sub 1 (F64.sub avg (F64.ofInt (F64.toInt avg)))

def Detect (s : FileExtensionPatternStrategy) (pair : CommitPair)
    (_repoStats : RepositoryStats) : Bool × Str :=
  if !s.enabled then (false, [])
  else if pair.Stats.FilesChanged > 10 ∧ pair.Stats.Additions > 1000 then
    if avgLinesPerFile pair > F64.lit 50 ∧ avgLinesPerFile pair < F64.lit 200 then
      if consistency (avgLinesPerFile pair) > F64.lit (8 / 10) then
        (true,
          "Suspicious file creation pattern: ".toList ++ fmtInt pair.Stats.FilesChanged
            ++ " files with consistent size (~".toList ++ fmtFixed 0 (avgLinesPerFile pair)
            ++ " lines each) - may be generated".toList)
      else (false, [])
    else (false, [])
  else (false, [])

end FileExtensionPatternStrategy

/-! ## Conditions as the spec words them, and sample inputs -/

/-- The flagging condition of the file-dispersion strategy as the spec words
it, evaluated in exact rational arithmetic on the integer counts. -/
def FileExtensionPatternStrategy.exactCondition (pair : CommitPair) : Prop :=
  pair.Stats.FilesChanged > 10 ∧ pair.Stats.Additions > 1000 ∧
  (50 : ℚ) < (pair.Stats.Additions : ℚ) / pair.Stats.FilesChanged ∧
  (pair.Stats.Additions : ℚ) / pair.Stats.FilesChanged < 200 ∧
  1 - Int.fract ((pair.Stats.Additions : ℚ) / pair.Stats.FilesChanged) > 8 / 10

instance (pair : CommitPair) : Decidable (FileExtensionPatternStrategy.exactCondition pair) := by
  unfold FileExtensionPatternStrategy.exactCondition
  infer_instance

/-- A commit pair carrying the given message, statistics, time delta and diff. -/
def mkPair (msg : Str) (additions deletions filesChanged : Int) (timeDelta : Int)
    (diff : Str) : CommitPair :=
  { Previous := { Hash := [], Author := [], Message := [], Timestamp := 0 }
    Current := { Hash := [], Author := [], Message := msg, Timestamp := 0 }
    Stats := { Additions := additions, Deletions := deletions, FilesChanged := filesChanged }
    TimeDelta := timeDelta
    DiffContent := diff }

/-- The rationals a finite float64 can denote (exponent range apart): a
significand of at most 53 bits times a power of two. -/
def IsF64 (x : ℚ) : Prop := ∃ m j : ℤ, |m| < 2 ^ 53 ∧ x = m * 2 ^ j

/-- A diff of 40 added lines without any error-handling keyword. -/
def fortyPlainLines : Str :=
  strings.Join '\n' (List.replicate 40 "+x".toList)

/-- A diff of ten added lines, each a comment with two template phrases. -/
def tenTemplateLines : Str :=
  strings.Join '\n' (List.replicate 10 "+// todo: placeholder".toList)

/-! ## Velocity metric -/

/-- Go `time.Duration.Minutes` of a duration of `d` nanoseconds:
`float64(d / Minute) + float64(d % Minute) / (60 * 1e9)`. -/
def Minutes (d : Int) : ℚ :=
  F64.add (F64.ofInt (d.tdiv 60000000000))
    (F64.div (F64.ofInt (d.tmod 60000000000)) (F64.lit 60000000000))

/-- The error of `CalculateVelocityPerMinute`,
`invalid time delta: <timeDelta> (must be positive)`; it carries the duration,
whose rendering by `%v` is not modelled. -/
inductive VelocityError where
  | invalidTimeDelta (timeDelta : Int)
  deriving DecidableEq

structure VelocityMetrics where
  LOCPerMinute : ℚ

def CalculateVelocityPerMinute (loc : Int) (timeDelta : Int) : Except VelocityError ℚ :=
  if timeDelta ≤ 0 then .error (.invalidTimeDelta timeDelta)
  else .ok (F64.div (F64.ofInt loc) (Minutes timeDelta))

def CalculateVelocity (loc : Int) (timeDelta : Int) : Except VelocityError VelocityMetrics :=
  match CalculateVelocityPerMinute loc timeDelta with
  | .error err => .error err
  | .ok velocity => .ok { LOCPerMinute := velocity }

/-- A unified diff of one file whose only added line is the statement `++i;`:
the file headers, the hunk header, one context line and the added line, which
the diff shows as `+++i;`. -/
def incrementDiff : Str :=
  "--- a/x.c\n+++ b/x.c\n@@ -1 +1,2 @@\n i = 0;\n+++i;".toList

/-! ## Template-pattern strategy with an explicit iteration order

Go leaves the order in which `range` visits the entries of a map unspecified.
The definitions below take that order as a parameter: `visit m` is the sequence
in which the entries of the map `m` are yielded. -/

namespace TemplatePatternStrategy

/-- The value of `suspiciousPatterns` when the loop over `indentationLevels`
visits the buckets in the order `visit` yields. -/
def suspiciousPatternsVisiting (visit : List (Nat × Nat) → List (Nat × Nat))
    (added : List Str) : Nat :=
  let lowerContent := strings.ToLower (strings.Join '\n' added)
  let totalLines := added.length
  countMatches lowerContent templateComments
    + (if repetitiveCount added > added.length / 8 then 1 else 0)
    + (if totalLines > 20 ∧
          F64.div (F64.ofInt (consistentIndentation totalLines (visit (indentationLevels added))))
            (F64.ofInt totalLines) > F64.lit (9 / 10)
        then 1 else 0)
    + (if strings.Contains lowerContent "import".toList ∧ (importLines added).length > 5 ∧
          added.length < (importLines added).length * 10
        then 1 else 0)

def analyzeTemplatePatternsVisiting (visit : List (Nat × Nat) → List (Nat × Nat))
    (diffContent : Str) : Bool × Str :=
  let added := addedLines diffContent
  if added.length < 10 then (false, [])
  else if suspiciousPatternsVisiting visit added ≥ 2 then
    (true,
      "Template/generated code patterns detected (".toList
        ++ fmtInt (suspiciousPatternsVisiting visit added)
        ++ " indicators) - repetitive structure, perfect formatting, template comments".toList)
  else (false, [])

def DetectVisiting (s : TemplatePatternStrategy) (visit : List (Nat × Nat) → List (Nat × Nat))
    (pair : CommitPair) (_repoStats : RepositoryStats) : Bool × Str :=
  if !s.enabled then (false, [])
  else
    let content :=
      if pair.DiffContent ≠ [] ∧ pair.Stats.Additions > 50 then
        analyzeTemplatePatternsVisiting visit pair.DiffContent
      else (false, [])
    if content.1 then content else messageFallback pair

end TemplatePatternStrategy

/-! ## The strategies with their partial operations checked

A Go index expression out of range and an integer division by zero stop the
program with a run-time panic. The definitions below repeat the strategies with
every index expression and every division of the source evaluated by a checked
operation, whose result is `none` where the operand is out of its domain; the
tests that guard them are kept, with the short-circuit evaluation of `&&` and
`||`. A quotient of two float64 by zero is counted as a failure as well. -/

namespace Checked

/-- Go `x / y` on integers. -/
def idiv (x y : Nat) : Option Nat := if y = 0 then none else some (x / y)

/-- Go `x / y` on float64, refused for `y = 0`. -/
def fdiv (x y : ℚ) : Option ℚ := if y = 0 then none else some (F64.div x y)

/-- Go `xs[i]` on a slice. -/
def index {α : Type} (xs : List α) (i : Nat) : Option α := xs[i]?

/-- Go `s[0]` on a string: its first byte. -/
def byte0 : Str → Option Nat
  | [] => none
  | c :: _ => some c.toNat

end Checked

def SecondsChecked (d : Int) : Option ℚ := do
  let frac ← Checked.fdiv (F64.ofInt (d.tmod 1000000000)) (F64.lit 1000000000)
  pure (F64.add (F64.ofInt (d.tdiv 1000000000)) frac)

def isPerfectCamelCaseChecked (word : Str) : Option Bool :=
  if byteLen word < 2 then some false
  else do
    let b ← Checked.byte0 word
    if !(97 ≤ b ∧ b ≤ 122) then pure false
    else pure (((utf8.runes word).countP fun r => 'A' ≤ r ∧ r ≤ 'Z') == 1)

namespace CommitMessageStrategy

def DetectChecked (s : CommitMessageStrategy) (pair : CommitPair)
    (_repoStats : RepositoryStats) : Option (Bool × Str) :=
  if !s.enabled then pure (false, [])
  else
    let msg := strings.ToLower pair.Current.Message
    let aiScore := countMatches msg aiPatterns
    let genericScore := countMatches msg genericPatterns
    if aiScore ≥ 2 ∨ genericScore ≥ 1 then
      pure (true,
        "Suspicious commit message patterns - generic/AI-like phrasing (AI patterns: ".toList
          ++ fmtInt aiScore ++ ", generic: ".toList ++ fmtInt genericScore ++ ")".toList)
    else
      let words := strings.Fields msg
      if words.length > 8 ∧
          (strings.Contains msg "implement".toList ∨ strings.Contains msg "functionality".toList) then
        pure (true, "Overly verbose yet generic commit message - typical of AI generation".toList)
      else pure (false, [])

end CommitMessageStrategy

namespace NamingPatternStrategy

/-- The loop that counts the words in perfect camel case. -/
def perfectCamelCaseCountChecked (words : List Str) : Option Nat :=
  words.foldlM
    (fun count word =>
      if byteLen word > 4 then do
        let perfect ← isPerfectCamelCaseChecked word
        pure (if perfect then count + 1 else count)
      else pure count)
    0

def suspiciousPatternsChecked (added : List Str) : Option Nat := do
  let codeContent := strings.Join '\n' added
  let generic := countMatches (strings.ToLower codeContent) genericVarPatterns
  let todoCount := strings.Count (strings.ToLower codeContent) "todo".toList
  let fixmeCount := strings.Count (strings.ToLower codeContent) "fixme".toList
  let words := strings.Fields codeContent
  let perfectCamelCaseCount ← perfectCamelCaseCountChecked words
  let camel ←
    if words.length > 10 then do
      let share ← Checked.fdiv (F64.ofInt perfectCamelCaseCount) (F64.ofInt words.length)
      pure (if share > F64.lit (3 / 10) then 1 else 0)
    else pure 0
  let handling ←
    if strings.Contains codeContent "catch".toList ∨ strings.Contains codeContent "except".toList
    then do
      let errorHandlingCount :=
        strings.Count codeContent "catch".toList + strings.Count codeContent "except".toList
          + strings.Count codeContent "try".toList
      let bound ← Checked.idiv added.length 20
      pure (if errorHandlingCount > bound then 1 else 0)
    else pure 0
  pure (generic + (if todoCount > 2 ∨ fixmeCount > 1 then 1 else 0) + camel + handling)

def analyzeCodeContentChecked (diffContent : Str) : Option (Bool × Str) :=
  let added := addedLines diffContent
  if added.length = 0 then pure (false, [])
  else do
    let suspicious ← suspiciousPatternsChecked added
    if suspicious ≥ 2 then
      pure (true,
        "Code contains multiple AI-slop patterns (".toList ++ fmtInt suspicious
          ++ " detected) - generic names, TODO comments, perfect patterns".toList)
    else pure (false, [])

def DetectChecked (s : NamingPatternStrategy) (pair : CommitPair)
    (_repoStats : RepositoryStats) : Option (Bool × Str) :=
  if !s.enabled then pure (false, [])
  else if pair.DiffContent ≠ [] then analyzeCodeContentChecked pair.DiffContent
  else
    let msg := strings.ToLower pair.Current.Message
    let nameCount := countMatches msg genericNames
    if nameCount ≥ 2 then
      pure (true,
        "Commit message contains multiple generic naming terms (".toList ++ fmtInt nameCount
          ++ ") - may indicate AI-generated variable names".toList)
    else pure (false, [])

end NamingPatternStrategy

namespace StructuralConsistencyStrategy

def DetectChecked (s : StructuralConsistencyStrategy) (pair : CommitPair)
    (_repoStats : RepositoryStats) : Option (Bool × Str) :=
  if !s.enabled then pure (false, [])
  else if pair.Stats.Additions > 100 ∧ pair.Stats.Deletions > 100 then do
    let ratio ← Checked.fdiv (F64.ofInt pair.Stats.Additions) (F64.ofInt pair.Stats.Deletions)
    if ratio ≥ F64.lit (9 / 10) ∧ ratio ≤ F64.lit (11 / 10) then
      pure (true,
        "Suspiciously balanced addition/deletion ratio: ".toList ++ fmtFixed 2 ratio
          ++ " - may indicate automated refactoring".toList)
    else do
      let near ←
        if isNearInteger ratio (F64.lit (1 / 20)) then pure true
        else do
          let inverse ← Checked.fdiv 1 ratio
          pure (isNearInteger inverse (F64.lit (1 / 20)))
      if near then
        pure (true,
          "Suspiciously consistent addition/deletion ratio: ".toList ++ fmtFixed 2 ratio
            ++ " - may indicate template-based generation".toList)
      else pure (false, [])
  else pure (false, [])

end StructuralConsistencyStrategy

namespace BurstPatternStrategy

def DetectChecked (s : BurstPatternStrategy) (pair : CommitPair)
    (_repoStats : RepositoryStats) : Option (Bool × Str) :=
  if !s.enabled ∨ s.maxCommitsPerHour ≤ 0 then pure (false, [])
  else do
    let seconds ← SecondsChecked pair.TimeDelta
    if seconds < F64.lit 300 ∧ pair.Stats.Additions > 50 then do
      let shown ← SecondsChecked pair.TimeDelta
      pure (true,
        "Rapid commit pattern: ".toList ++ fmtFixed 1 shown
          ++ " seconds between substantial commits - may indicate batch processing".toList)
    else pure (false, [])

end BurstPatternStrategy

namespace ErrorHandlingPatternStrategy

def analyzeErrorHandlingChecked (diffContent : Str) (additions : Int) : Option (Bool × Str) :=
  let added := addedLines diffContent
  if added.length < 20 then pure (false, [])
  else do
    let codeContent := strings.ToLower (strings.Join '\n' added)
    let observed := errorHandlingPatterns codeContent
    let expectedErrorHandling ← Checked.idiv added.length 30
    if additions > 100 ∧ observed < expectedErrorHandling then
      pure (true,
        "Large code addition (".toList ++ fmtInt additions
          ++ " lines) with insufficient error handling (".toList ++ fmtInt observed
          ++ " patterns, expected ~".toList ++ fmtInt expectedErrorHandling
          ++ ") - typical AI omission".toList)
    else do
      let fifth ← Checked.idiv added.length 5
      if observed > fifth then
        pure (true,
          "Excessive error handling patterns (".toList ++ fmtInt observed ++ " in ".toList
            ++ fmtInt added.length ++ " lines) - may indicate AI over-compensation".toList)
      else pure (false, [])

def DetectChecked (s : ErrorHandlingPatternStrategy) (pair : CommitPair)
    (_repoStats : RepositoryStats) : Option (Bool × Str) :=
  if !s.enabled then pure (false, [])
  else if pair.DiffContent ≠ [] ∧ pair.Stats.Additions > 50 then
    analyzeErrorHandlingChecked pair.DiffContent pair.Stats.Additions
  else if pair.Stats.Additions > 200 then
    let msg := strings.ToLower pair.Current.Message
    if !hasErrorPatterns msg ∧ pair.Stats.Additions > 300 then
      pure (true,
        "Large code addition (".toList ++ fmtInt pair.Stats.Additions
          ++ " lines) with no error handling mentions - AI often omits error handling".toList)
    else pure (false, [])
  else pure (false, [])

end ErrorHandlingPatternStrategy

namespace TemplatePatternStrategy

/-- The loop `for j := 0; j < len(words1); j++` that counts the positions at
which `words1[j] != words2[j]`. -/
def differencesChecked (words1 words2 : List Str) : Option Nat :=
  (List.range words1.length).foldlM
    (fun differences j => do
      let w1 ← Checked.index words1 j
      let w2 ← Checked.index words2 j
      pure (if w1 ≠ w2 then differences + 1 else differences))
    0

def similarLinesChecked (a b : Str) : Option Bool :=
  let line1 := strings.TrimSpace a
  let line2 := strings.TrimSpace b
  if byteLen line1 > 10 ∧ byteLen line2 > 10 then
    let words1 := strings.Fields line1
    let words2 := strings.Fields line2
    if words1.length = words2.length ∧ words1.length > 3 then do
      let differences ← differencesChecked words1 words2
      pure (decide (differences ≤ 2))
    else pure false
  else pure false

/-- The loop `for i := 0; i < len(addedLines)-1; i++` over the pairs
`addedLines[i]`, `addedLines[i+1]`. -/
def repetitiveCountChecked (added : List Str) : Option Nat :=
  (List.range (added.length - 1)).foldlM
    (fun count i => do
      let a ← Checked.index added i
      let b ← Checked.index added (i + 1)
      let similar ← similarLinesChecked a b
      pure (if similar then count + 1 else count))
    0

def consistentIndentationChecked (totalLines : Nat) (entries : List (Nat × Nat)) : Option Nat :=
  entries.foldlM
    (fun acc e => do
      let tenth ← Checked.idiv totalLines 10
      pure (if e.2 > tenth then acc + e.2 else acc))
    0

def suspiciousPatternsChecked (added : List Str) : Option Nat := do
  let lowerContent := strings.ToLower (strings.Join '\n' added)
  let totalLines := added.length
  let repetitive ← repetitiveCountChecked added
  let eighth ← Checked.idiv added.length 8
  let indentation ←
    if totalLines > 20 then do
      let consistent ← consistentIndentationChecked totalLines (indentationLevels added)
      let share ← Checked.fdiv (F64.ofInt consistent) (F64.ofInt totalLines)
      pure (if share > F64.lit (9 / 10) then 1 else 0)
    else pure 0
  pure (countMatches lowerContent templateComments
    + (if repetitive > eighth then 1 else 0)
    + indentation
    + (if strings.Contains lowerContent "import".toList ∧ (importLines added).length > 5 ∧
          added.length < (importLines added).length * 10
        then 1 else 0))

def analyzeTemplatePatternsChecked (diffContent : Str) : Option (Bool × Str) :=
  let added := addedLines diffContent
  if added.length < 10 then pure (false, [])
  else do
    let suspicious ← suspiciousPatternsChecked added
    if suspicious ≥ 2 then
      pure (true,
        "Template/generated code patterns detected (".toList ++ fmtInt suspicious
          ++ " indicators) - repetitive structure, perfect formatting, template comments".toList)
    else pure (false, [])

def DetectChecked (s : TemplatePatternStrategy) (pair : CommitPair)
    (_repoStats : RepositoryStats) : Option (Bool × Str) :=
  if !s.enabled then pure (false, [])
  else do
    let content ←
      if pair.DiffContent ≠ [] ∧ pair.Stats.Additions > 50 then
        analyzeTemplatePatternsChecked pair.DiffContent
      else pure (false, [])
    if content.1 then pure content else pure (messageFallback pair)

end TemplatePatternStrategy

namespace FileExtensionPatternStrategy

def DetectChecked (s : FileExtensionPatternStrategy) (pair : CommitPair)
    (_repoStats : RepositoryStats) : Option (Bool × Str) :=
  if !s.enabled then pure (false, [])
  else if pair.Stats.FilesChanged > 10 ∧ pair.Stats.Additions > 1000 then do
    let avg ← Checked.fdiv (F64.ofInt pair.Stats.Additions) (F64.ofInt pair.Stats.FilesChanged)
    if avg > F64.lit 50 ∧ avg < F64.lit 200 then
      if consistency avg > F64.lit (8 / 10) then
        pure (true,
          "Suspicious file creation pattern: ".toList ++ fmtInt pair.Stats.FilesChanged
            ++ " files with consistent size (~".toList ++ fmtFixed 0 avg
            ++ " lines each) - may be generated".toList)
      else pure (false, [])
    else pure (false, [])
  else pure (false, [])

end FileExtensionPatternStrategy

/-! ## Detection engine

The engine is not among the sources: the definitions of this section follow
section 4.8 of the specification. -/

/-- Modelled from the spec: the strategy contract, a name and a `Detect`
operation from a commit pair and the repository statistics to a verdict and a
reason. -/
structure Strategy where
  Name : Str
  Detect : CommitPair → RepositoryStats → Bool × Str

/-- Modelled from the spec: the output of the engine for one commit pair. -/
structure Verdict where
  flagged : Bool
  triggeredStrategies : List (Str × Str)
  score : ℚ

/-- Modelled from the spec: the engine holds its strategies in the order of
their registration. -/
structure Engine where
  strategies : List Strategy

/-- Modelled from the spec: what one evaluation has done so far: the names of
the strategies it has invoked, one entry for each invocation, and the (name,
reason) pairs of those that detected. -/
structure Evaluation where
  invoked : List Str
  triggered : List (Str × Str)

namespace Engine

/-- Modelled from the spec: the engine invokes the next strategy and records
its result. -/
def step (pair : CommitPair) (repoStats : RepositoryStats) (st : Evaluation) (s : Strategy) :
    Evaluation :=
  let result := s.Detect pair repoStats
  { invoked := st.invoked ++ [s.Name]
    triggered := if result.1 then st.triggered ++ [(s.Name, result.2)] else st.triggered }

/-- Modelled from the spec: the strategies are invoked in registration order. -/
def run (e : Engine) (pair : CommitPair) (repoStats : RepositoryStats) : Evaluation :=
  e.strategies.foldl (step pair repoStats) { invoked := [], triggered := [] }

/-- Modelled from the spec: the aggregation policy of section 4.8: flagged if
at least one strategy detects, the score the exact quotient of the number of
triggered strategies by the number of registered ones. -/
def Evaluate (e : Engine) (pair : CommitPair) (repoStats : RepositoryStats) : Verdict :=
  let st := e.run pair repoStats
  { flagged := !st.triggered.isEmpty
    triggeredStrategies := st.triggered
    score := (st.triggered.length : ℚ) / (e.strategies.length : ℚ) }

end Engine

def CommitMessageStrategy.toStrategy (s : CommitMessageStrategy) : Strategy :=
  { Name := s.Name, Detect := s.Detect }

def NamingPatternStrategy.toStrategy (s : NamingPatternStrategy) : Strategy :=
  { Name := s.Name, Detect := s.Detect }

def StructuralConsistencyStrategy.toStrategy (s : StructuralConsistencyStrategy) : Strategy :=
  { Name := s.Name, Detect := s.Detect }

def BurstPatternStrategy.toStrategy (s : BurstPatternStrategy) : Strategy :=
  { Name := s.Name, Detect := s.Detect }

def ErrorHandlingPatternStrategy.toStrategy (s : ErrorHandlingPatternStrategy) : Strategy :=
  { Name := s.Name, Detect := s.Detect }

def TemplatePatternStrategy.toStrategy (s : TemplatePatternStrategy) : Strategy :=
  { Name := s.Name, Detect := s.Detect }

def FileExtensionPatternStrategy.toStrategy (s : FileExtensionPatternStrategy) : Strategy :=
  { Name := s.Name, Detect := s.Detect }

/-- Modelled from the spec: an engine with the seven strategies of the source,
registered in the order in which the source declares them. -/
def sevenStrategies (maxPerHour : Int) : Engine :=
  { strategies :=
      [ NewCommitMessageStrategy.toStrategy, NewNamingPatternStrategy.toStrategy,
        NewStructuralConsistencyStrategy.toStrategy,
        (NewBurstPatternStrategy maxPerHour).toStrategy,
        NewErrorHandlingPatternStrategy.toStrategy, NewTemplatePatternStrategy.toStrategy,
        NewFileExtensionPatternStrategy.toStrategy ] }

/-- A small commit without diff text whose message holds two of the phrases of
the commit-message strategy and two of the generic names of the naming
strategy. -/
def twoSignalsPair : CommitPair :=
  mkPair "update code and refactor code for data result".toList 10 0 1 0 []

/-! ## Structured text extraction of the page fetcher

The HTML document comes from the library goquery, which is not part of the
repository. It is modelled by the tree of its nodes, with the two operations
`extractStructuredText` uses: the text of an element, and the selection of the
elements with given tag names, which the library yields in document order. -/

namespace goquery

/-- A node of a parsed document: a run of text, or an element with its tag
name (in lower case, as the parser delivers it) and its children. -/
inductive Node where
  | text (content : Str)
  | element (tag : Str) (children : List Node)

mutual

/-- The text of a node (`Selection.Text`): the text runs below it, in order. -/
def Node.Text : Node → Str
  | .text content => content
  | .element _ children => textOfList children

/-- The text of a sequence of nodes. -/
def textOfList : List Node → Str
  | [] => []
  | n :: ns => n.Text ++ textOfList ns

end

mutual

/-- The elements of the tree below and including a node, in document order
(an element before its descendants, siblings from first to last), each with
its tag and its text. -/
def Node.elements : Node → List (Str × Str)
  | .text _ => []
  | .element tag children => (tag, textOfList children) :: elementsOfList children

/-- The elements of a sequence of nodes, in document order. -/
def elementsOfList : List Node → List (Str × Str)
  | [] => []
  | n :: ns => n.elements ++ elementsOfList ns

end

/-- The selection `doc.Find(selector)` for a selector that lists tag names:
the matching elements in document order, each given by its text. -/
def Find (doc : Node) (tags : List Str) : List Str :=
  (doc.elements.filter fun e => decide (e.1 ∈ tags)).map fun e => e.2

end goquery

/-- The tag names of the selector `"h1, h2, h3, h4, h5, h6"`. -/
def headingTags : List Str :=
  ["h1".toList, "h2".toList, "h3".toList, "h4".toList, "h5".toList, "h6".toList]

def extractStructuredText (doc : goquery.Node) : Str :=
  let texts : List Str := []
  let texts := (goquery.Find doc headingTags).foldl
    (fun texts s =>
      let text := strings.TrimSpace s
      if text ≠ [] then texts ++ [text] else texts)
    texts
  let texts := (goquery.Find doc ["p".toList]).foldl
    (fun texts s =>
      let text := strings.TrimSpace s
      if byteLen text > 20 then texts ++ [text] else texts)
    texts
  let texts := (goquery.Find doc ["li".toList]).foldl
    (fun texts s =>
      let text := strings.TrimSpace s
      if text ≠ [] then texts ++ [text] else texts)
    texts
  strings.Join '\n' texts

/-- A page whose body holds a paragraph followed by a heading. -/
def paragraphThenHeading : goquery.Node :=
  .element "html".toList
    [ .element "body".toList
        [ .element "p".toList [.text "This paragraph comes first on the page.".toList],
          .element "h1".toList [.text "Title".toList] ] ]

/-! ## Configuration: the operating system and the libraries

`Load` and `GenerateSampleConfig` work through the file system, the process
environment and the libraries viper, cast and yaml, none of which is part of
the repository. This section models what the two functions use of them. -/

namespace unicode

/-- The simple upper-case mapping of the Unicode Character Database above
U+007F, as Go's package `unicode` holds it, in runs (first, last, step,
offset) as in `lowerRanges`. -/
def upperRanges : List (Nat × Nat × Nat × Int) :=
  [ (0xB5, 0xB5, 1, 743), (0xE0, 0xF6, 1, -32), (0xF8, 0xFE, 1, -32), (0xFF, 0xFF, 1, 121),
    (0x101, 0x12F, 2, -1), (0x131, 0x131, 1, -232), (0x133, 0x137, 2, -1), (0x13A, 0x148, 2, -1),
    (0x14B, 0x177, 2, -1), (0x17A, 0x17E, 2, -1), (0x17F, 0x17F, 1, -300), (0x180, 0x180, 1, 195),
    (0x183, 0x185, 2, -1), (0x188, 0x188, 1, -1), (0x18C, 0x18C, 1, -1), (0x192, 0x192, 1, -1),
    (0x195, 0x195, 1, 97), (0x199, 0x199, 1, -1), (0x19A, 0x19A, 1, 163), (0x19E, 0x19E, 1, 130),
    (0x1A1, 0x1A5, 2, -1), (0x1A8, 0x1A8, 1, -1), (0x1AD, 0x1AD, 1, -1), (0x1B0, 0x1B0, 1, -1),
    (0x1B4, 0x1B6, 2, -1), (0x1B9, 0x1B9, 1, -1), (0x1BD, 0x1BD, 1, -1), (0x1BF, 0x1BF, 1, 56),
    (0x1C5, 0x1C5, 1, -1), (0x1C6, 0x1C6, 1, -2), (0x1C8, 0x1C8, 1, -1), (0x1C9, 0x1C9, 1, -2),
    (0x1CB, 0x1CB, 1, -1), (0x1CC, 0x1CC, 1, -2), (0x1CE, 0x1DC, 2, -1), (0x1DD, 0x1DD, 1, -79),
    (0x1DF, 0x1EF, 2, -1), (0x1F2, 0x1F2, 1, -1), (0x1F3, 0x1F3, 1, -2), (0x1F5, 0x1F5, 1, -1),
    (0x1F9, 0x21F, 2, -1), (0x223, 0x233, 2, -1), (0x23C, 0x23C, 1, -1), (0x23F, 0x240, 1, 10815),
    (0x242, 0x242, 1, -1), (0x247, 0x24F, 2, -1), (0x250, 0x250, 1, 10783),
    (0x251, 0x251, 1, 10780), (0x252, 0x252, 1, 10782), (0x253, 0x253, 1, -210),
    (0x254, 0x254, 1, -206), (0x256, 0x257, 1, -205), (0x259, 0x259, 1, -202),
    (0x25B, 0x25B, 1, -203), (0x25C, 0x25C, 1, 42319), (0x260, 0x260, 1, -205),
    (0x261, 0x261, 1, 42315), (0x263, 0x263, 1, -207), (0x265, 0x265, 1, 42280),
    (0x266, 0x266, 1, 42308), (0x268, 0x268, 1, -209), (0x269, 0x269, 1, -211),
    (0x26A, 0x26A, 1, 42308), (0x26B, 0x26B, 1, 10743), (0x26C, 0x26C, 1, 42305),
    (0x26F, 0x26F, 1, -211), (0x271, 0x271, 1, 10749), (0x272, 0x272, 1, -213),
    (0x275, 0x275, 1, -214), (0x27D, 0x27D, 1, 10727), (0x280, 0x280, 1, -218),
    (0x282, 0x282, 1, 42307), (0x283, 0x283, 1, -218), (0x287, 0x287, 1, 42282),
    (0x288, 0x288, 1, -218), (0x289, 0x289, 1, -69), (0x28A, 0x28B, 1, -217),
    (0x28C, 0x28C, 1, -71), (0x292, 0x292, 1, -219), (0x29D, 0x29D, 1, 42261),
    (0x29E, 0x29E, 1, 42258), (0x345, 0x345, 1, 84), (0x371, 0x373, 2, -1), (0x377, 0x377, 1, -1),
    (0x37B, 0x37D, 1, 130), (0x3AC, 0x3AC, 1, -38), (0x3AD, 0x3AF, 1, -37), (0x3B1, 0x3C1, 1, -32),
    (0x3C2, 0x3C2, 1, -31), (0x3C3, 0x3CB, 1, -32), (0x3CC, 0x3CC, 1, -64), (0x3CD, 0x3CE, 1, -63),
    (0x3D0, 0x3D0, 1, -62), (0x3D1, 0x3D1, 1, -57), (0x3D5, 0x3D5, 1, -47), (0x3D6, 0x3D6, 1, -54),
    (0x3D7, 0x3D7, 1, -8), (0x3D9, 0x3EF, 2, -1), (0x3F0, 0x3F0, 1, -86), (0x3F1, 0x3F1, 1, -80),
    (0x3F2, 0x3F2, 1, 7), (0x3F3, 0x3F3, 1, -116), (0x3F5, 0x3F5, 1, -96), (0x3F8, 0x3F8, 1, -1),
    (0x3FB, 0x3FB, 1, -1), (0x430, 0x44F, 1, -32), (0x450, 0x45F, 1, -80), (0x461, 0x481, 2, -1),
    (0x48B, 0x4BF, 2, -1), (0x4C2, 0x4CE, 2, -1), (0x4CF, 0x4CF, 1, -15), (0x4D1, 0x52F, 2, -1),
    (0x561, 0x586, 1, -48), (0x10D0, 0x10FA, 1, 3008), (0x10FD, 0x10FF, 1, 3008),
    (0x13F8, 0x13FD, 1, -8), (0x1C80, 0x1C80, 1, -6254), (0x1C81, 0x1C81, 1, -6253),
    (0x1C82, 0x1C82, 1, -6244), (0x1C83, 0x1C84, 1, -6242), (0x1C85, 0x1C85, 1, -6243),
    (0x1C86, 0x1C86, 1, -6236), (0x1C87, 0x1C87, 1, -6181), (0x1C88, 0x1C88, 1, 35266),
    (0x1D79, 0x1D79, 1, 35332), (0x1D7D, 0x1D7D, 1, 3814), (0x1D8E, 0x1D8E, 1, 35384),
    (0x1E01, 0x1E95, 2, -1), (0x1E9B, 0x1E9B, 1, -59), (0x1EA1, 0x1EFF, 2, -1),
    (0x1F00, 0x1F07, 1, 8), (0x1F10, 0x1F15, 1, 8), (0x1F20, 0x1F27, 1, 8), (0x1F30, 0x1F37, 1, 8),
    (0x1F40, 0x1F45, 1, 8), (0x1F51, 0x1F57, 2, 8), (0x1F60, 0x1F67, 1, 8),
    (0x1F70, 0x1F71, 1, 74), (0x1F72, 0x1F75, 1, 86), (0x1F76, 0x1F77, 1, 100),
    (0x1F78, 0x1F79, 1, 128), (0x1F7A, 0x1F7B, 1, 112), (0x1F7C, 0x1F7D, 1, 126),
    (0x1F80, 0x1F87, 1, 8), (0x1F90, 0x1F97, 1, 8), (0x1FA0, 0x1FA7, 1, 8), (0x1FB0, 0x1FB1, 1, 8),
    (0x1FB3, 0x1FB3, 1, 9), (0x1FBE, 0x1FBE, 1, -7205), (0x1FC3, 0x1FC3, 1, 9),
    (0x1FD0, 0x1FD1, 1, 8), (0x1FE0, 0x1FE1, 1, 8), (0x1FE5, 0x1FE5, 1, 7), (0x1FF3, 0x1FF3, 1, 9),
    (0x214E, 0x214E, 1, -28), (0x2170, 0x217F, 1, -16), (0x2184, 0x2184, 1, -1),
    (0x24D0, 0x24E9, 1, -26), (0x2C30, 0x2C5F, 1, -48), (0x2C61, 0x2C61, 1, -1),
    (0x2C65, 0x2C65, 1, -10795), (0x2C66, 0x2C66, 1, -10792), (0x2C68, 0x2C6C, 2, -1),
    (0x2C73, 0x2C73, 1, -1), (0x2C76, 0x2C76, 1, -1), (0x2C81, 0x2CE3, 2, -1),
    (0x2CEC, 0x2CEE, 2, -1), (0x2CF3, 0x2CF3, 1, -1), (0x2D00, 0x2D25, 1, -7264),
    (0x2D27, 0x2D27, 1, -7264), (0x2D2D, 0x2D2D, 1, -7264), (0xA641, 0xA66D, 2, -1),
    (0xA681, 0xA69B, 2, -1), (0xA723, 0xA72F, 2, -1), (0xA733, 0xA76F, 2, -1),
    (0xA77A, 0xA77C, 2, -1), (0xA77F, 0xA787, 2, -1), (0xA78C, 0xA78C, 1, -1),
    (0xA791, 0xA793, 2, -1), (0xA794, 0xA794, 1, 48), (0xA797, 0xA7A9, 2, -1),
    (0xA7B5, 0xA7C3, 2, -1), (0xA7C8, 0xA7CA, 2, -1), (0xA7D1, 0xA7D1, 1, -1),
    (0xA7D7, 0xA7D9, 2, -1), (0xA7F6, 0xA7F6, 1, -1), (0xAB53, 0xAB53, 1, -928),
    (0xAB70, 0xABBF, 1, -38864), (0xFF41, 0xFF5A, 1, -32), (0x10428, 0x1044F, 1, -40),
    (0x104D8, 0x104FB, 1, -40), (0x10597, 0x105A1, 1, -39), (0x105A3, 0x105B1, 1, -39),
    (0x105B3, 0x105B9, 1, -39), (0x105BB, 0x105BC, 1, -39), (0x10CC0, 0x10CF2, 1, -64),
    (0x118C0, 0x118DF, 1, -32), (0x16E60, 0x16E7F, 1, -32), (0x1E922, 0x1E943, 1, -34) ]

/-- Go `unicode.ToUpper`. -/
def ToUpper (r : Char) : Char :=
  if r.toNat < 0x80 then
    if 'a' ≤ r ∧ r ≤ 'z' then Char.ofNat (r.toNat - 32) else r
  else
    match upperRanges.find? fun e =>
        decide (e.1 ≤ r.toNat ∧ r.toNat ≤ e.2.1 ∧ (r.toNat - e.1) % e.2.2.1 = 0) with
    | some e => Char.ofNat ((r.toNat : Int) + e.2.2.2).toNat
    | none => r

end unicode

namespace strings

/-- Go `unicode.ToUpper`. -/
def toUpperRune (c : Char) : Char := unicode.ToUpper c

/-- Go `strings.ToUpper`: every code point of the string, as `range` yields
them, is mapped to upper case and encoded again; an invalid byte comes out as
the encoding of U+FFFD. -/
def ToUpper (s : Str) : Str := utf8.encode ((utf8.runes s).map toUpperRune)

end strings

/-- The files and the environment variables of the process. A path in
`readOnly` cannot be written. -/
structure World where
  files : List (Str × Str)
  readOnly : List Str
  env : List (Str × Str)

namespace os

/-- Go `os.WriteFile(path, data, perm)`: the error, or the world in which `path`
holds `data`. -/
def WriteFile (path data : Str) (w : World) : Except Str World :=
  if path ∈ w.readOnly then .error ("open ".toList ++ path ++ ": permission denied".toList)
  else .ok { w with files := (path, data) :: w.files.filter fun f => f.1 ≠ path }

/-- Go `os.ReadFile(path)`. -/
def ReadFile (path : Str) (w : World) : Except Str Str :=
  match w.files.lookup path with
  | some data => .ok data
  | none => .error ("open ".toList ++ path ++ ": no such file or directory".toList)

/-- Go `os.LookupEnv(name)`. -/
def LookupEnv (name : Str) (w : World) : Option Str := w.env.lookup name

end os

namespace filepath

/-- Go `filepath.Ext(path)`: the suffix from the last dot of the last element
of `path` on, or the empty string without such a dot. -/
def Ext (path : Str) : Str :=
  let last := (path.reverse.takeWhile fun c => c ≠ '/').reverse
  if '.' ∈ last then '.' :: (last.reverse.takeWhile fun c => c ≠ '.').reverse else []

end filepath

namespace yaml

/-- A scalar as the decoder resolves it for an untyped target. A float is kept
as its decimal numeral: sign, digits and number of decimal places. -/
inductive Scalar where
  | null
  | bool (b : Bool)
  | int (n : Int)
  | decimal (negative : Bool) (digits : Nat) (places : Nat)
  | str (s : Str)
  deriving DecidableEq

/-- The value of a key that is no mapping: a scalar or a sequence of scalars. -/
inductive Node where
  | scalar (s : Scalar)
  | seq (items : List Scalar)
  deriving DecidableEq

def trimLeft (s : Str) : Str := s.dropWhile fun c => c = ' '

def trimRight (s : Str) : Str := (s.reverse.dropWhile fun c => c = ' ').reverse

def isDigits (s : Str) : Bool := !s.isEmpty && s.all Char.isDigit

def digitsValue (s : Str) : Nat := s.foldl (fun n c => 10 * n + (c.toNat - 48)) 0

/-- A decimal numeral without a superfluous leading zero. -/
def isPlainNumeral (s : Str) : Bool :=
  isDigits s && (s == ['0'] || s.head? != some '0')

/-- The words that are booleans in YAML 1.1 and strings in YAML 1.2. -/
def versionDependentWords : List Str :=
  [ "y".toList, "Y".toList, "yes".toList, "Yes".toList, "YES".toList, "n".toList, "N".toList,
    "no".toList, "No".toList, "NO".toList, "on".toList, "On".toList, "ON".toList,
    "off".toList, "Off".toList, "OFF".toList ]

/-- A plain scalar that is a string: the text itself, if it starts with a
letter, `_` or `/` and is no word whose reading depends on the version of
YAML; any other text is outside this model. -/
def plainString (t : Str) : Option Scalar :=
  if (t.head?.map fun c => c.isAlpha || c = '_' || c = '/') == some true ∧
      t ∉ versionDependentWords then some (.str t)
  else none

/-- The resolution of a plain (unquoted) scalar: null, a boolean, a decimal
integer of the range of `int64` or `uint64`, a decimal fraction of at most
300 digits before and after the point (a float64 of the normal range, the
negative zero apart), or a string. The result is `none` for any other text:
the other notations of YAML are outside this model. -/
def resolvePlain (t : Str) : Option Scalar :=
  if t ∈ [[], "~".toList, "null".toList, "Null".toList, "NULL".toList] then some .null
  else if t ∈ ["true".toList, "True".toList, "TRUE".toList] then some (.bool true)
  else if t ∈ ["false".toList, "False".toList, "FALSE".toList] then some (.bool false)
  else
    let negative := t.head? == some '-'
    let body := if t.head? == some '-' || t.head? == some '+' then t.tail else t
    let whole := body.takeWhile fun c => c ≠ '.'
    let rest := body.dropWhile fun c => c ≠ '.'
    match rest with
    | [] =>
      if isPlainNumeral whole then
        let n : Int := if negative then -(digitsValue whole : Int) else digitsValue whole
        if -2 ^ 63 ≤ n ∧ n < 2 ^ 64 then some (.int n) else none
      else plainString t
    | _ :: fraction =>
      if isPlainNumeral whole && isDigits fraction then
        if whole.length ≤ 300 ∧ fraction.length ≤ 300 ∧
            ¬ (negative = true ∧ digitsValue (whole ++ fraction) = 0) then
          some (.decimal negative (digitsValue (whole ++ fraction)) fraction.length)
        else none
      else plainString t

/-- The characters that start a form of YAML outside this model (flow
collections, anchors, aliases, tags, block scalars, directives). -/
def indicators : List Char :=
  ['[', ']', '{', '}', '&', '*', '!', '|', '>', '%', '@', '\x60', ',', '?', ':']

/-- The resolution of the text of a value: a double-quoted or single-quoted
string without escapes, or a plain scalar. -/
def resolve (v : Str) : Option Scalar :=
  match v with
  | [] => some .null
  | '"' :: rest =>
    match rest.reverse with
    | '"' :: inner =>
      if inner.all fun c => c ≠ '"' && c ≠ '\\' then some (.str inner.reverse) else none
    | _ => none
  | '\'' :: rest =>
    match rest.reverse with
    | '\'' :: inner => if inner.all fun c => c ≠ '\'' then some (.str inner.reverse) else none
    | _ => none
  | c :: _ =>
    if c ∈ indicators || strings.Contains v ": ".toList || v.getLast? == some ':' then none
    else resolvePlain v

/-- The state of the reader between two lines: the open mappings, innermost
first, each with the indentation of its keys and the dotted path before them;
the key read last if it had no value on its line; the sequence being read;
the paths of all keys read; and the entries read, in order. -/
structure State where
  stack : List (Nat × Str)
  pending : Option (Nat × Str)
  openSeq : Option (Nat × Str × List Scalar)
  seen : List Str
  entries : List (Str × Node)

/-- Closes the sequence being read, if any. -/
def flush (st : State) : State :=
  match st.openSeq with
  | some (_, path, items) =>
    { st with openSeq := none, entries := st.entries ++ [(path, Node.seq items)] }
  | none => st

def isKeyChar (c : Char) : Bool := c.isAlphanum || c = '_' || c = '-'

/-- A line `key: value` or `key:` at indentation `n`. Keys are lower-cased, as
viper does with the keys of a configuration file. -/
def keyLine (st : State) (n : Nat) (key value : Str) : Option State :=
  let st := flush st
  let stack :=
    match st.pending with
    | some (pi, ppath) => if n > pi then (n, ppath ++ ['.']) :: st.stack else st.stack
    | none => st.stack
  match stack.dropWhile fun e => e.1 > n with
  | [] => none
  | (m, pre) :: outer =>
    let path := pre ++ strings.ToLower key
    if m ≠ n ∨ path ∈ st.seen then none
    else if value = [] then
      some { st with stack := (m, pre) :: outer, pending := some (n, path), seen := path :: st.seen }
    else
      match resolve value with
      | none => none
      | some .null =>
        some { st with stack := (m, pre) :: outer, pending := none, seen := path :: st.seen }
      | some s =>
        some { st with
          stack := (m, pre) :: outer, pending := none, seen := path :: st.seen,
          entries := st.entries ++ [(path, Node.scalar s)] }

/-- A line `- value` at indentation `n`. -/
def itemLine (st : State) (n : Nat) (value : Str) : Option State :=
  match resolve value with
  | none => none
  | some s =>
    match st.openSeq with
    | some (si, path, items) =>
      if n = si then some { st with openSeq := some (si, path, items ++ [s]) } else none
    | none =>
      match st.pending with
      | some (pi, ppath) =>
        if n ≥ pi then some { st with pending := none, openSeq := some (n, ppath, [s]) } else none
      | none => none

/-- A key of this model: letters, digits, `_` and `-`, the first a letter or
`_`, and no word that YAML reads as null or as a boolean. -/
def isPlainKey (key : Str) : Bool :=
  key.all isKeyChar && resolvePlain key == some (.str key)

/-- One line of the document: a blank line, a comment line, an item of a
sequence or a key. A line with a byte outside the printable ASCII range, or
with a `#` that does not start the line, is outside this model. -/
def line (st : State) (raw : Str) : Option State :=
  if raw.any fun ch => ch.toNat < 32 || ch.toNat ≥ 127 then none
  else
    let n := (raw.takeWhile fun c => c = ' ').length
    let c := trimRight (trimLeft raw)
    match c with
    | [] => some st
    | '#' :: _ => some st
    | _ =>
      if c.any fun ch => ch = '#' then none
      else
        match c with
        | '-' :: ' ' :: rest => itemLine st n (trimLeft rest)
        | _ =>
          let key := c.takeWhile isKeyChar
          match c.dropWhile isKeyChar with
          | [':'] => if isPlainKey key then keyLine st n key [] else none
          | ':' :: ' ' :: rest =>
            if isPlainKey key then keyLine st n key (trimLeft rest) else none
          | _ => none

def lines (st : State) : List Str → Option State
  | [] => some (flush st)
  | l :: ls =>
    match line st l with
    | none => none
    | some st2 => lines st2 ls

/-- The decoding of a document of a block subset of YAML: mappings with plain
keys, scalars and sequences of scalars, comment lines, all in printable ASCII.
The result lists each key that holds a scalar or a sequence under its dotted
path. It is `none` for every other document, well-formed YAML or not: what the
library makes of such a document is left to `Libs.Decode`. -/
def Unmarshal (content : Str) : Option (List (Str × Node)) :=
  (lines { stack := [(0, [])], pending := none, openSeq := none, seen := [], entries := [] }
    (strings.Split '\n' content)).map fun st => st.entries

end yaml

/-- What the model takes as given of the libraries strconv, viper and yaml:
the parsing of a string as an integer and as a float64, the formatting of a
float64, and the decoders of the configuration formats, the one of YAML for
the documents outside the subset of `yaml.Unmarshal`. -/
structure Libs where
  ParseInt : Str → Option Int
  ParseFloat : Str → Option ℚ
  FormatFloat : ℚ → Str
  Decode : Str → Str → Option (List (Str × yaml.Node))

namespace viper

/-- An untyped value held by viper: a scalar, a sequence of scalars, or a
nested mapping. A float64 is recorded by the decimal numeral it was read from,
in the source or in a file. -/
inductive Value where
  | scalar (s : yaml.Scalar)
  | seq (items : List yaml.Scalar)
  | map
  deriving DecidableEq

def ofNode : yaml.Node → Value
  | .scalar s => .scalar s
  | .seq items => .seq items

/-- Go `strconv.ParseBool`. -/
def ParseBool (s : Str) : Option Bool :=
  if s ∈ ["1".toList, "t".toList, "T".toList, "TRUE".toList, "true".toList, "True".toList] then
    some true
  else if s ∈ ["0".toList, "f".toList, "F".toList, "FALSE".toList, "false".toList,
      "False".toList] then some false
  else none

/-- The float64 a decimal numeral denotes. -/
def decimalValue (negative : Bool) (digits places : Nat) : ℚ :=
  F64.rnd ((if negative then -(digits : ℚ) else (digits : ℚ)) / 10 ^ places)

/-- The conversion `cast.ToInt64` (and `cast.ToInt`) of the value found for a
key, `none` being Go `nil`; a value that cannot be converted gives 0. An
integer from 2^63 on is a `uint64` and is converted modulo 2^64. -/
def ToInt64 (conv : Libs) : Option Value → Int
  | some (.scalar (.int n)) => (n + 2 ^ 63) % 2 ^ 64 - 2 ^ 63
  | some (.scalar (.decimal negative digits places)) =>
    F64.toInt (decimalValue negative digits places)
  | some (.scalar (.bool b)) => if b then 1 else 0
  | some (.scalar (.str s)) => (conv.ParseInt s).getD 0
  | _ => 0

/-- The conversion `cast.ToFloat64`. -/
def ToFloat64 (conv : Libs) : Option Value → ℚ
  | some (.scalar (.int n)) => F64.ofInt n
  | some (.scalar (.decimal negative digits places)) => decimalValue negative digits places
  | some (.scalar (.bool b)) => if b then 1 else 0
  | some (.scalar (.str s)) => (conv.ParseFloat s).getD 0
  | _ => 0

/-- The conversion `cast.ToBool`. -/
def ToBool : Option Value → Bool
  | some (.scalar (.bool b)) => b
  | some (.scalar (.int n)) => decide (n ≠ 0)
  | some (.scalar (.decimal _ digits _)) => decide (digits ≠ 0)
  | some (.scalar (.str s)) => (ParseBool s).getD false
  | _ => false

/-- The conversion `cast.ToString` of a scalar. -/
def scalarString (conv : Libs) : yaml.Scalar → Str
  | .null => []
  | .bool b => if b then "true".toList else "false".toList
  | .int n => fmtInt n
  | .decimal negative digits places => conv.FormatFloat (decimalValue negative digits places)
  | .str s => s

/-- The conversion `cast.ToString`. -/
def ToString (conv : Libs) : Option Value → Str
  | some (.scalar s) => scalarString conv s
  | _ => []

/-- The conversion `cast.ToStringSlice`. -/
def ToStringSlice (conv : Libs) : Option Value → List Str
  | some (.seq items) => items.map (scalarString conv)
  | some (.scalar (.str s)) => strings.Fields s
  | some (.scalar s) => [scalarString conv s]
  | _ => []

/-- The state of a viper instance, as far as `Load` sets it: the defaults and
the content of the configuration file, each entry under its dotted path in
lower case; the configuration file; the prefix of the environment variables;
and whether `AutomaticEnv` was called. -/
structure Viper where
  defaults : List (Str × Value)
  config : List (Str × Value)
  configFile : Str
  envPrefix : Str
  automaticEnvApplied : Bool

def New : Viper :=
  { defaults := [], config := [], configFile := [], envPrefix := [], automaticEnvApplied := false }

def SupportedExts : List Str :=
  [ "json".toList, "toml".toList, "yaml".toList, "yml".toList, "properties".toList,
    "props".toList, "prop".toList, "hcl".toList, "tfvars".toList, "dotenv".toList,
    "env".toList, "ini".toList ]

inductive ConfigError where
  | UnsupportedConfigError (configType : Str)
  | ReadError (cause : Str)
  | ConfigParseError
  deriving DecidableEq

/-- The value stored in a layer under the path `key`: the entry itself, or a
nested mapping if `key` is the path of one. -/
def searchMap (m : List (Str × Value)) (key : Str) : Option Value :=
  match m.lookup key with
  | some val => some val
  | none => if m.any fun e => (key ++ ['.']).isPrefixOf e.1 then some .map else none

/-- The paths of the mappings above `key`: its proper dotted prefixes. -/
def parents (key : Str) : List Str :=
  let path := strings.Split '.' key
  (List.range (path.length - 1)).map fun i => strings.Join '.' (path.take (i + 1))

/-- The look-up in the configuration file, then in the defaults. A key below a
path at which the file holds a scalar is shadowed, and has no value. -/
def findStored (config defaults : List (Str × Value)) (key : Str) : Option Value :=
  match searchMap config key with
  | some val => some val
  | none =>
    if (parents key).any fun p => (config.lookup p).isSome then none
    else searchMap defaults key

namespace Viper

def SetDefault (v : Viper) (key : Str) (value : Value) : Viper :=
  { v with
    defaults :=
      (strings.ToLower key, value) :: v.defaults.filter fun e => e.1 ≠ strings.ToLower key }

def SetConfigFile (v : Viper) (configFile : Str) : Viper := { v with configFile := configFile }

def SetEnvPrefix (v : Viper) (envPrefix : Str) : Viper := { v with envPrefix := envPrefix }

def AutomaticEnv (v : Viper) : Viper := { v with automaticEnvApplied := true }

def getConfigType (v : Viper) : Str :=
  if (filepath.Ext v.configFile).length > 1 then (filepath.Ext v.configFile).tail else []

def ReadInConfig (conv : Libs) (v : Viper) (w : World) : Except ConfigError Viper :=
  if v.getConfigType ∉ SupportedExts then .error (.UnsupportedConfigError v.getConfigType)
  else
    match os.ReadFile v.configFile w with
    | .error cause => .error (.ReadError cause)
    | .ok data =>
      let decoded :=
        if v.getConfigType = "yaml".toList ∨ v.getConfigType = "yml".toList then
          match yaml.Unmarshal data with
          | some entries => some entries
          | none => conv.Decode v.getConfigType data
        else conv.Decode v.getConfigType data
      match decoded with
      | none => .error .ConfigParseError
      | some entries => .ok { v with config := entries.map fun e => (e.1, ofNode e.2) }

def mergeWithEnvPrefix (v : Viper) (key : Str) : Str :=
  if v.envPrefix ≠ [] then strings.ToUpper (v.envPrefix ++ '_' :: key) else strings.ToUpper key

/-- The value of an environment variable, an empty one counting as unset. -/
def getEnv (w : World) (name : Str) : Option Str :=
  match os.LookupEnv name w with
  | some val => if val ≠ [] then some val else none
  | none => none

/-- The look-up `v.find`: the environment, then the configuration file, then
the defaults. -/
def find (v : Viper) (w : World) (key : Str) : Option Value :=
  if v.automaticEnvApplied then
    match getEnv w (v.mergeWithEnvPrefix key) with
    | some val => some (.scalar (.str val))
    | none =>
      if (parents key).any fun p => (getEnv w (v.mergeWithEnvPrefix p)).isSome then none
      else findStored v.config v.defaults key
  else findStored v.config v.defaults key

def Get (v : Viper) (w : World) (key : Str) : Option Value := v.find w (strings.ToLower key)

def GetInt64 (conv : Libs) (v : Viper) (w : World) (key : Str) : Int := ToInt64 conv (v.Get w key)

def GetInt (conv : Libs) (v : Viper) (w : World) (key : Str) : Int := ToInt64 conv (v.Get w key)

def GetFloat64 (conv : Libs) (v : Viper) (w : World) (key : Str) : ℚ :=
  ToFloat64 conv (v.Get w key)

def GetBool (v : Viper) (w : World) (key : Str) : Bool := ToBool (v.Get w key)

def GetString (conv : Libs) (v : Viper) (w : World) (key : Str) : Str :=
  ToString conv (v.Get w key)

def GetStringSlice (conv : Libs) (v : Viper) (w : World) (key : Str) : List Str :=
  ToStringSlice conv (v.Get w key)

end Viper

end viper

/-! ## Configuration: `Load` and `GenerateSampleConfig` -/

/-- Modelled from the spec: `Thresholds` of `internal/detector`, whose
declaration is not among the sources. The type of each field is the one of the
getter `Load` fills it with. -/
structure Thresholds where
  SuspiciousAdditions : Int
  SuspiciousDeletions : Int
  MaxAdditionsPerMin : ℚ
  MaxDeletionsPerMin : ℚ
  MinTimeDeltaSeconds : Int
  MaxFilesPerCommit : Int
  MaxAdditionRatio : ℚ
  MinDeletionRatio : ℚ
  MinCommitSizeRatio : Int
  EnablePrecisionAnalysis : Bool

structure WebhookConfig where
  Enabled : Bool
  Host : Str
  Port : Int
  Secret : Str
  MaxWorkers : Int
  ReadTimeout : Int
  WriteTimeout : Int
  deriving DecidableEq

structure AIConfig where
  Enabled : Bool
  Provider : Str
  APIKey : Str
  Model : Str
  deriving DecidableEq

structure Config where
  Thresholds : Thresholds
  ExcludeFiles : List Str
  Webhook : WebhookConfig
  AI : AIConfig

inductive LoadError where
  | failedToReadConfigFile (cause : viper.ConfigError)
  deriving DecidableEq

/-- The viper instance of `Load` after its ten calls of `SetDefault`. -/
def withDefaults : viper.Viper :=
  ((((((((((viper.New.SetDefault "thresholds.suspicious_additions".toList (.scalar (.int 500))
    ).SetDefault "thresholds.suspicious_deletions".toList (.scalar (.int 1000))
    ).SetDefault "thresholds.max_additions_per_min".toList (.scalar (.int 100))
    ).SetDefault "thresholds.max_deletions_per_min".toList (.scalar (.int 500))
    ).SetDefault "thresholds.min_time_delta_seconds".toList (.scalar (.int 60))
    ).SetDefault "thresholds.max_files_per_commit".toList (.scalar (.int 50))
    ).SetDefault "thresholds.max_addition_ratio".toList (.scalar (.decimal false 95 2))
    ).SetDefault "thresholds.min_deletion_ratio".toList (.scalar (.decimal false 95 2))
    ).SetDefault "thresholds.min_commit_size_ratio".toList (.scalar (.int 100))
    ).SetDefault "thresholds.enable_precision_analysis".toList (.scalar (.bool true)))

/-- The part of `Load` that fills the configuration from the viper instance. -/
def readConfig (conv : Libs) (v : viper.Viper) (w : World) : Config :=
  { Thresholds :=
      { SuspiciousAdditions := v.GetInt64 conv w "thresholds.suspicious_additions".toList
        SuspiciousDeletions := v.GetInt64 conv w "thresholds.suspicious_deletions".toList
        MaxAdditionsPerMin := v.GetFloat64 conv w "thresholds.max_additions_per_min".toList
        MaxDeletionsPerMin := v.GetFloat64 conv w "thresholds.max_deletions_per_min".toList
        MinTimeDeltaSeconds := v.GetInt64 conv w "thresholds.min_time_delta_seconds".toList
        MaxFilesPerCommit := v.GetInt conv w "thresholds.max_files_per_commit".toList
        MaxAdditionRatio := v.GetFloat64 conv w "thresholds.max_addition_ratio".toList
        MinDeletionRatio := v.GetFloat64 conv w "thresholds.min_deletion_ratio".toList
        MinCommitSizeRatio := v.GetInt64 conv w "thresholds.min_commit_size_ratio".toList
        EnablePrecisionAnalysis := v.GetBool w "thresholds.enable_precision_analysis".toList }
    ExcludeFiles := v.GetStringSlice conv w "exclude_files".toList
    Webhook :=
      { Enabled := v.GetBool w "webhook.enabled".toList
        Host :=
          if v.GetString conv w "webhook.host".toList = [] then "0.0.0.0".toList
          else v.GetString conv w "webhook.host".toList
        Port :=
          if v.GetInt conv w "webhook.port".toList = 0 then 3000
          else v.GetInt conv w "webhook.port".toList
        Secret := v.GetString conv w "webhook.secret".toList
        MaxWorkers :=
          if v.GetInt conv w "webhook.max_workers".toList = 0 then 4
          else v.GetInt conv w "webhook.max_workers".toList
        ReadTimeout :=
          if v.GetInt conv w "webhook.read_timeout".toList = 0 then 30
          else v.GetInt conv w "webhook.read_timeout".toList
        WriteTimeout :=
          if v.GetInt conv w "webhook.write_timeout".toList = 0 then 30
          else v.GetInt conv w "webhook.write_timeout".toList }
    AI :=
      { Enabled := v.GetBool w "ai.enabled".toList
        Provider := v.GetString conv w "ai.provider".toList
        APIKey := v.GetString conv w "ai.api_key".toList
        Model :=
          if v.GetString conv w "ai.model".toList = [] then "gpt-4o-mini".toList
          else v.GetString conv w "ai.model".toList } }

def Load (conv : Libs) (configFile : Str) (w : World) : Except LoadError Config :=
  let read :=
    if configFile ≠ [] then (withDefaults.SetConfigFile configFile).ReadInConfig conv w
    else .ok withDefaults
  match read with
  | .error cause => .error (.failedToReadConfigFile cause)
  | .ok v => .ok (readConfig conv (v.SetEnvPrefix "CADENCE".toList).AutomaticEnv w)

/-- The text `GenerateSampleConfig` writes, line by line. -/
def sampleLines : List Str :=
  [ "# Cadence Configuration - AI-Generated Code Detection".toList,
    "# Analyzes git repositories to detect potential AI-generated code patterns".toList,
    "".toList,
    "thresholds:".toList,
    "  # SIZE-BASED DETECTION".toList,
    "  suspicious_additions: 500".toList,
    "  suspicious_deletions: 1000".toList,
    "  ".toList,
    "  # VELOCITY-BASED DETECTION".toList,
    "  max_additions_per_min: 100".toList,
    "  max_deletions_per_min: 500".toList,
    "  ".toList,
    "  # TIMING-BASED DETECTION".toList,
    "  min_time_delta_seconds: 60".toList,
    "  ".toList,
    "  # FILE DISPERSION DETECTION".toList,
    "  max_files_per_commit: 50".toList,
    "  ".toList,
    "  # RATIO-BASED DETECTION".toList,
    "  max_addition_ratio: 0.95".toList,
    "  min_deletion_ratio: 0.95".toList,
    "  min_commit_size_ratio: 100".toList,
    "  ".toList,
    "  # PRECISION ANALYSIS".toList,
    "  enable_precision_analysis: true".toList,
    "".toList,
    "# File patterns to exclude from analysis".toList,
    "exclude_files:".toList,
    "  - package-lock.json".toList,
    "  - yarn.lock".toList,
    "  - \"*.min.js\"".toList,
    "  - \"*.min.css\"".toList,
    "  - \"node_modules/**\"".toList,
    "".toList,
    "# WEBHOOK SERVER CONFIGURATION".toList,
    "webhook:".toList,
    "  # Enable/disable webhook server".toList,
    "  enabled: false".toList,
    "  ".toList,
    "  # Server host and port".toList,
    "  host: \"0.0.0.0\"".toList,
    "  port: 3000".toList,
    "  ".toList,
    "  # Webhook secret for signature verification (set this!)".toList,
    "  secret: \"your-webhook-secret-key-here\"".toList,
    "  ".toList,
    "  # Number of concurrent workers for processing webhook events".toList,
    "  max_workers: 4".toList,
    "  ".toList,
    "  # Request timeouts in seconds".toList,
    "  read_timeout: 30".toList,
    "  write_timeout: 30".toList,
    "".toList,
    "# AI ANALYSIS CONFIGURATION (Optional - requires API key)".toList,
    "ai:".toList,
    "  # Enable/disable AI-powered code analysis".toList,
    "  enabled: false".toList,
    "  ".toList,
    "  # AI provider (\"openai\" only for now)".toList,
    "  provider: \"openai\"".toList,
    "  ".toList,
    "  # OpenAI API key (or set via CADENCE_AI_KEY environment variable)".toList,
    "  api_key: \"\"".toList,
    "  ".toList,
    "  # OpenAI model (gpt-4o-mini recommended for efficiency)".toList,
    "  model: \"gpt-4o-mini\"".toList,
    "".toList ]

/-- The text `GenerateSampleConfig` writes. -/
def sampleConfig : Str := strings.Join '\n' sampleLines

def GenerateSampleConfig (path : Str) (w : World) : Except Str World :=
  os.WriteFile path sampleConfig w

/-- The ten keys of the thresholds. -/
def thresholdKeys : List Str :=
  [ "thresholds.suspicious_additions".toList, "thresholds.suspicious_deletions".toList,
    "thresholds.max_additions_per_min".toList, "thresholds.max_deletions_per_min".toList,
    "thresholds.min_time_delta_seconds".toList, "thresholds.max_files_per_commit".toList,
    "thresholds.max_addition_ratio".toList, "thresholds.min_deletion_ratio".toList,
    "thresholds.min_commit_size_ratio".toList, "thresholds.enable_precision_analysis".toList ]

/-- The default thresholds: 500, 1000, 100, 500, 60, 50, 0.95, 0.95, 100, true. -/
def defaultThresholds : Thresholds :=
  { SuspiciousAdditions := 500, SuspiciousDeletions := 1000, MaxAdditionsPerMin := 100,
    MaxDeletionsPerMin := 500, MinTimeDeltaSeconds := 60, MaxFilesPerCommit := 50,
    MaxAdditionRatio := F64.lit (95 / 100), MinDeletionRatio := F64.lit (95 / 100),
    MinCommitSizeRatio := 100, EnablePrecisionAnalysis := true }

/-- No environment variable has a name that starts with `CADENCE_`. -/
def noCadenceEnv (w : World) : Prop :=
  ∀ e ∈ w.env, ¬ "CADENCE_".toList <+: e.1

/-- A process with no file and no environment variable. -/
def emptyWorld : World := { files := [], readOnly := [], env := [] }

/-- The libraries' parsers when no string needs parsing. -/
def noLibs : Libs :=
  { ParseInt := fun _ => none, ParseFloat := fun _ => none, FormatFloat := fun _ => [],
    Decode := fun _ _ => none }

/-- The entries of the sample, as the reader delivers them. -/
def sampleEntries : List (Str × yaml.Node) :=
  [ ("thresholds.suspicious_additions".toList, .scalar (.int 500)),
    ("thresholds.suspicious_deletions".toList, .scalar (.int 1000)),
    ("thresholds.max_additions_per_min".toList, .scalar (.int 100)),
    ("thresholds.max_deletions_per_min".toList, .scalar (.int 500)),
    ("thresholds.min_time_delta_seconds".toList, .scalar (.int 60)),
    ("thresholds.max_files_per_commit".toList, .scalar (.int 50)),
    ("thresholds.max_addition_ratio".toList, .scalar (.decimal false 95 2)),
    ("thresholds.min_deletion_ratio".toList, .scalar (.decimal false 95 2)),
    ("thresholds.min_commit_size_ratio".toList, .scalar (.int 100)),
    ("thresholds.enable_precision_analysis".toList, .scalar (.bool true)),
    ("exclude_files".toList,
      .seq [ .str "package-lock.json".toList, .str "yarn.lock".toList, .str "*.min.js".toList,
        .str "*.min.css".toList, .str "node_modules/**".toList ]),
    ("webhook.enabled".toList, .scalar (.bool false)),
    ("webhook.host".toList, .scalar (.str "0.0.0.0".toList)),
    ("webhook.port".toList, .scalar (.int 3000)),
    ("webhook.secret".toList, .scalar (.str "your-webhook-secret-key-here".toList)),
    ("webhook.max_workers".toList, .scalar (.int 4)),
    ("webhook.read_timeout".toList, .scalar (.int 30)),
    ("webhook.write_timeout".toList, .scalar (.int 30)),
    ("ai.enabled".toList, .scalar (.bool false)),
    ("ai.provider".toList, .scalar (.str "openai".toList)),
    ("ai.api_key".toList, .scalar (.str [])),
    ("ai.model".toList, .scalar (.str "gpt-4o-mini".toList)) ]

/-- The values viper holds after it has read the sample. -/
def sampleValues : List (Str × viper.Value) :=
  sampleEntries.map fun e => (e.1, viper.ofNode e.2)

/-- A process whose only file is the sample, under the name `cadence.yaml`. -/
def sampleWorld : World :=
  { files := [("cadence.yaml".toList, sampleConfig)], readOnly := [], env := [] }

/-! ## The signals of the naming analysis, one by one -/

namespace NamingPatternStrategy

/-- The points the loop over `genericVarPatterns` adds to `suspiciousPatterns`. -/
def genericSignal (added : List Str) : Nat :=
  countMatches (strings.ToLower (strings.Join '\n' added)) genericVarPatterns

/-- The point of the test `todoCount > 2 || fixmeCount > 1`. -/
def todoSignal (added : List Str) : Nat :=
  if strings.Count (strings.ToLower (strings.Join '\n' added)) "todo".toList > 2 ∨
      strings.Count (strings.ToLower (strings.Join '\n' added)) "fixme".toList > 1
  then 1 else 0

/-- The point of the test on the share of words in perfect camel case. -/
def camelCaseSignal (added : List Str) : Nat :=
  let words := strings.Fields (strings.Join '\n' added)
  if words.length > 10 ∧
      F64.div (F64.ofInt (words.countP fun word => byteLen word > 4 && isPerfectCamelCase word))
        (F64.ofInt words.length) > F64.lit (3 / 10)
  then 1 else 0

/-- The point of the test on `catch`, `except` and `try`. -/
def errorHandlingSignal (added : List Str) : Nat :=
  let codeContent := strings.Join '\n' added
  if (strings.Contains codeContent "catch".toList ∨ strings.Contains codeContent "except".toList) ∧
      strings.Count codeContent "catch".toList + strings.Count codeContent "except".toList
        + strings.Count codeContent "try".toList > added.length / 20
  then 1 else 0

end NamingPatternStrategy

/-- Two added lines of Visual Basic, with the keyword `Catch` as that language
writes it. -/
def capitalCatchLines : List Str :=
  ["Dim data = Load()".toList, "Catch ex As Exception".toList]

/-- The same two lines in lower case. -/
def lowerCatchLines : List Str :=
  ["dim data = load()".toList, "catch ex as exception".toList]

/-- A diff that adds the lines `capitalCatchLines`. -/
def capitalCatchDiff : Str := "+Dim data = Load()\n+Catch ex As Exception".toList

/-- A diff that adds the lines `lowerCatchLines`. -/
def lowerCatchDiff : Str := "+dim data = load()\n+catch ex as exception".toList

/-- The distance from `x` to the nearest integer. -/
def distToInteger (x : ℚ) : ℚ := min (Int.fract x) (1 - Int.fract x)

/-- A diff of twenty added lines `TRY { Throw e }`, keywords in capitals. -/
def twentyRaisingLines : Str :=
  strings.Join '\n' (List.replicate 20 "+TRY \x7b Throw e \x7d".toList)

/-- A diff of thirty added lines of which one holds the keyword `Error`. -/
def thirtyLinesOneKeyword : Str :=
  strings.Join '\n' ("+return Error".toList :: List.replicate 29 "+x".toList)

/-- A diff of ten added lines, each a comment with two template phrases in
capitals. -/
def tenCapitalTemplateLines : Str :=
  strings.Join '\n' (List.replicate 10 "+// TODO: PLACEHOLDER".toList)

/-- A diff of ten added lines, each a comment with the phrases fixme and
implement written with U+0130 (capital I with dot above). -/
def tenDottedTemplateLines : Str :=
  strings.Join '\n' (List.replicate 10 "+// F\xc4\xb0XME \xc4\xb0MPLEMENT".toList)

/-- A diff of ten added lines, each with four template phrases. -/
def tenFourPhraseLines : Str :=
  strings.Join '\n' (List.replicate 10 "+// Todo Fixme Example Sample".toList)

/-- A diff of ten added lines, each with the one template phrase todo. -/
def tenOnePhraseLines : Str :=
  strings.Join '\n' (List.replicate 10 "+// todo".toList)

namespace utf8

/-- Go `utf8.ValidString`: no byte of `s` is decoded as an invalid one. -/
def ValidString (s : Str) : Bool :=
  (units s).all fun u => !(u.1 == RuneError && u.2.length == 1)

end utf8

/-- The names of the environment variables viper looks up for the ten
threshold keys: the prefix `CADENCE_` and the key in capitals, and the one for
the mapping `thresholds` above them. -/
def thresholdEnvNames : List Str :=
  [ "CADENCE_THRESHOLDS".toList,
    "CADENCE_THRESHOLDS.SUSPICIOUS_ADDITIONS".toList,
    "CADENCE_THRESHOLDS.SUSPICIOUS_DELETIONS".toList,
    "CADENCE_THRESHOLDS.MAX_ADDITIONS_PER_MIN".toList,
    "CADENCE_THRESHOLDS.MAX_DELETIONS_PER_MIN".toList,
    "CADENCE_THRESHOLDS.MIN_TIME_DELTA_SECONDS".toList,
    "CADENCE_THRESHOLDS.MAX_FILES_PER_COMMIT".toList,
    "CADENCE_THRESHOLDS.MAX_ADDITION_RATIO".toList,
    "CADENCE_THRESHOLDS.MIN_DELETION_RATIO".toList,
    "CADENCE_THRESHOLDS.MIN_COMMIT_SIZE_RATIO".toList,
    "CADENCE_THRESHOLDS.ENABLE_PRECISION_ANALYSIS".toList ]

/-- No environment variable that viper looks up for a threshold key is set to
a non-empty value. -/
def noThresholdEnv (w : World) : Prop :=
  ∀ name ∈ thresholdEnvNames, viper.Viper.getEnv w name = none

/-- A process without files in which the environment variable for the key
`thresholds.suspicious_additions` is set to 250. -/
def overridingWorld : World :=
  { files := [], readOnly := [],
    env := [("CADENCE_THRESHOLDS.SUSPICIOUS_ADDITIONS".toList, "250".toList)] }

/-- The process `overridingWorld` after the sample was written to
`cadence.yaml`. -/
def overriddenSampleWorld : World :=
  { files := [("cadence.yaml".toList, sampleConfig)], readOnly := [],
    env := [("CADENCE_THRESHOLDS.SUSPICIOUS_ADDITIONS".toList, "250".toList)] }

/-! ## Properties of the string helpers -/

theorem contains_iff_occurs (s sub : Str) : strings.Contains s sub = true ↔ sub <:+: s := by
  induction s with
  | nil => simp [strings.Contains, strings.HasPrefix]
  | cons c cs ih =>
    simp only [strings.Contains, strings.HasPrefix, Bool.or_eq_true, ih,
      List.isPrefixOf_iff_prefix, List.infix_cons_iff]

/-! ## Commit-message strategy: theorems -/

/-- The verdict of the commit-message strategy, as a formula over the
lower-cased message. -/
theorem commitMessage_detected (s : CommitMessageStrategy) (pair : CommitPair)
    (repoStats : RepositoryStats) :
    ((s.Detect pair repoStats).1 = true ↔
      s.enabled = true ∧
      (countMatches (strings.ToLower pair.Current.Message) CommitMessageStrategy.aiPatterns ≥ 2 ∨
        countMatches (strings.ToLower pair.Current.Message)
          CommitMessageStrategy.genericPatterns ≥ 1 ∨
        ((strings.Fields (strings.ToLower pair.Current.Message)).length > 8 ∧
          (strings.Contains (strings.ToLower pair.Current.Message) "implement".toList = true ∨
            strings.Contains (strings.ToLower pair.Current.Message)
              "functionality".toList = true)))) := by
  unfold CommitMessageStrategy.Detect
  cases h : s.enabled <;> simp only [Bool.not_true, Bool.not_false] <;> split_ifs <;> simp_all
  tauto

/-- C1: the commit-message strategy flags a commit pair exactly when, on the
lower-cased current message, at least 2 of the 12 AI-style phrases or at least
1 of the 10 generic phrases occur as substrings, or the message has more than 8
whitespace-separated words and contains "implement" or "functionality"; the
message "implement add functionality and enhance functionality" is flagged
whatever the rest of the pair is. The lower-casing is the one of
strings.ToLower: messages in capitals and the message U+0130 "MPROVEMENTS"
(whose first letter Go maps to i) are flagged; a message of nine words with
"functionality" is flagged by the word rule, its variant of eight words is
not. -/
theorem C1_commit_message_flags (pair : CommitPair) (repoStats : RepositoryStats) :
    CommitMessageStrategy.aiPatterns =
      [ "implement".toList, "add functionality".toList, "update code".toList,
        "refactor code".toList, "improve implementation".toList,
        "enhance functionality".toList, "optimize performance".toList,
        "fix issues".toList, "improve code quality".toList, "add new features".toList,
        "update implementation".toList, "add support for".toList ] ∧
    CommitMessageStrategy.genericPatterns =
      [ "initial commit".toList, "update readme".toList, "update dependencies".toList,
        "minor fixes".toList, "code cleanup".toList, "bug fixes".toList,
        "improvements".toList, "updates".toList, "changes".toList,
        "modifications".toList ] ∧
    CommitMessageStrategy.aiPatterns.length = 12 ∧
    CommitMessageStrategy.genericPatterns.length = 10 ∧
    ((NewCommitMessageStrategy.Detect pair repoStats).1 = true ↔
      ((CommitMessageStrategy.aiPatterns.countP
          fun phrase => decide (phrase <:+: strings.ToLower pair.Current.Message)) ≥ 2 ∨
        (CommitMessageStrategy.genericPatterns.countP
          fun phrase => decide (phrase <:+: strings.ToLower pair.Current.Message)) ≥ 1 ∨
        ((strings.Fields (strings.ToLower pair.Current.Message)).length > 8 ∧
          ("implement".toList <:+: strings.ToLower pair.Current.Message ∨
            "functionality".toList <:+: strings.ToLower pair.Current.Message)))) ∧
    (NewCommitMessageStrategy.Detect
        { pair with
          Current :=
            { pair.Current with
              Message := "implement add functionality and enhance functionality".toList } }
        repoStats).1 = true ∧
    strings.ToLower "IMPLEMENT Caching, Add Functionality".toList
      = "implement caching, add functionality".toList ∧
    strings.ToLower "\xc4\xb0MPROVEMENTS".toList = "improvements".toList ∧
    (∀ msg ∈ [ "IMPLEMENT Caching, Add Functionality".toList, "Minor Fixes".toList,
        "\xc4\xb0MPROVEMENTS".toList,
        "we now expose the new functionality to all users".toList,
        "We now expose the new\xc2\xa0FUNCTIONALITY\tto all\nusers".toList ],
      (NewCommitMessageStrategy.Detect (mkPair msg 0 0 0 0 []) { counters := [] }).1 = true) ∧
    (∀ msg ∈ [ "we expose the new functionality to all users".toList,
        "we now expose the new functionality to all\xa0users".toList,
        "implement caching".toList, "fix typo".toList ],
      (NewCommitMessageStrategy.Detect (mkPair msg 0 0 0 0 []) { counters := [] }).1
        = false) := by
  have hc : ∀ text : Str, (fun phrase : Str => decide (phrase <:+: text)) =
      fun phrase => strings.Contains text phrase := by
    intro text; funext phrase
    rw [Bool.eq_iff_iff]; simp [contains_iff_occurs]
  refine ⟨rfl, rfl, by decide, by decide, ?_, ?_, by decide, by decide, by decide, by decide⟩
  · rw [commitMessage_detected, hc]
    simp only [countMatches, ← contains_iff_occurs, NewCommitMessageStrategy, true_and]
  · rw [commitMessage_detected]
    refine ⟨rfl, Or.inl ?_⟩
    show countMatches
      (strings.ToLower "implement add functionality and enhance functionality".toList)
      CommitMessageStrategy.aiPatterns ≥ 2
    decide

/-! ## Error-handling strategy: theorems -/

set_option maxRecDepth 100000 in
/-- C4: for a pair with non-empty diffContent and additions > 50, with `n` the
number of added lines and `c` the summed occurrence counts of the eleven
error-handling patterns (try, catch, except, throw, throws, error, exception,
handle, "if err != nil", ".catch(", rescue) in the lower-cased added text, the
error-handling strategy flags exactly when n >= 20 and (additions > 100 and
c < n / 30, or c > n / 5); with 40 added lines, no keyword and additions = 120
the expected count is 1 and the pair is flagged with the
insufficient-error-handling reason. The count adds overlapping patterns
("throws" counts for throw and for throws) and sees keywords in capitals. -/
theorem C4_error_handling_with_diff (pair : CommitPair) (repoStats : RepositoryStats)
    (hdiff : pair.DiffContent ≠ []) (hadd : pair.Stats.Additions > 50) :
    ErrorHandlingPatternStrategy.errorPatterns.length = 11 ∧
    ((NewErrorHandlingPatternStrategy.Detect pair repoStats).1 = true ↔
      (addedLines pair.DiffContent).length ≥ 20 ∧
      ((pair.Stats.Additions > 100 ∧
          strings.Count (strings.ToLower (strings.Join '\n' (addedLines pair.DiffContent)))
              "try".toList
            + strings.Count (strings.ToLower (strings.Join '\n' (addedLines pair.DiffContent)))
              "catch".toList
            + strings.Count (strings.ToLower (strings.Join '\n' (addedLines pair.DiffContent)))
              "except".toList
            + strings.Count (strings.ToLower (strings.Join '\n' (addedLines pair.DiffContent)))
              "throw".toList
            + strings.Count (strings.ToLower (strings.Join '\n' (addedLines pair.DiffContent)))
              "throws".toList
            + strings.Count (strings.ToLower (strings.Join '\n' (addedLines pair.DiffContent)))
              "error".toList
            + strings.Count (strings.ToLower (strings.Join '\n' (addedLines pair.DiffContent)))
              "exception".toList
            + strings.Count (strings.ToLower (strings.Join '\n' (addedLines pair.DiffContent)))
              "handle".toList
            + strings.Count (strings.ToLower (strings.Join '\n' (addedLines pair.DiffContent)))
              "if err != nil".toList
            + strings.Count (strings.ToLower (strings.Join '\n' (addedLines pair.DiffContent)))
              ".catch(".toList
            + strings.Count (strings.ToLower (strings.Join '\n' (addedLines pair.DiffContent)))
              "rescue".toList
            < (addedLines pair.DiffContent).length / 30) ∨
        strings.Count (strings.ToLower (strings.Join '\n' (addedLines pair.DiffContent)))
              "try".toList
            + strings.Count (strings.ToLower (strings.Join '\n' (addedLines pair.DiffContent)))
              "catch".toList
            + strings.Count (strings.ToLower (strings.Join '\n' (addedLines pair.DiffContent)))
              "except".toList
            + strings.Count (strings.ToLower (strings.Join '\n' (addedLines pair.DiffContent)))
              "throw".toList
            + strings.Count (strings.ToLower (strings.Join '\n' (addedLines pair.DiffContent)))
              "throws".toList
            + strings.Count (strings.ToLower (strings.Join '\n' (addedLines pair.DiffContent)))
              "error".toList
            + strings.Count (strings.ToLower (strings.Join '\n' (addedLines pair.DiffContent)))
              "exception".toList
            + strings.Count (strings.ToLower (strings.Join '\n' (addedLines pair.DiffContent)))
              "handle".toList
            + strings.Count (strings.ToLower (strings.Join '\n' (addedLines pair.DiffContent)))
              "if err != nil".toList
            + strings.Count (strings.ToLower (strings.Join '\n' (addedLines pair.DiffContent)))
              ".catch(".toList
            + strings.Count (strings.ToLower (strings.Join '\n' (addedLines pair.DiffContent)))
              "rescue".toList
          > (addedLines pair.DiffContent).length / 5)) ∧
    ((addedLines pair.DiffContent).length = 40 →
      ErrorHandlingPatternStrategy.errorHandlingPatterns
          (strings.ToLower (strings.Join '\n' (addedLines pair.DiffContent))) = 0 →
      pair.Stats.Additions = 120 →
      (addedLines pair.DiffContent).length / 30 = 1 ∧
      NewErrorHandlingPatternStrategy.Detect pair repoStats =
        (true,
          "Large code addition (".toList ++ fmtInt 120
            ++ " lines) with insufficient error handling (".toList ++ fmtInt 0
            ++ " patterns, expected ~".toList ++ fmtInt 1
            ++ ") - typical AI omission".toList)) ∧
    ErrorHandlingPatternStrategy.errorHandlingPatterns
      (strings.ToLower "x.Catch(e) THROWS Exception; RESCUE; if ERR != nil; TRY; Handle".toList)
      = 10 ∧
    ErrorHandlingPatternStrategy.errorHandlingPatterns
      (strings.ToLower "EXCEPT\xc4\xb0ON".toList) = 2 ∧
    NewErrorHandlingPatternStrategy.Detect (mkPair [] 51 0 1 0 twentyRaisingLines)
        { counters := [] } =
      (true,
        "Excessive error handling patterns (".toList ++ fmtInt 40 ++ " in ".toList
          ++ fmtInt 20 ++ " lines) - may indicate AI over-compensation".toList) ∧
    (NewErrorHandlingPatternStrategy.Detect (mkPair [] 120 0 1 0 thirtyLinesOneKeyword)
        { counters := [] }).1 = false := by
  have hsum : ∀ text : Str, ErrorHandlingPatternStrategy.errorHandlingPatterns text =
      strings.Count text "try".toList + strings.Count text "catch".toList
        + strings.Count text "except".toList + strings.Count text "throw".toList
        + strings.Count text "throws".toList + strings.Count text "error".toList
        + strings.Count text "exception".toList + strings.Count text "handle".toList
        + strings.Count text "if err != nil".toList + strings.Count text ".catch(".toList
        + strings.Count text "rescue".toList := by
    intro text
    simp only [ErrorHandlingPatternStrategy.errorHandlingPatterns,
      ErrorHandlingPatternStrategy.errorPatterns, List.map_cons, List.map_nil, List.sum_cons,
      List.sum_nil]
    omega
  refine ⟨by decide, ?_, ?_, by decide, by decide, by decide, by decide⟩
  · rw [← hsum]
    simp only [ErrorHandlingPatternStrategy.Detect, NewErrorHandlingPatternStrategy,
      ErrorHandlingPatternStrategy.analyzeErrorHandling, Bool.not_true]
    simp only [Bool.false_eq_true, if_false, hdiff, hadd, ne_eq, not_false_eq_true, and_self,
      if_true]
    split_ifs <;> simp_all
  · intro hn hc h120
    simp only [ErrorHandlingPatternStrategy.Detect, NewErrorHandlingPatternStrategy,
      ErrorHandlingPatternStrategy.analyzeErrorHandling, Bool.not_true]
    simp only [Bool.false_eq_true, if_false, hdiff, hadd, ne_eq, not_false_eq_true, and_self,
      if_true, hn, hc, h120]
    simp

set_option maxRecDepth 100000 in
/-- The instance of C4 at a diff of twenty added lines `TRY \x7b Throw e \x7d`
and 51 additions: 40 occurrences against 20 lines, flagged as excessive. -/
theorem C4_error_handling_with_diff_witness :
    (mkPair [] 51 0 1 0 twentyRaisingLines).DiffContent ≠ [] ∧
    (mkPair [] 51 0 1 0 twentyRaisingLines).Stats.Additions > 50 ∧
    (addedLines twentyRaisingLines).length = 20 ∧
    ErrorHandlingPatternStrategy.errorHandlingPatterns
      (strings.ToLower (strings.Join '\n' (addedLines twentyRaisingLines))) = 40 ∧
    (NewErrorHandlingPatternStrategy.Detect (mkPair [] 51 0 1 0 twentyRaisingLines)
      { counters := [] }).1 = true :=
  have h1 : (mkPair [] 51 0 1 0 twentyRaisingLines).DiffContent ≠ [] := by decide
  have h2 : (mkPair [] 51 0 1 0 twentyRaisingLines).Stats.Additions > 50 := by decide
  ⟨h1, h2, by decide, by decide,
    ((C4_error_handling_with_diff (mkPair [] 51 0 1 0 twentyRaisingLines) { counters := [] }
      h1 h2).2.1).mpr (by decide)⟩

theorem hasErrorPatterns_iff (msg : Str) :
    ErrorHandlingPatternStrategy.hasErrorPatterns msg = true ↔
      ∃ keyword ∈ ["error".toList, "exception".toList, "try".toList, "catch".toList,
          "handle".toList], keyword <:+: msg := by
  simp only [ErrorHandlingPatternStrategy.hasErrorPatterns, Bool.or_eq_true, contains_iff_occurs,
    List.mem_cons, List.mem_singleton, exists_eq_or_imp, exists_eq_left, List.not_mem_nil,
    false_and, exists_false, or_false, or_assoc]

/-- C5: for a pair whose diffContent is empty the error-handling strategy flags
exactly when additions > 300 and the lower-cased commit message contains none
of error, exception, try, catch, handle. The lower-casing is the one of
strings.ToLower: with 301 additions the messages "Big ERROR fix",
"Retry upload" and "add EXCEPT" U+0130 "ON mapping" (lower-cased to
"add exception mapping") are not flagged, "big drop" is, and it is not with
300 additions. -/
theorem C5_error_handling_without_diff (pair : CommitPair) (repoStats : RepositoryStats)
    (hdiff : pair.DiffContent = []) :
    ((NewErrorHandlingPatternStrategy.Detect pair repoStats).1 = true ↔
      pair.Stats.Additions > 300 ∧
      ¬ (∃ keyword ∈ ["error".toList, "exception".toList, "try".toList, "catch".toList,
            "handle".toList],
          keyword <:+: strings.ToLower pair.Current.Message)) ∧
    strings.ToLower "add EXCEPT\xc4\xb0ON mapping".toList = "add exception mapping".toList ∧
    strings.ToLower "Big ERROR fix".toList = "big error fix".toList ∧
    (∀ msg ∈ [ "Big ERROR fix".toList, "Retry upload".toList, "CATCH all".toList,
        "HANDLE input".toList, "add EXCEPT\xc4\xb0ON mapping".toList ],
      (NewErrorHandlingPatternStrategy.Detect (mkPair msg 301 0 1 0 []) ⟨[]⟩).1 = false) ∧
    (NewErrorHandlingPatternStrategy.Detect (mkPair "big drop".toList 301 0 1 0 []) ⟨[]⟩).1
      = true ∧
    (NewErrorHandlingPatternStrategy.Detect (mkPair "big drop".toList 300 0 1 0 []) ⟨[]⟩).1
      = false := by
  refine ⟨?_, by decide, by decide, by decide, by decide, by decide⟩
  rw [← hasErrorPatterns_iff]
  simp only [ErrorHandlingPatternStrategy.Detect, NewErrorHandlingPatternStrategy, hdiff,
    Bool.not_true, Bool.false_eq_true, if_false, ne_eq, not_true_eq_false, false_and]
  cases hb : ErrorHandlingPatternStrategy.hasErrorPatterns (strings.ToLower pair.Current.Message)
    <;> by_cases h2 : pair.Stats.Additions > 200
    <;> by_cases h3 : pair.Stats.Additions > 300
    <;> simp [h2, h3]
  all_goals omega

/-- The instance of C5 at an empty diff, the message "big drop" and 301 additions. -/
theorem C5_error_handling_without_diff_witness :
    (mkPair "big drop".toList 301 0 1 0 []).DiffContent = [] ∧
    (NewErrorHandlingPatternStrategy.Detect (mkPair "big drop".toList 301 0 1 0 []) ⟨[]⟩).1
      = true :=
  ⟨rfl, (C5_error_handling_without_diff (mkPair "big drop".toList 301 0 1 0 []) ⟨[]⟩ rfl).1.mpr
    (by decide)⟩

/-! ## Fallbacks to the commit message: theorems -/

theorem countMatches_eq_countP (text : Str) (patterns : List Str) :
    countMatches text patterns = patterns.countP fun phrase => decide (phrase <:+: text) := by
  unfold countMatches
  congr 1
  funext phrase
  rw [Bool.eq_iff_iff]
  simp [contains_iff_occurs]

theorem countMatches_pos_iff (text : Str) (patterns : List Str) :
    countMatches text patterns > 0 ↔ ∃ phrase ∈ patterns, phrase <:+: text := by
  rw [countMatches_eq_countP, gt_iff_lt, List.countP_pos_iff]
  simp

/-- C8: for a pair whose diffContent is empty the naming strategy looks at the
commit message only and flags exactly when at least 2 of the 17 (pairwise
distinct) generic nouns occur as substrings of the lower-cased message. The
lower-casing is the one of strings.ToLower: "ADD HELPER METHOD" and
"UT" U+0130 "L" U+0130 "TY SERV" U+0130 "CE" (lower-cased to "utility service")
are flagged, "Add helper" with one noun is not. -/
theorem C8_naming_without_diff (pair : CommitPair) (repoStats : RepositoryStats)
    (hdiff : pair.DiffContent = []) :
    NamingPatternStrategy.genericNames =
      [ "variable".toList, "function".toList, "method".toList, "class".toList,
        "object".toList, "instance".toList, "data".toList, "result".toList,
        "value".toList, "item".toList, "element".toList, "component".toList,
        "helper".toList, "utility".toList, "manager".toList, "handler".toList,
        "service".toList ] ∧
    NamingPatternStrategy.genericNames.length = 17 ∧
    NamingPatternStrategy.genericNames.Nodup ∧
    ((NewNamingPatternStrategy.Detect pair repoStats).1 = true ↔
      (NamingPatternStrategy.genericNames.countP
        fun noun => decide (noun <:+: strings.ToLower pair.Current.Message)) ≥ 2) ∧
    strings.ToLower "UT\xc4\xb0L\xc4\xb0TY SERV\xc4\xb0CE".toList = "utility service".toList ∧
    strings.ToLower "ADD HELPER METHOD".toList = "add helper method".toList ∧
    (∀ msg ∈ [ "ADD HELPER METHOD".toList, "UT\xc4\xb0L\xc4\xb0TY SERV\xc4\xb0CE".toList,
        "Add helper method".toList ],
      (NewNamingPatternStrategy.Detect (mkPair msg 1 0 1 0 []) ⟨[]⟩).1 = true) ∧
    (∀ msg ∈ [ "Add helper".toList, "UT\xc4\xb0L\xc4\xb0TY".toList, "fix typo".toList ],
      (NewNamingPatternStrategy.Detect (mkPair msg 1 0 1 0 []) ⟨[]⟩).1 = false) := by
  refine ⟨rfl, by decide, by decide, ?_, by decide, by decide, by decide, by decide⟩
  rw [← countMatches_eq_countP]
  simp only [NamingPatternStrategy.Detect, NewNamingPatternStrategy, hdiff, Bool.not_true,
    Bool.false_eq_true, if_false, ne_eq, not_true_eq_false]
  split_ifs with h <;> simp [h]

/-- The instance of C8 at an empty diff and the message "ADD HELPER METHOD". -/
theorem C8_naming_without_diff_witness :
    (mkPair "ADD HELPER METHOD".toList 1 0 1 0 []).DiffContent = [] ∧
    (NewNamingPatternStrategy.Detect (mkPair "ADD HELPER METHOD".toList 1 0 1 0 []) ⟨[]⟩).1
      = true :=
  ⟨rfl,
    (C8_naming_without_diff (mkPair "ADD HELPER METHOD".toList 1 0 1 0 []) ⟨[]⟩ rfl).2.2.2.1.mpr
      (by decide)⟩

/-- C10: for a pair whose diffContent is empty the template strategy flags
exactly when the lower-cased commit message contains at least one of the 8
boilerplate keywords and additions > 100. The lower-casing is the one of
strings.ToLower: with 101 additions "Add SCAFFOLD" and "Add S" U+212A "ELETON"
(the Kelvin sign, lower-cased to k) are flagged, "Add parser" is not, and
"Add SCAFFOLD" is not with 100 additions. -/
theorem C10_template_without_diff (pair : CommitPair) (repoStats : RepositoryStats)
    (hdiff : pair.DiffContent = []) :
    TemplatePatternStrategy.templatePatterns =
      [ "boilerplate".toList, "template".toList, "skeleton".toList, "scaffold".toList,
        "stub".toList, "placeholder".toList, "todo".toList, "fixme".toList ] ∧
    ((NewTemplatePatternStrategy.Detect pair repoStats).1 = true ↔
      (∃ keyword ∈ TemplatePatternStrategy.templatePatterns,
          keyword <:+: strings.ToLower pair.Current.Message) ∧
        pair.Stats.Additions > 100) ∧
    strings.ToLower "Add S\xe2\x84\xaaELETON".toList = "add skeleton".toList ∧
    strings.ToLower "Add SCAFFOLD".toList = "add scaffold".toList ∧
    (∀ msg ∈ [ "Add SCAFFOLD".toList, "Add S\xe2\x84\xaaELETON".toList, "ToDo".toList,
        "F\xc4\xb0XME".toList ],
      (NewTemplatePatternStrategy.Detect (mkPair msg 101 0 1 0 []) ⟨[]⟩).1 = true) ∧
    (NewTemplatePatternStrategy.Detect (mkPair "Add parser".toList 101 0 1 0 []) ⟨[]⟩).1
      = false ∧
    (NewTemplatePatternStrategy.Detect (mkPair "Add SCAFFOLD".toList 100 0 1 0 []) ⟨[]⟩).1
      = false := by
  refine ⟨rfl, ?_, by decide, by decide, by decide, by decide, by decide⟩
  rw [← countMatches_pos_iff]
  simp only [TemplatePatternStrategy.Detect, NewTemplatePatternStrategy, hdiff, Bool.not_true,
    Bool.false_eq_true, if_false, ne_eq, not_true_eq_false, false_and,
    TemplatePatternStrategy.messageFallback]
  split_ifs with h <;> simp [h]

/-- The instance of C10 at an empty diff, the message "Add SCAFFOLD" and 101
additions. -/
theorem C10_template_without_diff_witness :
    (mkPair "Add SCAFFOLD".toList 101 0 1 0 []).DiffContent = [] ∧
    (NewTemplatePatternStrategy.Detect (mkPair "Add SCAFFOLD".toList 101 0 1 0 []) ⟨[]⟩).1
      = true :=
  ⟨rfl, (C10_template_without_diff (mkPair "Add SCAFFOLD".toList 101 0 1 0 []) ⟨[]⟩ rfl).2.1.mpr
    (by decide)⟩

/-! ## Template strategy with a diff: theorems -/

set_option maxRecDepth 100000 in
/-- C9, counterexample: with the one-line diff "+x", the message "todo" and 101
additions the template strategy flags although the content analysis counts no
pattern, while the same pair with the message "x" is not flagged: the message
decides the verdict although a diff is present. With ten added template lines
and 10 additions the content analysis counts 2 patterns, yet the pair is not
flagged. -/
theorem C9_template_with_diff_counterexample :
    (mkPair "todo".toList 101 0 1 0 "+x".toList).DiffContent ≠ [] ∧
    (TemplatePatternStrategy.analyzeTemplatePatterns "+x".toList).1 = false ∧
    (NewTemplatePatternStrategy.Detect (mkPair "todo".toList 101 0 1 0 "+x".toList) ⟨[]⟩).1
      = true ∧
    (NewTemplatePatternStrategy.Detect (mkPair "x".toList 101 0 1 0 "+x".toList) ⟨[]⟩).1
      = false ∧
    (mkPair "x".toList 10 0 1 0 tenTemplateLines).DiffContent ≠ [] ∧
    (addedLines tenTemplateLines).length = 10 ∧
    TemplatePatternStrategy.suspiciousPatterns (addedLines tenTemplateLines) = 2 ∧
    (TemplatePatternStrategy.analyzeTemplatePatterns tenTemplateLines).1 = true ∧
    (NewTemplatePatternStrategy.Detect (mkPair "x".toList 10 0 1 0 tenTemplateLines) ⟨[]⟩).1
      = false := by
  refine ⟨by decide, by decide, by decide, by decide, by decide, by decide, by decide,
    by decide, by decide⟩

set_option maxRecDepth 100000 in
/-- C9, amended: for a pair whose diffContent is non-empty the template strategy
flags exactly when additions > 50 and the content analysis (at least 10 added
lines, suspiciousPatterns >= 2) detects, or the lower-cased commit message
contains one of the 8 boilerplate keywords and additions > 100: the message
test also runs when a diff is present and the content analysis did not flag.
The lower-casing is the one of strings.ToLower: with the diff "+x" and 101
additions the messages "Add S" U+212A "ELETON" (the Kelvin sign, lower-cased
to k) and "TODO" are flagged; ten added lines "// TODO: PLACEHOLDER" are
flagged with 51 additions and the message "x", and not with 50. -/
theorem C9_template_with_diff (pair : CommitPair) (repoStats : RepositoryStats)
    (hdiff : pair.DiffContent ≠ []) :
    ((NewTemplatePatternStrategy.Detect pair repoStats).1 = true ↔
      (pair.Stats.Additions > 50 ∧ (addedLines pair.DiffContent).length ≥ 10 ∧
        TemplatePatternStrategy.suspiciousPatterns (addedLines pair.DiffContent) ≥ 2) ∨
      ((∃ keyword ∈ TemplatePatternStrategy.templatePatterns,
          keyword <:+: strings.ToLower pair.Current.Message) ∧
        pair.Stats.Additions > 100)) ∧
    TemplatePatternStrategy.templatePatterns =
      [ "boilerplate".toList, "template".toList, "skeleton".toList, "scaffold".toList,
        "stub".toList, "placeholder".toList, "todo".toList, "fixme".toList ] ∧
    strings.ToLower "Add S\xe2\x84\xaaELETON".toList = "add skeleton".toList ∧
    (∀ msg ∈ [ "Add S\xe2\x84\xaaELETON".toList, "TODO".toList ],
      (NewTemplatePatternStrategy.Detect (mkPair msg 101 0 1 0 "+x".toList) ⟨[]⟩).1 = true) ∧
    (NewTemplatePatternStrategy.Detect (mkPair "Add S\xe2\x84\xaaELETON".toList 100 0 1 0
      "+x".toList) ⟨[]⟩).1 = false ∧
    TemplatePatternStrategy.suspiciousPatterns (addedLines tenCapitalTemplateLines) = 2 ∧
    (NewTemplatePatternStrategy.Detect (mkPair "x".toList 51 0 1 0 tenCapitalTemplateLines)
      ⟨[]⟩).1 = true ∧
    (NewTemplatePatternStrategy.Detect (mkPair "x".toList 50 0 1 0 tenCapitalTemplateLines)
      ⟨[]⟩).1 = false := by
  refine ⟨?_, rfl, by decide, by decide, by decide, by decide, by decide, by decide⟩
  rw [← countMatches_pos_iff]
  simp only [TemplatePatternStrategy.Detect, NewTemplatePatternStrategy, Bool.not_true,
    Bool.false_eq_true, if_false, ne_eq, hdiff, not_false_eq_true, true_and,
    TemplatePatternStrategy.messageFallback, TemplatePatternStrategy.analyzeTemplatePatterns]
  by_cases h50 : pair.Stats.Additions > 50
  · by_cases h10 : (addedLines pair.DiffContent).length < 10
    · have : ¬ (addedLines pair.DiffContent).length ≥ 10 := by omega
      simp only [h50, h10, if_true, Bool.false_eq_true, if_false, this, false_and, and_false,
        false_or]
      split_ifs with h <;> simp [h]
    · have h10b : (addedLines pair.DiffContent).length ≥ 10 := by omega
      by_cases h2 : TemplatePatternStrategy.suspiciousPatterns (addedLines pair.DiffContent) ≥ 2
      · simp [h50, h10, h2, h10b]
      · simp only [h50, h10, h2, if_true, if_false, Bool.false_eq_true, and_false, false_or]
        split_ifs with h <;> simp [h]
  · simp only [h50, if_false, Bool.false_eq_true, false_and, false_or]
    split_ifs with h <;> simp [h]

/-- The instance of the amended C9 at the diff "+x", the message "Add S" U+212A
"ELETON" and 101 additions. -/
theorem C9_template_with_diff_witness :
    (mkPair "Add S\xe2\x84\xaaELETON".toList 101 0 1 0 "+x".toList).DiffContent ≠ [] ∧
    (NewTemplatePatternStrategy.Detect
      (mkPair "Add S\xe2\x84\xaaELETON".toList 101 0 1 0 "+x".toList) ⟨[]⟩).1 = true :=
  have h : (mkPair "Add S\xe2\x84\xaaELETON".toList 101 0 1 0 "+x".toList).DiffContent ≠ [] := by
    decide
  ⟨h, (C9_template_with_diff (mkPair "Add S\xe2\x84\xaaELETON".toList 101 0 1 0 "+x".toList)
    ⟨[]⟩ h).1.mpr (Or.inr (by decide))⟩

/-! ## Properties of the float64 rounding -/

namespace F64

theorem roundEven_intCast (n : ℤ) : roundEven (n : ℚ) = n := by
  simp [roundEven]

theorem roundEven_cases (x : ℚ) : roundEven x = ⌊x⌋ ∨ roundEven x = ⌊x⌋ + 1 := by
  unfold roundEven
  split_ifs <;> simp

theorem roundEven_mono {x y : ℚ} (h : x ≤ y) : roundEven x ≤ roundEven y := by
  have hf : ⌊x⌋ ≤ ⌊y⌋ := Int.floor_mono h
  rcases hf.lt_or_eq with hlt | heq
  · rcases roundEven_cases x with hx | hx <;> rcases roundEven_cases y with hy | hy <;> omega
  · unfold roundEven
    rw [← heq]
    have h2 : x - (⌊x⌋ : ℚ) ≤ y - (⌊x⌋ : ℚ) := by linarith
    split_ifs <;> first | omega | (exfalso; linarith)

theorem roundEven_neg (x : ℚ) : roundEven (-x) = -roundEven x := by
  by_cases hx : (⌊x⌋ : ℚ) = x
  · rw [← hx, ← Int.cast_neg, roundEven_intCast, roundEven_intCast]
  · have h1 : (⌊x⌋ : ℚ) < x := lt_of_le_of_ne (Int.floor_le x) hx
    have h2 := Int.lt_floor_add_one x
    have hfl : ⌊-x⌋ = -⌊x⌋ - 1 := by
      rw [Int.floor_eq_iff]; push_cast; constructor <;> linarith
    unfold roundEven
    rw [hfl]
    push_cast
    split_ifs <;> first | omega | (exfalso; linarith)

theorem ulp_pos (q : ℚ) : 0 < ulp q := by
  unfold ulp; positivity

theorem ulp_neg (q : ℚ) : ulp (-q) = ulp q := by
  unfold ulp; rw [abs_neg]

theorem rnd_neg (q : ℚ) : rnd (-q) = -rnd q := by
  unfold rnd
  by_cases h : q = 0
  · simp [h]
  · have h2 : -q ≠ 0 := neg_ne_zero.mpr h
    rw [if_neg h, if_neg h2, ulp_neg, neg_div, roundEven_neg]
    push_cast; ring

theorem rnd_zero : rnd 0 = 0 := by simp [rnd]

/-- The binade of a positive rational. -/
theorem ulp_le {q : ℚ} (hq : 0 < q) : (2 : ℚ) ^ (52 : ℕ) * ulp q ≤ q := by
  have h := Int.zpow_log_le_self (b := 2) (by norm_num) hq
  unfold ulp
  rw [abs_of_pos hq, zpow_sub₀ (by norm_num : (2 : ℚ) ≠ 0)]
  have : (2 : ℚ) ^ (52 : ℤ) = 2 ^ (52 : ℕ) := by norm_cast
  rw [this, mul_div_cancel₀ _ (by positivity)]
  exact_mod_cast h

theorem lt_ulp {q : ℚ} (hq : 0 < q) : q < (2 : ℚ) ^ (53 : ℕ) * ulp q := by
  have h := Int.lt_zpow_succ_log_self (b := 2) (by norm_num) q
  unfold ulp
  rw [abs_of_pos hq]
  have : (2 : ℚ) ^ (53 : ℕ) * 2 ^ (Int.log 2 q - 52) = 2 ^ (Int.log 2 q + 1) := by
    rw [← zpow_natCast, ← zpow_add₀ (by norm_num : (2 : ℚ) ≠ 0)]
    congr 1; push_cast; ring
  rw [this]
  exact_mod_cast h

/-- Rounding a positive rational stays inside the closure of its binade. -/
theorem rnd_bounds {q : ℚ} (hq : 0 < q) :
    (2 : ℚ) ^ (52 : ℕ) * ulp q ≤ rnd q ∧ rnd q ≤ (2 : ℚ) ^ (53 : ℕ) * ulp q := by
  have hu := ulp_pos q
  unfold rnd
  rw [if_neg hq.ne']
  have h1 : ((2 ^ 52 : ℤ) : ℚ) ≤ q / ulp q := by
    rw [le_div_iff₀ hu]; push_cast; exact ulp_le hq
  have h2 : q / ulp q ≤ ((2 ^ 53 : ℤ) : ℚ) := by
    rw [div_le_iff₀ hu]; push_cast; exact (lt_ulp hq).le
  have h3 := roundEven_mono h1
  have h4 := roundEven_mono h2
  rw [roundEven_intCast] at h3 h4
  constructor
  · have : ((2 ^ 52 : ℤ) : ℚ) ≤ (roundEven (q / ulp q) : ℚ) := by exact_mod_cast h3
    push_cast at this
    exact mul_le_mul_of_nonneg_right this hu.le
  · have : (roundEven (q / ulp q) : ℚ) ≤ ((2 ^ 53 : ℤ) : ℚ) := by exact_mod_cast h4
    push_cast at this
    exact mul_le_mul_of_nonneg_right this hu.le

theorem rnd_pos {q : ℚ} (hq : 0 < q) : 0 < rnd q :=
  lt_of_lt_of_le (by have := ulp_pos q; positivity) (rnd_bounds hq).1

theorem rnd_mono_pos {x y : ℚ} (hx : 0 < x) (h : x ≤ y) : rnd x ≤ rnd y := by
  have hy : 0 < y := lt_of_lt_of_le hx h
  have hlog : Int.log 2 x ≤ Int.log 2 y := Int.log_mono_right hx h
  rcases hlog.lt_or_eq with hlt | heq
  · have h1 := (rnd_bounds hx).2
    have h2 := (rnd_bounds hy).1
    have : (2 : ℚ) ^ (53 : ℕ) * ulp x ≤ 2 ^ (52 : ℕ) * ulp y := by
      unfold ulp
      rw [abs_of_pos hx, abs_of_pos hy, ← zpow_natCast, ← zpow_natCast,
        ← zpow_add₀ (by norm_num : (2 : ℚ) ≠ 0), ← zpow_add₀ (by norm_num : (2 : ℚ) ≠ 0)]
      apply zpow_le_zpow_right₀ (by norm_num)
      push_cast; omega
    linarith
  · have hu : ulp x = ulp y := by unfold ulp; rw [abs_of_pos hx, abs_of_pos hy, heq]
    unfold rnd
    rw [if_neg hx.ne', if_neg hy.ne', hu]
    have hup := ulp_pos y
    have : x / ulp y ≤ y / ulp y := div_le_div_of_nonneg_right h hup.le
    have := roundEven_mono this
    exact mul_le_mul_of_nonneg_right (by exact_mod_cast this) hup.le

theorem rnd_mono {x y : ℚ} (h : x ≤ y) : rnd x ≤ rnd y := by
  rcases lt_trichotomy 0 x with hx | hx | hx
  · exact rnd_mono_pos hx h
  · subst hx
    rcases h.lt_or_eq with hy | hy
    · rw [rnd_zero]; exact (rnd_pos hy).le
    · rw [← hy]
  · rcases lt_trichotomy 0 y with hy | hy | hy
    · have h1 : 0 < rnd (-x) := rnd_pos (by linarith)
      rw [rnd_neg] at h1
      have := rnd_pos hy
      linarith
    · subst hy
      have h1 : 0 < rnd (-x) := rnd_pos (by linarith)
      rw [rnd_neg] at h1
      rw [rnd_zero]; linarith
    · have h1 : rnd (-y) ≤ rnd (-x) := rnd_mono_pos (by linarith) (by linarith)
      rw [rnd_neg, rnd_neg] at h1
      linarith


theorem roundEven_le (x : ℚ) : (roundEven x : ℚ) ≤ x + 1 / 2 := by
  unfold roundEven
  have := Int.floor_le x
  split_ifs <;> push_cast <;> linarith

theorem le_roundEven (x : ℚ) : x - 1 / 2 ≤ (roundEven x : ℚ) := by
  unfold roundEven
  have := Int.lt_floor_add_one x
  split_ifs <;> push_cast <;> linarith

theorem roundEven_eq_of_abs_lt {x : ℚ} {m : ℤ} (h : |x - m| < 1 / 2) : roundEven x = m := by
  rw [abs_lt] at h
  have h1 := roundEven_le x
  have h2 := le_roundEven x
  have h3 : ((roundEven x : ℤ) : ℚ) < ((m + 1 : ℤ) : ℚ) := by push_cast; linarith
  have h4 : ((m - 1 : ℤ) : ℚ) < ((roundEven x : ℤ) : ℚ) := by push_cast; linarith
  have h5 := Int.cast_lt.mp h3
  have h6 := Int.cast_lt.mp h4
  omega

theorem log_eq_of_bounds {q : ℚ} {e : ℤ} (h1 : (2 : ℚ) ^ e ≤ q) (h2 : q < (2 : ℚ) ^ (e + 1)) :
    Int.log 2 q = e := by
  have hq : 0 < q := lt_of_lt_of_le (by positivity) h1
  have a1 : e ≤ Int.log 2 q := (Int.zpow_le_iff_le_log (by norm_num) hq).mp (by exact_mod_cast h1)
  have a2 : Int.log 2 q < e + 1 := (Int.lt_zpow_iff_log_lt (by norm_num) hq).mp (by exact_mod_cast h2)
  omega

/-- Evaluation of `rnd` at a positive rational from its binade and the
nearest significand. -/
theorem rnd_eq_of {q : ℚ} (e m : ℤ) (h1 : (2 : ℚ) ^ e ≤ q) (h2 : q < (2 : ℚ) ^ (e + 1))
    (h3 : |q / 2 ^ (e - 52) - m| < 1 / 2) : rnd q = m * 2 ^ (e - 52) := by
  have hq : 0 < q := lt_of_lt_of_le (by positivity) h1
  unfold rnd ulp
  rw [if_neg hq.ne', abs_of_pos hq, log_eq_of_bounds h1 h2, roundEven_eq_of_abs_lt h3]

/-- Rounding is exact on a dyadic rational with a significand of at most 53 bits. -/
theorem rnd_dyadic (m j : ℤ) (hm : |m| < 2 ^ 53) : rnd (m * 2 ^ j) = m * 2 ^ j := by
  by_cases h0 : m = 0
  · simp [h0, rnd_zero]
  have hq0 : (m : ℚ) * 2 ^ j ≠ 0 := by
    apply mul_ne_zero (by exact_mod_cast h0); positivity
  have habs : |(m : ℚ) * 2 ^ j| = (|m| : ℤ) * 2 ^ j := by
    rw [abs_mul, abs_of_pos (by positivity : (0 : ℚ) < 2 ^ j)]; push_cast; rfl
  have hlt : |(m : ℚ) * 2 ^ j| < (2 : ℚ) ^ (53 + j) := by
    rw [habs, zpow_add₀ (by norm_num : (2 : ℚ) ≠ 0)]
    apply mul_lt_mul_of_pos_right _ (by positivity)
    have : ((|m| : ℤ) : ℚ) < ((2 ^ 53 : ℤ) : ℚ) := Int.cast_lt.mpr hm
    push_cast at this ⊢
    exact_mod_cast this
  have hlog : Int.log 2 |(m : ℚ) * 2 ^ j| < 53 + j :=
    (Int.lt_zpow_iff_log_lt (by norm_num) (abs_pos.mpr hq0)).mp (by exact_mod_cast hlt)
  obtain ⟨k, hk⟩ : ∃ k : ℕ, j - (Int.log 2 |(m : ℚ) * 2 ^ j| - 52) = k :=
    ⟨(j - (Int.log 2 |(m : ℚ) * 2 ^ j| - 52)).toNat, by omega⟩
  unfold rnd
  rw [if_neg hq0]
  have hdiv : (m : ℚ) * 2 ^ j / ulp (m * 2 ^ j) = ((m * 2 ^ k : ℤ) : ℚ) := by
    unfold ulp
    rw [mul_div_assoc, ← zpow_sub₀ (by norm_num : (2 : ℚ) ≠ 0), hk, zpow_natCast]
    push_cast; rfl
  rw [hdiv, roundEven_intCast]
  unfold ulp
  push_cast
  rw [mul_assoc, ← zpow_natCast, ← zpow_add₀ (by norm_num : (2 : ℚ) ≠ 0), ← hk]
  congr 2; ring

theorem rnd_intCast (n : ℤ) (hn : |n| < 2 ^ 53) : rnd (n : ℚ) = n := by
  have := rnd_dyadic n 0 hn
  simpa using this

end F64

/-! ## Burst strategy: theorems -/

theorem rnd_nonneg {q : ℚ} (hq : 0 ≤ q) : 0 ≤ F64.rnd q := by
  have := F64.rnd_mono hq
  rwa [F64.rnd_zero] at this

theorem rnd_nonpos {q : ℚ} (hq : q ≤ 0) : F64.rnd q ≤ 0 := by
  have := F64.rnd_mono hq
  rwa [F64.rnd_zero] at this

theorem ofInt_small (n : ℤ) (hn : |n| < 2 ^ 53) : F64.ofInt n = n :=
  F64.rnd_intCast n hn

theorem lit_300 : F64.lit 300 = 300 := by
  have := F64.rnd_intCast 300 (by norm_num)
  simpa [F64.lit] using this

theorem lit_billion : F64.lit 1000000000 = 1000000000 := by
  have := F64.rnd_intCast 1000000000 (by norm_num)
  simpa [F64.lit] using this

/-- The float64 nearest to 0.999999999. -/
theorem rnd_subsecond :
    F64.rnd (999999999 / 1000000000) = 9007199245733793 * 2 ^ (-53 : ℤ) := by
  have := F64.rnd_eq_of (q := 999999999 / 1000000000) (-1) 9007199245733793
    (by norm_num) (by norm_num) (by norm_num [abs_lt])
  norm_num at this ⊢
  exact this

/-- The float64 sum of 299 and the float64 nearest to 0.999999999. -/
theorem rnd_below_300 :
    F64.rnd (299 + 9007199245733793 * 2 ^ (-53 : ℤ)) = 5277655813307208 * 2 ^ (-44 : ℤ) := by
  have := F64.rnd_eq_of (q := 299 + 9007199245733793 * 2 ^ (-53 : ℤ)) 8 5277655813307208
    (by norm_num) (by norm_num) (by norm_num [abs_lt])
  norm_num at this ⊢
  exact this

/-- `Duration.Seconds` is below 300 exactly for durations below 300 s. -/
theorem seconds_lt_300_iff (d : Int) : Seconds d < F64.lit 300 ↔ d < 300 * 1000000000 := by
  rw [lit_300]
  unfold Seconds
  rw [lit_billion]
  constructor
  · intro h
    by_contra hd
    have hd : 300 * 1000000000 ≤ d := not_lt.mp hd
    have hd0 : (0 : Int) ≤ d := by omega
    have h1 : d.tdiv 1000000000 = d / 1000000000 := Int.tdiv_eq_ediv hd0 (by norm_num)
    have h2 : d.tmod 1000000000 = d % 1000000000 := Int.tmod_eq_emod hd0 (by norm_num)
    have hs : (300 : ℤ) ≤ d / 1000000000 := by omega
    have hn : (0 : ℤ) ≤ d % 1000000000 := by omega
    have e1 : (300 : ℚ) ≤ F64.ofInt (d.tdiv 1000000000) := by
      have := F64.rnd_mono (show ((300 : ℤ) : ℚ) ≤ ((d / 1000000000 : ℤ) : ℚ) from
        Int.cast_le.mpr hs)
      rw [F64.rnd_intCast 300 (by norm_num)] at this
      rw [h1]; simpa [F64.ofInt] using this
    have e2 : (0 : ℚ) ≤ F64.div (F64.ofInt (d.tmod 1000000000)) 1000000000 := by
      apply rnd_nonneg
      apply div_nonneg _ (by norm_num)
      apply rnd_nonneg
      rw [h2]; exact_mod_cast hn
    have e3 := F64.rnd_mono (show ((300 : ℤ) : ℚ) ≤
        F64.ofInt (d.tdiv 1000000000) + F64.div (F64.ofInt (d.tmod 1000000000)) 1000000000 by
      push_cast; linarith)
    rw [F64.rnd_intCast 300 (by norm_num)] at e3
    unfold F64.add at h
    push_cast at e3
    linarith
  · intro hd
    rcases lt_or_le d 0 with hneg | hpos
    · -- a negative duration gives non-positive seconds
      have h1 : d.tdiv 1000000000 ≤ 0 := by
        have := Int.tdiv_eq_ediv (a := -d) (b := 1000000000) (by omega) (by norm_num)
        rw [Int.neg_tdiv] at this
        omega
      have h2 : d.tmod 1000000000 ≤ 0 := by
        have e := Int.tmod_add_tdiv d 1000000000
        have := Int.tdiv_eq_ediv (a := -d) (b := 1000000000) (by omega) (by norm_num)
        rw [Int.neg_tdiv] at this
        omega
      have e1 : F64.ofInt (d.tdiv 1000000000) ≤ 0 :=
        rnd_nonpos (by exact_mod_cast h1)
      have e2 : F64.div (F64.ofInt (d.tmod 1000000000)) 1000000000 ≤ 0 := by
        apply rnd_nonpos
        apply div_nonpos_of_nonpos_of_nonneg _ (by norm_num)
        exact rnd_nonpos (by exact_mod_cast h2)
      have e3 : F64.add (F64.ofInt (d.tdiv 1000000000))
          (F64.div (F64.ofInt (d.tmod 1000000000)) 1000000000) ≤ 0 :=
        rnd_nonpos (by linarith)
      linarith
    · have h1 : d.tdiv 1000000000 = d / 1000000000 := Int.tdiv_eq_ediv hpos (by norm_num)
      have h2 : d.tmod 1000000000 = d % 1000000000 := Int.tmod_eq_emod hpos (by norm_num)
      have hs : d / 1000000000 ≤ (299 : ℤ) := by omega
      have hn : d % 1000000000 ≤ (999999999 : ℤ) := by omega
      have hn0 : (0 : ℤ) ≤ d % 1000000000 := by omega
      have e1 : F64.ofInt (d.tdiv 1000000000) ≤ (299 : ℚ) := by
        have := F64.rnd_mono (show ((d / 1000000000 : ℤ) : ℚ) ≤ ((299 : ℤ) : ℚ) from
          Int.cast_le.mpr hs)
        rw [F64.rnd_intCast 299 (by norm_num)] at this
        rw [h1]; simpa [F64.ofInt] using this
      have e0 : F64.ofInt (d.tmod 1000000000) = ((d % 1000000000 : ℤ) : ℚ) := by
        rw [h2]; exact ofInt_small _ (by rw [abs_of_nonneg hn0]; omega)
      have e2 : F64.div (F64.ofInt (d.tmod 1000000000)) 1000000000
          ≤ 9007199245733793 * 2 ^ (-53 : ℤ) := by
        rw [← rnd_subsecond, e0]
        apply F64.rnd_mono
        apply div_le_div_of_nonneg_right _ (by norm_num)
        exact_mod_cast hn
      have e3 := F64.rnd_mono (show
          F64.ofInt (d.tdiv 1000000000) + F64.div (F64.ofInt (d.tmod 1000000000)) 1000000000
            ≤ 299 + 9007199245733793 * 2 ^ (-53 : ℤ) by linarith)
      rw [rnd_below_300] at e3
      unfold F64.add
      have : (5277655813307208 : ℚ) * 2 ^ (-44 : ℤ) < 300 := by norm_num
      linarith

/-- C3: for every burst strategy built by NewBurstPatternStrategy(maxPerHour)
and every commit pair, Detect flags exactly when maxPerHour > 0 (the parameter
only enables the strategy), timeDelta < 300 seconds and additions > 50; with
maxPerHour > 0, timeDelta = 100 s and additions = 60 are flagged and
timeDelta = 400 s and additions = 60 are not. -/
theorem C3_burst_flags (maxPerHour : Int) (pair : CommitPair) (repoStats : RepositoryStats) :
    (((NewBurstPatternStrategy maxPerHour).Detect pair repoStats).1 = true ↔
      maxPerHour > 0 ∧ pair.TimeDelta < 300 * 1000000000 ∧ pair.Stats.Additions > 50) ∧
    (maxPerHour > 0 →
      ((NewBurstPatternStrategy maxPerHour).Detect
          { pair with TimeDelta := 100 * 1000000000,
                      Stats := { pair.Stats with Additions := 60 } } repoStats).1 = true ∧
      ((NewBurstPatternStrategy maxPerHour).Detect
          { pair with TimeDelta := 400 * 1000000000,
                      Stats := { pair.Stats with Additions := 60 } } repoStats).1 = false) := by
  have key : ∀ p : CommitPair, (((NewBurstPatternStrategy maxPerHour).Detect p repoStats).1 = true ↔
      maxPerHour > 0 ∧ p.TimeDelta < 300 * 1000000000 ∧ p.Stats.Additions > 50) := by
    intro p
    simp only [BurstPatternStrategy.Detect, NewBurstPatternStrategy, Bool.not_true,
      Bool.false_eq_true, false_or, seconds_lt_300_iff]
    by_cases h0 : maxPerHour ≤ 0
    · have : ¬ maxPerHour > 0 := by omega
      simp [h0, this]
    · have : maxPerHour > 0 := by omega
      simp only [h0, if_false, this, true_and]
      by_cases h : p.TimeDelta < 300 * 1000000000 ∧ p.Stats.Additions > 50
      · rw [if_pos h]; exact iff_of_true rfl h
      · rw [if_neg h]; exact iff_of_false (by simp) h
  refine ⟨key pair, fun hpos => ⟨(key _).mpr ⟨hpos, by norm_num, by norm_num⟩, ?_⟩⟩
  rw [Bool.eq_false_iff, ne_eq, key]
  norm_num

/-- The instance of C3 at maxPerHour = 10. -/
theorem C3_burst_flags_witness :
    (10 : Int) > 0 ∧
    ((NewBurstPatternStrategy 10).Detect (mkPair [] 60 0 1 (100 * 1000000000) []) ⟨[]⟩).1
      = true ∧
    ((NewBurstPatternStrategy 10).Detect (mkPair [] 60 0 1 (400 * 1000000000) []) ⟨[]⟩).1
      = false :=
  ⟨by decide,
    (C3_burst_flags 10 (mkPair [] 60 0 1 (100 * 1000000000) []) ⟨[]⟩).2 (by decide)⟩

/-! ## Representable values -/

theorem rnd_of_isF64 {x : ℚ} (h : IsF64 x) : F64.rnd x = x := by
  obtain ⟨m, j, hm, rfl⟩ := h
  exact F64.rnd_dyadic m j hm

theorem isF64_neg {x : ℚ} (h : IsF64 x) : IsF64 (-x) := by
  obtain ⟨m, j, hm, rfl⟩ := h
  exact ⟨-m, j, by rwa [abs_neg], by push_cast; ring⟩

theorem significand_bounds {q : ℚ} (hq : 0 < q) :
    (2 : ℤ) ^ 52 ≤ F64.roundEven (q / F64.ulp q) ∧ F64.roundEven (q / F64.ulp q) ≤ 2 ^ 53 := by
  have hu := F64.ulp_pos q
  have h1 : ((2 ^ 52 : ℤ) : ℚ) ≤ q / F64.ulp q := by
    rw [le_div_iff₀ hu]; push_cast; exact F64.ulp_le hq
  have h2 : q / F64.ulp q ≤ ((2 ^ 53 : ℤ) : ℚ) := by
    rw [div_le_iff₀ hu]; push_cast; exact (F64.lt_ulp hq).le
  have h3 := F64.roundEven_mono h1
  have h4 := F64.roundEven_mono h2
  rw [F64.roundEven_intCast] at h3 h4
  exact ⟨h3, h4⟩

theorem rnd_isF64_pos {q : ℚ} (hq : 0 < q) : IsF64 (F64.rnd q) := by
  obtain ⟨h1, h2⟩ := significand_bounds hq
  unfold F64.rnd
  rw [if_neg hq.ne']
  rcases h2.lt_or_eq with hlt | heq
  · exact ⟨F64.roundEven (q / F64.ulp q), Int.log 2 |q| - 52,
      by rw [abs_of_nonneg (by omega)]; exact hlt, rfl⟩
  · refine ⟨2 ^ 52, Int.log 2 |q| - 52 + 1, by norm_num, ?_⟩
    rw [heq, zpow_add₀ (by norm_num : (2 : ℚ) ≠ 0)]
    unfold F64.ulp
    push_cast
    ring

/-- Every rounded value is representable. -/
theorem rnd_isF64 (q : ℚ) : IsF64 (F64.rnd q) := by
  rcases lt_trichotomy 0 q with hq | hq | hq
  · exact rnd_isF64_pos hq
  · subst hq; rw [F64.rnd_zero]; exact ⟨0, 0, by norm_num, by simp⟩
  · have := isF64_neg (rnd_isF64_pos (show 0 < -q by linarith))
    rwa [F64.rnd_neg, neg_neg] at this

theorem lt_of_lt_rnd {r q : ℚ} (hr : IsF64 r) (h : r < F64.rnd q) : r < q := by
  by_contra hc
  have := F64.rnd_mono (not_lt.mp hc)
  rw [rnd_of_isF64 hr] at this
  linarith

theorem lt_of_rnd_lt {r q : ℚ} (hr : IsF64 r) (h : F64.rnd q < r) : q < r := by
  by_contra hc
  have := F64.rnd_mono (not_lt.mp hc)
  rw [rnd_of_isF64 hr] at this
  linarith

/-- The fractional part `x - float64(int(x))` of a non-negative float64 is
computed without rounding error. -/
theorem fract_by_floor {x : ℚ} (hx : 0 ≤ x) (hf : IsF64 x) :
    F64.rnd (x - F64.rnd ((⌊x⌋ : ℤ) : ℚ)) = Int.fract x := by
  obtain ⟨m, j, hm, rfl⟩ := hf
  have h2 : (0 : ℚ) < 2 ^ j := by positivity
  have hm0 : 0 ≤ m := by
    by_contra hneg
    have : (m : ℚ) < 0 := by exact_mod_cast not_le.mp hneg
    have := mul_neg_of_neg_of_pos this h2
    linarith
  rw [abs_of_nonneg hm0] at hm
  rcases le_or_lt 0 j with hj | hj
  · obtain ⟨k, rfl⟩ := Int.eq_ofNat_of_zero_le hj
    have hint : (m : ℚ) * 2 ^ (k : ℤ) = ((m * 2 ^ k : ℤ) : ℚ) := by
      rw [zpow_natCast]; push_cast; rfl
    have hfl : ⌊(m : ℚ) * 2 ^ (k : ℤ)⌋ = m * 2 ^ k := by
      rw [hint, Int.floor_intCast]
    rw [hfl, ← hint, F64.rnd_dyadic m k (by rw [abs_of_nonneg hm0]; exact hm), sub_self,
      F64.rnd_zero, hint, Int.fract_intCast]
  · obtain ⟨k, hk⟩ : ∃ k : ℕ, j = -(k : ℤ) := ⟨(-j).toNat, by omega⟩
    subst hk
    have hx' : (m : ℚ) * 2 ^ (-(k : ℤ)) = (m : ℚ) / ((2 ^ k : ℕ) : ℚ) := by
      rw [zpow_neg, zpow_natCast, div_eq_mul_inv]; push_cast; rfl
    have hfl : ⌊(m : ℚ) * 2 ^ (-(k : ℤ))⌋ = m / ((2 ^ k : ℕ) : ℤ) := by
      rw [hx', Rat.floor_intCast_div_natCast]
    have hpow : (0 : ℤ) < ((2 ^ k : ℕ) : ℤ) := by positivity
    have hN0 : 0 ≤ m / ((2 ^ k : ℕ) : ℤ) := Int.ediv_nonneg hm0 hpow.le
    have hNle : m / ((2 ^ k : ℕ) : ℤ) ≤ m := Int.ediv_le_self _ hm0
    have hR0 : 0 ≤ m % ((2 ^ k : ℕ) : ℤ) := Int.emod_nonneg _ hpow.ne'
    have hRle : m % ((2 ^ k : ℕ) : ℤ) ≤ m := by
      have := Int.emod_add_ediv m ((2 ^ k : ℕ) : ℤ)
      have := mul_nonneg hpow.le hN0
      omega
    have hsplit : (m : ℚ) * 2 ^ (-(k : ℤ)) - ((m / ((2 ^ k : ℕ) : ℤ) : ℤ) : ℚ)
        = ((m % ((2 ^ k : ℕ) : ℤ) : ℤ) : ℚ) * 2 ^ (-(k : ℤ)) := by
      have e := Int.emod_add_ediv m ((2 ^ k : ℕ) : ℤ)
      have e' : (m : ℚ) = ((m % ((2 ^ k : ℕ) : ℤ) : ℤ) : ℚ)
          + ((2 ^ k : ℕ) : ℚ) * ((m / ((2 ^ k : ℕ) : ℤ) : ℤ) : ℚ) := by
        exact_mod_cast e.symm
      have hk2 : ((2 ^ k : ℕ) : ℚ) * 2 ^ (-(k : ℤ)) = 1 := by
        rw [zpow_neg, zpow_natCast]; push_cast
        exact mul_inv_cancel₀ (by positivity)
      calc (m : ℚ) * 2 ^ (-(k : ℤ)) - ((m / ((2 ^ k : ℕ) : ℤ) : ℤ) : ℚ)
          = (((m % ((2 ^ k : ℕ) : ℤ) : ℤ) : ℚ)
              + ((2 ^ k : ℕ) : ℚ) * ((m / ((2 ^ k : ℕ) : ℤ) : ℤ) : ℚ)) * 2 ^ (-(k : ℤ))
              - ((m / ((2 ^ k : ℕ) : ℤ) : ℤ) : ℚ) := by rw [← e']
        _ = ((m % ((2 ^ k : ℕ) : ℤ) : ℤ) : ℚ) * 2 ^ (-(k : ℤ))
              + (((2 ^ k : ℕ) : ℚ) * 2 ^ (-(k : ℤ))) * ((m / ((2 ^ k : ℕ) : ℤ) : ℤ) : ℚ)
              - ((m / ((2 ^ k : ℕ) : ℤ) : ℤ) : ℚ) := by ring
        _ = ((m % ((2 ^ k : ℕ) : ℤ) : ℤ) : ℚ) * 2 ^ (-(k : ℤ)) := by rw [hk2]; ring
    rw [Int.fract, hfl, F64.rnd_intCast _ (by rw [abs_of_nonneg hN0]; omega), hsplit]
    exact F64.rnd_dyadic _ _ (by rw [abs_of_nonneg hR0]; omega)

/-- The conversion `int(x)` of a float64 in the range of int64 is the floor
for a non-negative `x`. -/
theorem toInt_of_nonneg {x : ℚ} (hx : 0 ≤ x) (hlt : x < 2 ^ 63) : F64.toInt x = ⌊x⌋ := by
  have h0 : (0 : ℤ) ≤ ⌊x⌋ := Int.floor_nonneg.mpr hx
  have h1 : ⌊x⌋ < (2 : ℤ) ^ 63 := by
    rw [Int.floor_lt]
    exact_mod_cast hlt
  unfold F64.toInt
  simp only [if_pos hx]
  rw [if_pos ⟨by omega, h1⟩]

theorem frac_exact {x : ℚ} (hx : 0 ≤ x) (hf : IsF64 x) (hlt : x < 2 ^ 63) :
    F64.sub x (F64.ofInt (F64.toInt x)) = Int.fract x := by
  unfold F64.sub F64.ofInt
  rw [toInt_of_nonneg hx hlt]
  exact fract_by_floor hx hf

theorem isF64_fract {x : ℚ} (hx : 0 ≤ x) (hf : IsF64 x) : IsF64 (Int.fract x) := by
  rw [← fract_by_floor hx hf]
  exact rnd_isF64 _

/-! ## Structural-consistency strategy: theorems -/

/-- The float64 constant 0.05. -/
theorem lit_twentieth : F64.lit (1 / 20) = 7205759403792794 * 2 ^ (-57 : ℤ) := by
  have := F64.rnd_eq_of (q := 1 / 20) (-5) 7205759403792794
    (by norm_num) (by norm_num) (by norm_num [abs_lt])
  norm_num [F64.lit] at this ⊢
  exact this

/-- The float64 difference `1.0 - 0.05`. -/
theorem one_sub_twentieth :
    F64.sub 1 (F64.lit (1 / 20)) = 8556839292003942 * 2 ^ (-53 : ℤ) := by
  rw [lit_twentieth]
  have := F64.rnd_eq_of (q := 1 - 7205759403792794 * 2 ^ (-57 : ℤ)) (-1) 8556839292003942
    (by norm_num) (by norm_num) (by norm_num [abs_lt])
  norm_num [F64.sub] at this ⊢
  exact this

/-- A rational is within `t` of an integer exactly when its fractional part
is below `t` or above `1 - t`. -/
theorem near_integer_iff_fract (x t : ℚ) :
    (∃ n : ℤ, |x - n| < t) ↔ Int.fract x < t ∨ 1 - t < Int.fract x := by
  have h0 := Int.fract_nonneg x
  have h1 := Int.fract_lt_one x
  have hx : x = ⌊x⌋ + Int.fract x := (Int.floor_add_fract x).symm
  constructor
  · rintro ⟨n, hn⟩
    rw [abs_lt] at hn
    rcases le_or_lt n ⌊x⌋ with hle | hlt
    · left
      have : (n : ℚ) ≤ ⌊x⌋ := by exact_mod_cast hle
      linarith
    · right
      have : ((⌊x⌋ + 1 : ℤ) : ℚ) ≤ n := by exact_mod_cast hlt
      push_cast at this
      linarith
  · rintro (h | h)
    · refine ⟨⌊x⌋, ?_⟩
      rw [abs_lt]; constructor <;> linarith
    · refine ⟨⌊x⌋ + 1, ?_⟩
      rw [abs_lt]; push_cast; constructor <;> linarith

/-- On a non-negative float64 the helper `isNearInteger` with the tolerance
0.05 holds exactly when the value is within 0.05 of an integer. -/
theorem isNearInteger_iff {x : ℚ} (hx : 0 ≤ x) (hf : IsF64 x) :
    isNearInteger x (F64.lit (1 / 20)) = true ↔ ∃ n : ℤ, |x - n| < F64.lit (1 / 20) := by
  have htol : (0 : ℚ) < F64.lit (1 / 20) := by rw [lit_twentieth]; norm_num
  rcases lt_or_le x (2 ^ 63) with hlt | hge
  · rw [near_integer_iff_fract]
    unfold isNearInteger
    simp only [frac_exact hx hf hlt, Bool.or_eq_true, decide_eq_true_eq, gt_iff_lt]
    have hr := isF64_fract hx hf
    constructor
    · rintro (h | h)
      · exact Or.inl h
      · exact Or.inr (lt_of_rnd_lt hr h)
    · rintro (h | h)
      · exact Or.inl h
      · right
        rw [one_sub_twentieth]
        rw [lit_twentieth] at h
        have : (8556839292003942 : ℚ) * 2 ^ (-53 : ℤ)
            ≤ 1 - 7205759403792794 * 2 ^ (-57 : ℤ) := by
          norm_num
        linarith
  · have hfl : ¬ ((⌊x⌋ : ℤ) < 2 ^ 63) := by
      rw [Int.floor_lt, not_lt]
      exact_mod_cast hge
    have hto : F64.toInt x = -2 ^ 63 := by
      unfold F64.toInt
      simp only [if_pos hx]
      rw [if_neg fun h => hfl h.2]
    have hbig : (1 : ℚ) < F64.sub x (F64.ofInt (F64.toInt x)) := by
      rw [hto]
      unfold F64.sub F64.ofInt
      have e : F64.rnd (((-2 ^ 63 : ℤ)) : ℚ) = -2 ^ 63 := by
        have := F64.rnd_dyadic (-1) 63 (by norm_num)
        norm_num at this ⊢
        exact this
      rw [e]
      have h2 : ((2 : ℤ) : ℚ) ≤ x - -2 ^ 63 := by
        norm_num
        linarith
      have := F64.rnd_mono h2
      rw [F64.rnd_intCast 2 (by norm_num)] at this
      push_cast at this
      linarith
    have hsub : F64.sub 1 (F64.lit (1 / 20)) < 1 := by
      rw [one_sub_twentieth]; norm_num
    constructor
    · intro _
      obtain ⟨m, j, hm, rfl⟩ := hf
      have hj : 0 ≤ j := by
        by_contra hneg
        have hj1 : j ≤ -1 := by omega
        have h2j : (2 : ℚ) ^ j ≤ 2 ^ (-1 : ℤ) :=
          zpow_le_zpow_right₀ (by norm_num) hj1
        have hmq : (m : ℚ) < 2 ^ 53 := by
          have := (abs_lt.mp hm).2
          exact_mod_cast this
        have hpos : (0 : ℚ) < 2 ^ j := by positivity
        have hm0 : (0 : ℚ) ≤ m := by
          by_contra hc
          have := mul_neg_of_neg_of_pos (not_le.mp hc) hpos
          linarith
        have : (m : ℚ) * 2 ^ j ≤ 2 ^ 53 * 2 ^ (-1 : ℤ) :=
          mul_le_mul hmq.le h2j hpos.le (by positivity)
        norm_num at this hge
        linarith
      obtain ⟨k, rfl⟩ := Int.eq_ofNat_of_zero_le hj
      refine ⟨m * 2 ^ k, ?_⟩
      rw [zpow_natCast]
      push_cast
      rw [sub_self, abs_zero]
      exact htol
    · intro _
      unfold isNearInteger
      simp only [Bool.or_eq_true, decide_eq_true_eq, gt_iff_lt]
      right
      linarith

theorem ratioOf_pos {pair : CommitPair} (ha : pair.Stats.Additions > 100)
    (hd : pair.Stats.Deletions > 100) : 0 < StructuralConsistencyStrategy.ratioOf pair := by
  unfold StructuralConsistencyStrategy.ratioOf F64.div F64.ofInt
  apply F64.rnd_pos
  apply div_pos <;> apply F64.rnd_pos
  · have : (0 : ℤ) < pair.Stats.Additions := by omega
    exact_mod_cast this
  · have : (0 : ℤ) < pair.Stats.Deletions := by omega
    exact_mod_cast this

/-- The verdict of the structural-consistency strategy, as the source tests it. -/
theorem structural_detected (s : StructuralConsistencyStrategy) (pair : CommitPair)
    (repoStats : RepositoryStats) :
    (s.Detect pair repoStats).1 = true ↔
      s.enabled = true ∧ pair.Stats.Additions > 100 ∧ pair.Stats.Deletions > 100 ∧
      ((F64.lit (9 / 10) ≤ StructuralConsistencyStrategy.ratioOf pair ∧
          StructuralConsistencyStrategy.ratioOf pair ≤ F64.lit (11 / 10)) ∨
        isNearInteger (StructuralConsistencyStrategy.ratioOf pair) (F64.lit (1 / 20)) = true ∨
        isNearInteger (F64.div 1 (StructuralConsistencyStrategy.ratioOf pair))
          (F64.lit (1 / 20)) = true) := by
  unfold StructuralConsistencyStrategy.Detect
  cases s.enabled
  · simp
  · simp only [Bool.not_true, Bool.false_eq_true, if_false, true_and, ge_iff_le,
      Bool.or_eq_true]
    by_cases h1 : pair.Stats.Additions > 100 ∧ pair.Stats.Deletions > 100
    · rw [if_pos h1]
      by_cases h2 : F64.lit (9 / 10) ≤ StructuralConsistencyStrategy.ratioOf pair ∧
          StructuralConsistencyStrategy.ratioOf pair ≤ F64.lit (11 / 10)
      · rw [if_pos h2]; exact iff_of_true rfl ⟨h1.1, h1.2, Or.inl h2⟩
      · rw [if_neg h2]
        by_cases h3 : isNearInteger (StructuralConsistencyStrategy.ratioOf pair)
              (F64.lit (1 / 20)) = true ∨
            isNearInteger (F64.div 1 (StructuralConsistencyStrategy.ratioOf pair))
              (F64.lit (1 / 20)) = true
        · rw [if_pos h3]; exact iff_of_true rfl ⟨h1.1, h1.2, Or.inr h3⟩
        · rw [if_neg h3]
          refine iff_of_false (by simp) ?_
          rintro ⟨_, _, h | h⟩
          · exact h2 h
          · exact h3 h
    · rw [if_neg h1]
      refine iff_of_false (by simp) ?_
      rintro ⟨ha, hd, _⟩
      exact h1 ⟨ha, hd⟩

theorem ratioOf_equal_counts (pair : CommitPair) :
    StructuralConsistencyStrategy.ratioOf
      { pair with Stats := { pair.Stats with Additions := 150, Deletions := 150 } } = 1 := by
  unfold StructuralConsistencyStrategy.ratioOf F64.div
  show F64.rnd (F64.ofInt 150 / F64.ofInt 150) = 1
  rw [ofInt_small 150 (by norm_num)]
  norm_num
  have := F64.rnd_intCast 1 (by norm_num)
  simpa using this

theorem fmtFixed_two_one : fmtFixed 2 1 = "1.00".toList := by
  unfold fmtFixed
  have h : F64.roundEven (|(1 : ℚ)| * 10 ^ 2) = 100 := by
    have := F64.roundEven_intCast 100
    norm_num at this ⊢
    exact this
  rw [h]
  decide

theorem lit_balanced_bounds : F64.lit (9 / 10) ≤ 1 ∧ (1 : ℚ) ≤ F64.lit (11 / 10) := by
  have h1 := F64.rnd_intCast 1 (by norm_num)
  constructor
  · have := F64.rnd_mono (show (9 / 10 : ℚ) ≤ ((1 : ℤ) : ℚ) by norm_num)
    rw [h1] at this; simpa [F64.lit] using this
  · have := F64.rnd_mono (show (((1 : ℤ) : ℚ)) ≤ 11 / 10 by norm_num)
    rw [h1] at this; simpa [F64.lit] using this

/-- The verdict of the structural-consistency strategy on the float64 ratio. -/
theorem structural_flags_iff (pair : CommitPair) (repoStats : RepositoryStats) :
    (NewStructuralConsistencyStrategy.Detect pair repoStats).1 = true ↔
      pair.Stats.Additions > 100 ∧ pair.Stats.Deletions > 100 ∧
      ((F64.lit (9 / 10) ≤ StructuralConsistencyStrategy.ratioOf pair ∧
          StructuralConsistencyStrategy.ratioOf pair ≤ F64.lit (11 / 10)) ∨
        (∃ n : ℤ, |StructuralConsistencyStrategy.ratioOf pair - n| < F64.lit (1 / 20)) ∨
        (∃ n : ℤ, |F64.div 1 (StructuralConsistencyStrategy.ratioOf pair) - n|
          < F64.lit (1 / 20))) := by
  rw [structural_detected]
  simp only [NewStructuralConsistencyStrategy, true_and]
  by_cases ha : pair.Stats.Additions > 100
  · by_cases hd : pair.Stats.Deletions > 100
    · have hpos := ratioOf_pos ha hd
      have hf : IsF64 (StructuralConsistencyStrategy.ratioOf pair) := rnd_isF64 _
      have hpos2 : 0 ≤ F64.div 1 (StructuralConsistencyStrategy.ratioOf pair) :=
        rnd_nonneg (by positivity)
      have hf2 : IsF64 (F64.div 1 (StructuralConsistencyStrategy.ratioOf pair)) :=
        rnd_isF64 _
      rw [isNearInteger_iff hpos.le hf, isNearInteger_iff hpos2 hf2]
    · simp [hd]
  · simp [ha]

/-- The float64 quotient 246 / 120, just below 2.05. -/
theorem ratio_246_120 :
    StructuralConsistencyStrategy.ratioOf (mkPair [] 246 120 1 0 [])
      = 4616189618054758 * 2 ^ (-51 : ℤ) := by
  unfold StructuralConsistencyStrategy.ratioOf F64.div
  show F64.rnd (F64.ofInt 246 / F64.ofInt 120) = _
  rw [ofInt_small 246 (by norm_num), ofInt_small 120 (by norm_num)]
  have := F64.rnd_eq_of (q := 246 / 120) 1 4616189618054758 (by norm_num) (by norm_num)
    (by norm_num [abs_lt])
  norm_num at this ⊢
  exact this

/-- The float64 quotient 234 / 120, just below 1.95. -/
theorem ratio_234_120 :
    StructuralConsistencyStrategy.ratioOf (mkPair [] 234 120 1 0 [])
      = 8782019273372467 * 2 ^ (-52 : ℤ) := by
  unfold StructuralConsistencyStrategy.ratioOf F64.div
  show F64.rnd (F64.ofInt 234 / F64.ofInt 120) = _
  rw [ofInt_small 234 (by norm_num), ofInt_small 120 (by norm_num)]
  have := F64.rnd_eq_of (q := 234 / 120) 0 8782019273372467 (by norm_num) (by norm_num)
    (by norm_num [abs_lt])
  norm_num at this ⊢
  exact this

/-- The float64 reciprocal of the float64 quotient 234 / 120. -/
theorem reciprocal_234_120 :
    F64.div 1 (StructuralConsistencyStrategy.ratioOf (mkPair [] 234 120 1 0 []))
      = 4619076540892817 * 2 ^ (-53 : ℤ) := by
  rw [ratio_234_120]
  unfold F64.div
  have := F64.rnd_eq_of (q := 1 / (8782019273372467 * 2 ^ (-52 : ℤ))) (-1) 4619076540892817
    (by norm_num) (by norm_num) (by norm_num [abs_lt])
  norm_num at this ⊢
  exact this

/-- The distance to the nearest integer of a rational with a known integer
part. -/
theorem distToInteger_of_floor (x : ℚ) (k : ℤ) (h0 : (k : ℚ) ≤ x) (h1 : x < k + 1) :
    distToInteger x = min (x - k) (1 - (x - k)) := by
  have : Int.fract x = x - k := by
    rw [Int.fract_eq_iff]
    exact ⟨by linarith, by linarith, k, by simp⟩
  unfold distToInteger
  rw [this]

/-- C2, counterexample: 246 / 120 = 2.05 and 234 / 120 = 1.95 are both at the
distance 0.05, exactly, from the integer 2, neither ratio lies in [0.9, 1.1]
and neither reciprocal is within 0.05 of an integer, so the condition of the
claim has the same value for both pairs, however "within" is read; yet the
strategy flags additions = 246, deletions = 120 and does not flag
additions = 234, deletions = 120: both float64 quotients lie just below the
exact ones, 0.05 is rounded up and 1.0 - 0.05 is rounded to 0.95. -/
theorem C2_structural_counterexample :
    (NewStructuralConsistencyStrategy.Detect (mkPair [] 246 120 1 0 []) ⟨[]⟩).1 = true ∧
    (NewStructuralConsistencyStrategy.Detect (mkPair [] 234 120 1 0 []) ⟨[]⟩).1 = false ∧
    |(246 : ℚ) / 120 - 2| = 1 / 20 ∧ |(234 : ℚ) / 120 - 2| = 1 / 20 ∧
    distToInteger ((246 : ℚ) / 120) = 1 / 20 ∧ distToInteger ((234 : ℚ) / 120) = 1 / 20 ∧
    1 / 20 < distToInteger ((120 : ℚ) / 246) ∧ 1 / 20 < distToInteger ((120 : ℚ) / 234) ∧
    ¬ ((9 : ℚ) / 10 ≤ 246 / 120 ∧ (246 : ℚ) / 120 ≤ 11 / 10) ∧
    ¬ ((9 : ℚ) / 10 ≤ 234 / 120 ∧ (234 : ℚ) / 120 ≤ 11 / 10) := by
  have hlit11 : F64.lit (11 / 10) ≤ 3 / 2 := by
    have h := F64.rnd_mono (show (11 / 10 : ℚ) ≤ 3 * 2 ^ (-1 : ℤ) by norm_num)
    have e := F64.rnd_dyadic 3 (-1) (by norm_num)
    have e' : F64.rnd ((3 : ℚ) * 2 ^ (-1 : ℤ)) = 3 * 2 ^ (-1 : ℤ) := by exact_mod_cast e
    rw [e'] at h
    unfold F64.lit
    norm_num at h ⊢
    exact h
  refine ⟨?_, ?_, by norm_num [abs_of_pos], ?_, ?_, ?_, ?_, ?_, by norm_num, by norm_num⟩
  · rw [structural_flags_iff]
    refine ⟨by decide, by decide, Or.inr (Or.inl ⟨2, ?_⟩)⟩
    rw [ratio_246_120, lit_twentieth, abs_lt]
    constructor <;> norm_num
  · rw [Bool.eq_false_iff, ne_eq, structural_flags_iff]
    rintro ⟨_, _, h | ⟨n, hn⟩ | ⟨n, hn⟩⟩
    · rw [ratio_234_120] at h
      have := h.2
      have h2 : (3 : ℚ) / 2 < 8782019273372467 * 2 ^ (-52 : ℤ) := by norm_num
      linarith
    · rw [ratio_234_120, lit_twentieth, abs_lt] at hn
      obtain ⟨h1, h2⟩ := hn
      have e1 : (8782019273372467 : ℚ) * 2 ^ (-52 : ℤ) = 8782019273372467 / 4503599627370496 := by
        norm_num
      have e2 : (7205759403792794 : ℚ) * 2 ^ (-57 : ℤ) = 7205759403792794 / 144115188075855872 := by
        norm_num
      rw [e1, e2] at h1 h2
      have a1 : ((1 : ℤ) : ℚ) < (n : ℚ) := by push_cast; linarith
      have a2 : (n : ℚ) < ((3 : ℤ) : ℚ) := by push_cast; linarith
      have b1 : (1 : ℤ) < n := Int.cast_lt.mp a1
      have b2 : n < (3 : ℤ) := Int.cast_lt.mp a2
      have hn2 : n = 2 := by omega
      subst hn2
      norm_num at h1 h2
    · rw [reciprocal_234_120, lit_twentieth, abs_lt] at hn
      obtain ⟨h1, h2⟩ := hn
      have e1 : (4619076540892817 : ℚ) * 2 ^ (-53 : ℤ) = 4619076540892817 / 9007199254740992 := by
        norm_num
      have e2 : (7205759403792794 : ℚ) * 2 ^ (-57 : ℤ) = 7205759403792794 / 144115188075855872 := by
        norm_num
      rw [e1, e2] at h1 h2
      have a1 : ((0 : ℤ) : ℚ) < (n : ℚ) := by push_cast; linarith
      have a2 : (n : ℚ) < ((1 : ℤ) : ℚ) := by push_cast; linarith
      have b1 : (0 : ℤ) < n := Int.cast_lt.mp a1
      have b2 : n < (1 : ℤ) := Int.cast_lt.mp a2
      omega
  · rw [abs_of_neg (by norm_num)]; norm_num
  · rw [distToInteger_of_floor _ 2 (by norm_num) (by norm_num)]
    norm_num
  · rw [distToInteger_of_floor _ 1 (by norm_num) (by norm_num)]
    norm_num
  · rw [distToInteger_of_floor _ 0 (by norm_num) (by norm_num)]
    norm_num
  · rw [distToInteger_of_floor _ 0 (by norm_num) (by norm_num)]
    norm_num

/-- C2, amended: the structural-consistency strategy flags a commit pair
exactly when additions > 100 and deletions > 100 and, with ratio the float64
quotient additions / deletions, either 0.9 <= ratio <= 1.1 or ratio or its
float64 reciprocal is at a distance strictly below the float64 constant 0.05
from an integer (0.9, 1.1 and 0.05 being the float64 constants of the
source); it never flags when additions <= 100 or deletions <= 100, and
additions = 150, deletions = 150 gives the ratio 1 and is flagged by the
balanced rule. -/
theorem C2_structural_flags (pair : CommitPair) (repoStats : RepositoryStats) :
    ((NewStructuralConsistencyStrategy.Detect pair repoStats).1 = true ↔
      pair.Stats.Additions > 100 ∧ pair.Stats.Deletions > 100 ∧
      ((F64.lit (9 / 10) ≤ StructuralConsistencyStrategy.ratioOf pair ∧
          StructuralConsistencyStrategy.ratioOf pair ≤ F64.lit (11 / 10)) ∨
        (∃ n : ℤ, |StructuralConsistencyStrategy.ratioOf pair - n| < F64.lit (1 / 20)) ∨
        (∃ n : ℤ, |F64.div 1 (StructuralConsistencyStrategy.ratioOf pair) - n|
          < F64.lit (1 / 20)))) ∧
    ((pair.Stats.Additions ≤ 100 ∨ pair.Stats.Deletions ≤ 100) →
      (NewStructuralConsistencyStrategy.Detect pair repoStats).1 = false) ∧
    (StructuralConsistencyStrategy.ratioOf
        { pair with Stats := { pair.Stats with Additions := 150, Deletions := 150 } } = 1 ∧
      NewStructuralConsistencyStrategy.Detect
          { pair with Stats := { pair.Stats with Additions := 150, Deletions := 150 } } repoStats
        = (true,
            ("Suspiciously balanced addition/deletion ratio: 1.00 - may indicate automated "
              ++ "refactoring").toList)) := by
  refine ⟨structural_flags_iff pair repoStats, ?_, ratioOf_equal_counts pair, ?_⟩
  · intro h
    rw [Bool.eq_false_iff, ne_eq, structural_detected]
    rintro ⟨_, ha, hd, _⟩
    omega
  · have hr := ratioOf_equal_counts pair
    have hb := lit_balanced_bounds
    unfold StructuralConsistencyStrategy.Detect NewStructuralConsistencyStrategy
    simp only [Bool.not_true, Bool.false_eq_true, if_false, hr, ge_iff_le, hb.1, hb.2, and_self,
      if_true, fmtFixed_two_one]
    decide

/-- The instance of the amended C2 at additions = 100, deletions = 200. -/
theorem C2_structural_flags_witness :
    ((mkPair [] 100 200 1 0 []).Stats.Additions ≤ 100 ∨
      (mkPair [] 100 200 1 0 []).Stats.Deletions ≤ 100) ∧
    (NewStructuralConsistencyStrategy.Detect (mkPair [] 100 200 1 0 []) ⟨[]⟩).1 = false :=
  have h : (mkPair [] 100 200 1 0 []).Stats.Additions ≤ 100 ∨
      (mkPair [] 100 200 1 0 []).Stats.Deletions ≤ 100 := Or.inl (by decide)
  ⟨h, (C2_structural_flags (mkPair [] 100 200 1 0 []) ⟨[]⟩).2.1 h⟩

/-! ## File-dispersion strategy: theorems -/

theorem lit_50 : F64.lit 50 = 50 := by
  have := F64.rnd_intCast 50 (by norm_num)
  simpa [F64.lit] using this

theorem lit_200 : F64.lit 200 = 200 := by
  have := F64.rnd_intCast 200 (by norm_num)
  simpa [F64.lit] using this

/-- The float64 constant 0.8. -/
theorem lit_four_fifths : F64.lit (8 / 10) = 7205759403792794 * 2 ^ (-53 : ℤ) := by
  have := F64.rnd_eq_of (q := 8 / 10) (-1) 7205759403792794
    (by norm_num) (by norm_num) (by norm_num [abs_lt])
  norm_num [F64.lit] at this ⊢
  exact this

/-- A rounded value above `2 ^ (g + 52)` is a multiple of `2 ^ g`. -/
theorem rnd_grid {q : ℚ} (g : ℤ) (hq : 0 < q) (h : (2 : ℚ) ^ (g + 52) < F64.rnd q) :
    ∃ n : ℤ, F64.rnd q = n * 2 ^ g := by
  have hb := (F64.rnd_bounds hq).2
  have hlt : (2 : ℚ) ^ (g + 52) < 2 ^ (Int.log 2 |q| - 52 + 53) := by
    have : (2 : ℚ) ^ (53 : ℕ) * F64.ulp q = 2 ^ (Int.log 2 |q| - 52 + 53) := by
      unfold F64.ulp
      rw [zpow_add₀ (by norm_num : (2 : ℚ) ≠ 0)]
      norm_cast
      ring
    rw [← this]
    linarith
  have hexp : g + 52 < Int.log 2 |q| - 52 + 53 :=
    (zpow_lt_zpow_iff_right₀ (by norm_num : (1 : ℚ) < 2)).mp hlt
  obtain ⟨k, hk⟩ : ∃ k : ℕ, Int.log 2 |q| - 52 = g + k :=
    ⟨(Int.log 2 |q| - 52 - g).toNat, by omega⟩
  refine ⟨F64.roundEven (q / F64.ulp q) * 2 ^ k, ?_⟩
  unfold F64.rnd
  rw [if_neg hq.ne']
  unfold F64.ulp
  rw [hk, zpow_add₀ (by norm_num : (2 : ℚ) ≠ 0), zpow_natCast]
  push_cast
  ring

/-- For an average between 50 and 200 the consistency score is computed
without rounding error. -/
theorem consistency_exact {q : ℚ} (hq : 0 < q) (h50 : 50 < F64.rnd q)
    (h63 : F64.rnd q < 2 ^ 63) :
    FileExtensionPatternStrategy.consistency (F64.rnd q) = 1 - Int.fract (F64.rnd q) ∧
    ∃ k : ℤ, 1 - Int.fract (F64.rnd q) = k * 2 ^ (-47 : ℤ) := by
  obtain ⟨n, hn⟩ := rnd_grid (-47) hq (by norm_num; linarith)
  have hgrid : 1 - Int.fract (F64.rnd q)
      = ((⌊F64.rnd q⌋ + 1) * 2 ^ 47 - n : ℤ) * 2 ^ (-47 : ℤ) := by
    rw [Int.fract]
    nth_rewrite 1 [hn]
    push_cast
    have : (2 : ℚ) ^ (47 : ℕ) * 2 ^ (-47 : ℤ) = 1 := by norm_num
    linear_combination (-(⌊F64.rnd q⌋ : ℚ) - 1) * this
  have h0 := Int.fract_nonneg (F64.rnd q)
  have h1 := Int.fract_lt_one (F64.rnd q)
  refine ⟨?_, _, hgrid⟩
  unfold FileExtensionPatternStrategy.consistency
  rw [frac_exact (by linarith) (rnd_isF64 q) h63]
  unfold F64.sub
  rw [hgrid]
  apply F64.rnd_dyadic
  have hk0 : (0 : ℚ) < ((⌊F64.rnd q⌋ + 1) * 2 ^ 47 - n : ℤ) * 2 ^ (-47 : ℤ) := by
    rw [← hgrid]; linarith
  have hk1 : (((⌊F64.rnd q⌋ + 1) * 2 ^ 47 - n : ℤ) : ℚ) * 2 ^ (-47 : ℤ) ≤ 1 := by
    rw [← hgrid]; linarith
  have hp : (0 : ℚ) < 2 ^ (-47 : ℤ) := by positivity
  have a0 : (0 : ℚ) < (((⌊F64.rnd q⌋ + 1) * 2 ^ 47 - n : ℤ) : ℚ) := by
    by_contra hc
    have := mul_nonpos_of_nonpos_of_nonneg (not_lt.mp hc) hp.le
    linarith
  have a1 : (((⌊F64.rnd q⌋ + 1) * 2 ^ 47 - n : ℤ) : ℚ) ≤ ((2 ^ 47 : ℤ) : ℚ) := by
    have e : (((2 : ℤ) ^ 47 : ℤ) : ℚ) * 2 ^ (-47 : ℤ) = 1 := by norm_num
    by_contra hc
    have := mul_lt_mul_of_pos_right (not_le.mp hc) hp
    linarith
  have b0 : (0 : ℤ) < (⌊F64.rnd q⌋ + 1) * 2 ^ 47 - n := by exact_mod_cast a0
  have b1 : (⌊F64.rnd q⌋ + 1) * 2 ^ 47 - n ≤ (2 : ℤ) ^ 47 := by exact_mod_cast a1
  rw [abs_of_pos b0]
  calc (⌊F64.rnd q⌋ + 1) * 2 ^ 47 - n ≤ (2 : ℤ) ^ 47 := b1
    _ < 2 ^ 53 := by norm_num

/-- The verdict of the file-dispersion strategy, as the source tests it. -/
theorem fileExtension_detected (pair : CommitPair) (repoStats : RepositoryStats) :
    (NewFileExtensionPatternStrategy.Detect pair repoStats).1 = true ↔
      pair.Stats.FilesChanged > 10 ∧ pair.Stats.Additions > 1000 ∧
      50 < FileExtensionPatternStrategy.avgLinesPerFile pair ∧
      FileExtensionPatternStrategy.avgLinesPerFile pair < 200 ∧
      FileExtensionPatternStrategy.consistency (FileExtensionPatternStrategy.avgLinesPerFile pair)
        > F64.lit (8 / 10) := by
  unfold FileExtensionPatternStrategy.Detect NewFileExtensionPatternStrategy
  simp only [Bool.not_true, Bool.false_eq_true, if_false, lit_50, lit_200, gt_iff_lt]
  by_cases h1 : 10 < pair.Stats.FilesChanged ∧ 1000 < pair.Stats.Additions
  swap
  · rw [if_neg h1]
    refine iff_of_false (by simp) ?_
    rintro ⟨hf, ha, _⟩
    exact h1 ⟨hf, ha⟩
  rw [if_pos h1]
  by_cases h2 : 50 < FileExtensionPatternStrategy.avgLinesPerFile pair ∧
      FileExtensionPatternStrategy.avgLinesPerFile pair < 200
  swap
  · rw [if_neg h2]
    refine iff_of_false (by simp) ?_
    rintro ⟨_, _, hl, hu, _⟩
    exact h2 ⟨hl, hu⟩
  rw [if_pos h2]
  by_cases h3 : F64.lit (8 / 10) < FileExtensionPatternStrategy.consistency
      (FileExtensionPatternStrategy.avgLinesPerFile pair)
  · rw [if_pos h3]
    exact iff_of_true rfl ⟨h1.1, h1.2, h2.1, h2.2, h3⟩
  · rw [if_neg h3]
    refine iff_of_false (by simp) ?_
    rintro ⟨_, _, _, _, h⟩
    exact h3 h

/-- For an average above 50 the float64 test `consistency > 0.8` agrees with
the exact test `1 - fract > 0.8` on the average. -/
theorem consistency_gt_iff {q : ℚ} (hq : 0 < q) (h50 : 50 < F64.rnd q)
    (h63 : F64.rnd q < 2 ^ 63) :
    FileExtensionPatternStrategy.consistency (F64.rnd q) > F64.lit (8 / 10) ↔
      1 - Int.fract (F64.rnd q) > 8 / 10 := by
  obtain ⟨hc, k, hk⟩ := consistency_exact hq h50 h63
  rw [hc, lit_four_fifths, hk]
  constructor
  · intro h
    have : (8 / 10 : ℚ) < 7205759403792794 * 2 ^ (-53 : ℤ) := by norm_num
    exact lt_trans this h
  · intro h
    have e : (2 : ℚ) ^ (-47 : ℤ) = 1 / 140737488355328 := by norm_num
    have h5 : ((562949953421312 : ℤ) : ℚ) < ((5 * k : ℤ) : ℚ) := by
      rw [e] at h
      push_cast
      linarith
    have h6 : (562949953421312 : ℤ) < 5 * k := Int.cast_lt.mp h5
    have h7 : (112589990684263 : ℤ) ≤ k := by omega
    have h8 : ((112589990684263 : ℤ) : ℚ) ≤ (k : ℚ) := Int.cast_le.mpr h7
    have e2 : (7205759403792794 : ℚ) * 2 ^ (-53 : ℤ) = 7205759403792794 / 9007199254740992 := by
      norm_num
    rw [gt_iff_lt, e, e2]
    push_cast at h8
    linarith

/-! ## File-dispersion strategy: comparison with exact arithmetic -/

theorem quotient_floor (a f : ℤ) (hf : 0 < f) : ⌊(a : ℚ) / f⌋ = a / f := by
  rw [Int.floor_eq_iff]
  have hfq : (0 : ℚ) < f := by exact_mod_cast hf
  have e := Int.emod_add_ediv a f
  have h0 := Int.emod_nonneg a hf.ne'
  have h1 := Int.emod_lt_of_pos a hf
  have eq : (a : ℚ) = ((a % f : ℤ) : ℚ) + (f : ℚ) * ((a / f : ℤ) : ℚ) := by exact_mod_cast e.symm
  have g0 : (0 : ℚ) ≤ ((a % f : ℤ) : ℚ) := by exact_mod_cast h0
  have g1 : ((a % f : ℤ) : ℚ) < f := by exact_mod_cast h1
  constructor
  · rw [le_div_iff₀ hfq]; linarith
  · rw [div_lt_iff₀ hfq]; linarith

theorem quotient_fract (a f : ℤ) (hf : 0 < f) :
    Int.fract ((a : ℚ) / f) = ((a % f : ℤ) : ℚ) / f := by
  have hfq : (0 : ℚ) < f := by exact_mod_cast hf
  have e := Int.emod_add_ediv a f
  have eq : (a : ℚ) = ((a % f : ℤ) : ℚ) + (f : ℚ) * ((a / f : ℤ) : ℚ) := by exact_mod_cast e.symm
  rw [Int.fract, quotient_floor a f hf]
  field_simp
  linarith

/-- A float64 between an integer and the next one has that integer as floor. -/
theorem fract_of_bounds {x : ℚ} {n : ℤ} (h1 : (n : ℚ) ≤ x) (h2 : x < n + 1) :
    Int.fract x = x - n := by
  have : ⌊x⌋ = n := by rw [Int.floor_eq_iff]; exact ⟨h1, h2⟩
  rw [Int.fract, this]

theorem rnd_le_of_le_dyadic {q : ℚ} (m j : ℤ) (hm : |m| < 2 ^ 53) (h : q ≤ m * 2 ^ j) :
    F64.rnd q ≤ m * 2 ^ j := by
  have := F64.rnd_mono h
  rwa [F64.rnd_dyadic m j hm] at this

theorem le_rnd_of_dyadic_le {q : ℚ} (m j : ℤ) (hm : |m| < 2 ^ 53) (h : (m : ℚ) * 2 ^ j ≤ q) :
    (m : ℚ) * 2 ^ j ≤ F64.rnd q := by
  have := F64.rnd_mono h
  rwa [F64.rnd_dyadic m j hm] at this

/-- Off the boundary case (exact fractional part 0.2) the rounded quotient
passes the tests of the strategy exactly when the exact quotient does. -/
theorem dispersion_tests_exact (a f : ℤ) (hf10 : 10 < f) (hf : f ≤ 2 ^ 40)
    (hne : 5 * (a % f) ≠ f) :
    (50 < F64.div (F64.ofInt a) (F64.ofInt f) ∧ F64.div (F64.ofInt a) (F64.ofInt f) < 200 ∧
        1 - Int.fract (F64.div (F64.ofInt a) (F64.ofInt f)) > 8 / 10) ↔
      ((50 : ℚ) < (a : ℚ) / f ∧ (a : ℚ) / f < 200 ∧ 1 - Int.fract ((a : ℚ) / f) > 8 / 10) := by
  have hf' : f ≤ 1099511627776 := by norm_num at hf; exact hf
  have hf0 : (0 : ℤ) < f := by omega
  have hfq : (0 : ℚ) < f := by exact_mod_cast hf0
  have hff : F64.ofInt f = f := ofInt_small f (by rw [abs_of_pos hf0]; norm_num; omega)
  rw [hff]
  unfold F64.div
  rcases le_or_lt a (50 * f) with hlow | hlow
  · have h1 : F64.ofInt a ≤ 50 * f := by
      have := F64.rnd_mono (show ((a : ℤ) : ℚ) ≤ ((50 * f : ℤ) : ℚ) by exact_mod_cast hlow)
      rw [F64.rnd_intCast (50 * f) (by rw [abs_of_pos (by omega)]; norm_num; omega)] at this
      push_cast at this
      exact this
    have h2 : F64.rnd (F64.ofInt a / f) ≤ 50 := by
      have := F64.rnd_mono (show F64.ofInt a / f ≤ ((50 : ℤ) : ℚ) by
        rw [div_le_iff₀ hfq]; push_cast; linarith)
      rw [F64.rnd_intCast 50 (by norm_num)] at this
      exact_mod_cast this
    have h3 : (a : ℚ) / f ≤ 50 := by
      rw [div_le_iff₀ hfq]; exact_mod_cast hlow
    constructor <;> rintro ⟨h, _⟩ <;> linarith
  rcases le_or_lt (200 * f) a with hhigh | hhigh
  · have h1 : (200 : ℚ) * f ≤ F64.ofInt a := by
      have := F64.rnd_mono (show ((200 * f : ℤ) : ℚ) ≤ ((a : ℤ) : ℚ) by exact_mod_cast hhigh)
      rw [F64.rnd_intCast (200 * f) (by rw [abs_of_pos (by omega)]; norm_num; omega)] at this
      push_cast at this
      exact this
    have h2 : 200 ≤ F64.rnd (F64.ofInt a / f) := by
      have := F64.rnd_mono (show ((200 : ℤ) : ℚ) ≤ F64.ofInt a / f by
        rw [le_div_iff₀ hfq]; push_cast; linarith)
      rw [F64.rnd_intCast 200 (by norm_num)] at this
      exact_mod_cast this
    have h3 : (200 : ℚ) ≤ (a : ℚ) / f := by
      rw [le_div_iff₀ hfq]; exact_mod_cast hhigh
    constructor <;> rintro ⟨_, h, _⟩ <;> linarith
  -- the quotient lies strictly between 50 and 200
  have ha0 : (0 : ℤ) < a := by omega
  have ha : F64.ofInt a = a := ofInt_small a (by rw [abs_of_pos ha0]; norm_num; omega)
  rw [ha]
  have e := Int.emod_add_ediv a f
  have hm0 := Int.emod_nonneg a hf0.ne'
  have hm1 := Int.emod_lt_of_pos a hf0
  have hn50 : 50 ≤ a / f := by
    by_contra hc
    have hc' : a / f ≤ 49 := by omega
    have : f * (a / f) ≤ f * 49 := mul_le_mul_of_nonneg_left hc' hf0.le
    omega
  have hn199 : a / f ≤ 199 := by
    by_contra hc
    have hc' : 200 ≤ a / f := by omega
    have : f * 200 ≤ f * (a / f) := mul_le_mul_of_nonneg_left hc' hf0.le
    omega
  have eq : (a : ℚ) = ((a % f : ℤ) : ℚ) + (f : ℚ) * ((a / f : ℤ) : ℚ) := by exact_mod_cast e.symm
  have hq50 : (50 : ℚ) < (a : ℚ) / f := by rw [lt_div_iff₀ hfq]; exact_mod_cast hlow
  have hq200 : (a : ℚ) / f < 200 := by rw [div_lt_iff₀ hfq]; exact_mod_cast hhigh
  have hfr : Int.fract ((a : ℚ) / f) = ((a % f : ℤ) : ℚ) / f := quotient_fract a f hf0
  have e40 : (2 : ℚ) ^ (-40 : ℤ) = 1 / 1099511627776 := by norm_num
  have e45 : (2 : ℚ) ^ (-45 : ℤ) = 1 / 35184372088832 := by norm_num
  have hfq' : (f : ℚ) ≤ 1099511627776 := by exact_mod_cast hf'
  -- the rounded quotient stays strictly between 50 and 200
  have r50 : (50 : ℚ) < F64.rnd ((a : ℚ) / f) := by
    have h := le_rnd_of_dyadic_le (q := (a : ℚ) / f) (50 * 2 ^ 40 + 1) (-40) (by norm_num) (by
      rw [le_div_iff₀ hfq, e40]
      have : ((50 * f + 1 : ℤ) : ℚ) ≤ (a : ℚ) := by exact_mod_cast hlow
      push_cast at this ⊢
      linarith)
    rw [e40] at h
    push_cast at h
    linarith
  have r200 : F64.rnd ((a : ℚ) / f) < 200 := by
    have h := rnd_le_of_le_dyadic (q := (a : ℚ) / f) (200 * 2 ^ 40 - 1) (-40) (by norm_num) (by
      rw [div_le_iff₀ hfq, e40]
      have : ((a + 1 : ℤ) : ℚ) ≤ ((200 * f : ℤ) : ℚ) := by exact_mod_cast hhigh
      push_cast at this ⊢
      linarith)
    rw [e40] at h
    push_cast at h
    linarith
  have rn : ((a / f : ℤ) : ℚ) ≤ F64.rnd ((a : ℚ) / f) := by
    have := F64.rnd_mono (show ((a / f : ℤ) : ℚ) ≤ (a : ℚ) / f by
      rw [le_div_iff₀ hfq]
      have : (0 : ℚ) ≤ ((a % f : ℤ) : ℚ) := by exact_mod_cast hm0
      linarith)
    rwa [F64.rnd_intCast _ (by rw [abs_of_nonneg (by omega)]; norm_num; omega)] at this
  have mq0 : (0 : ℚ) ≤ ((a % f : ℤ) : ℚ) := by exact_mod_cast hm0
  rcases lt_or_gt_of_ne hne with hlt | hgt
  · -- exact fractional part below 0.2
    have hI : 35184372088832 * (a % f) ≤ 7036874417766 * f := by omega
    have hIq : (35184372088832 : ℚ) * ((a % f : ℤ) : ℚ) ≤ 7036874417766 * (f : ℚ) := by
      exact_mod_cast hI
    have hz := rnd_le_of_le_dyadic (q := (a : ℚ) / f)
      ((a / f) * 35184372088832 + 7036874417766) (-45)
      (by rw [abs_of_nonneg (by omega)]; norm_num; omega) (by
        rw [div_le_iff₀ hfq, e45]
        push_cast
        linarith)
    rw [e45] at hz
    push_cast at hz
    have hlt1 : F64.rnd ((a : ℚ) / f) < ((a / f : ℤ) : ℚ) + 1 := by linarith
    have hfr' := fract_of_bounds rn hlt1
    have hx : ((a % f : ℤ) : ℚ) / f < 1 / 5 := by
      rw [div_lt_iff₀ hfq]
      have : ((5 * (a % f) : ℤ) : ℚ) < (f : ℚ) := by exact_mod_cast hlt
      push_cast at this
      linarith
    refine iff_of_true ⟨r50, r200, ?_⟩ ⟨hq50, hq200, ?_⟩
    · rw [hfr']; linarith
    · rw [hfr]; linarith
  · -- exact fractional part above 0.2
    have hI : 7036874417767 * f ≤ 35184372088832 * (a % f) := by omega
    have hIq : (7036874417767 : ℚ) * (f : ℚ) ≤ 35184372088832 * ((a % f : ℤ) : ℚ) := by
      exact_mod_cast hI
    have hJ : 1099511627776 * (a % f) ≤ 1099511627775 * f := by omega
    have hJq : (1099511627776 : ℚ) * ((a % f : ℤ) : ℚ) ≤ 1099511627775 * (f : ℚ) := by
      exact_mod_cast hJ
    have hz1 := le_rnd_of_dyadic_le (q := (a : ℚ) / f)
      ((a / f) * 35184372088832 + 7036874417767) (-45)
      (by rw [abs_of_nonneg (by omega)]; norm_num; omega) (by
        rw [le_div_iff₀ hfq, e45]
        push_cast
        linarith)
    have hz2 := rnd_le_of_le_dyadic (q := (a : ℚ) / f)
      ((a / f + 1) * 1099511627776 - 1) (-40)
      (by rw [abs_of_nonneg (by omega)]; norm_num; omega) (by
        rw [div_le_iff₀ hfq, e40]
        push_cast
        linarith)
    rw [e45] at hz1
    rw [e40] at hz2
    push_cast at hz1 hz2
    have hlt1 : F64.rnd ((a : ℚ) / f) < ((a / f : ℤ) : ℚ) + 1 := by linarith
    have hfr' := fract_of_bounds rn hlt1
    have hx : (1 / 5 : ℚ) < ((a % f : ℤ) : ℚ) / f := by
      rw [lt_div_iff₀ hfq]
      have : (f : ℚ) < ((5 * (a % f) : ℤ) : ℚ) := by exact_mod_cast hgt
      push_cast at this
      linarith
    refine iff_of_false ?_ ?_
    · rintro ⟨_, _, h⟩
      rw [hfr'] at h
      linarith
    · rintro ⟨_, _, h⟩
      rw [hfr] at h
      linarith

/-- The float64 quotient 1923 / 15. -/
theorem avg_1923_15 (pair : CommitPair) :
    FileExtensionPatternStrategy.avgLinesPerFile
      { pair with Stats := { pair.Stats with Additions := 1923, FilesChanged := 15 } }
      = 4510636501788262 * 2 ^ (-45 : ℤ) := by
  unfold FileExtensionPatternStrategy.avgLinesPerFile F64.div
  show F64.rnd (F64.ofInt 1923 / F64.ofInt 15) = _
  rw [ofInt_small 1923 (by norm_num), ofInt_small 15 (by norm_num)]
  have := F64.rnd_eq_of (q := 1923 / 15) 7 4510636501788262 (by norm_num) (by norm_num)
    (by norm_num [abs_lt])
  norm_num at this ⊢
  exact this

/-- C6, counterexample: with additions = 1923 and filesChanged = 15 the exact
average is 128.2 and the exact consistency score is 0.8, which is not greater
than 0.8, yet the strategy flags the pair: the float64 quotient is
4510636501788262 / 2^45, just below 128.2. -/
theorem C6_file_dispersion_counterexample :
    (NewFileExtensionPatternStrategy.Detect (mkPair [] 1923 0 15 0 []) ⟨[]⟩).1 = true ∧
    ¬ FileExtensionPatternStrategy.exactCondition (mkPair [] 1923 0 15 0 []) ∧
    (1 : ℚ) - Int.fract ((1923 : ℚ) / 15) = 8 / 10 := by
  have hfr : Int.fract ((1923 : ℚ) / 15) = 1 / 5 := by
    rw [Int.fract_eq_iff]
    refine ⟨by norm_num, by norm_num, 128, by norm_num⟩
  refine ⟨?_, ?_, by rw [hfr]; norm_num⟩
  · rw [fileExtension_detected]
    have havg : FileExtensionPatternStrategy.avgLinesPerFile (mkPair [] 1923 0 15 0 [])
        = 4510636501788262 * 2 ^ (-45 : ℤ) := avg_1923_15 (mkPair [] 1923 0 15 0 [])
    have hq : (0 : ℚ) < F64.ofInt 1923 / F64.ofInt 15 := by
      rw [ofInt_small 1923 (by norm_num), ofInt_small 15 (by norm_num)]; norm_num
    have h50 : (50 : ℚ) < F64.rnd (F64.ofInt 1923 / F64.ofInt 15) := by
      have : F64.rnd (F64.ofInt 1923 / F64.ofInt 15) = 4510636501788262 * 2 ^ (-45 : ℤ) := havg
      rw [this]; norm_num
    have hc : FileExtensionPatternStrategy.consistency
          (FileExtensionPatternStrategy.avgLinesPerFile (mkPair [] 1923 0 15 0 []))
          > F64.lit (8 / 10) ↔
        1 - Int.fract (FileExtensionPatternStrategy.avgLinesPerFile (mkPair [] 1923 0 15 0 []))
          > 8 / 10 := by
      have h63 : F64.rnd (F64.ofInt 1923 / F64.ofInt 15) < 2 ^ 63 := by
        have : F64.rnd (F64.ofInt 1923 / F64.ofInt 15)
            = 4510636501788262 * 2 ^ (-45 : ℤ) := havg
        rw [this]; norm_num
      exact consistency_gt_iff hq h50 h63
    have hfl : Int.fract ((4510636501788262 : ℚ) * 2 ^ (-45 : ℤ))
        = 4510636501788262 * 2 ^ (-45 : ℤ) - 128 := by
      rw [Int.fract_eq_iff]
      refine ⟨by norm_num, by norm_num, 128, by norm_num⟩
    rw [hc, havg, hfl]
    refine ⟨by decide, by decide, by norm_num, by norm_num, by norm_num⟩
  · rintro ⟨_, _, _, _, h⟩
    simp only [mkPair] at h
    push_cast at h
    rw [hfr] at h
    norm_num at h

/-- C6, amended: the file-dispersion strategy flags a commit pair exactly when
filesChanged > 10 and additions > 1000 and avgLinesPerFile, the float64
quotient additions / filesChanged (rounded to nearest), lies strictly between
50 and 200 and 1 - fractional_part(avgLinesPerFile) > 0.8, the tests on the
rounded quotient being exact; for filesChanged <= 2^40 this is the condition
computed in exact arithmetic unless the exact fractional part of
additions / filesChanged is exactly 0.2. -/
theorem C6_file_dispersion_flags (pair : CommitPair) (repoStats : RepositoryStats) :
    ((NewFileExtensionPatternStrategy.Detect pair repoStats).1 = true ↔
      pair.Stats.FilesChanged > 10 ∧ pair.Stats.Additions > 1000 ∧
      50 < F64.div (F64.ofInt pair.Stats.Additions) (F64.ofInt pair.Stats.FilesChanged) ∧
      F64.div (F64.ofInt pair.Stats.Additions) (F64.ofInt pair.Stats.FilesChanged) < 200 ∧
      1 - Int.fract
          (F64.div (F64.ofInt pair.Stats.Additions) (F64.ofInt pair.Stats.FilesChanged))
        > 8 / 10) ∧
    (pair.Stats.FilesChanged ≤ 2 ^ 40 →
      5 * (pair.Stats.Additions % pair.Stats.FilesChanged) ≠ pair.Stats.FilesChanged →
      ((NewFileExtensionPatternStrategy.Detect pair repoStats).1 = true ↔
        FileExtensionPatternStrategy.exactCondition pair)) := by
  have hq : pair.Stats.FilesChanged > 10 → pair.Stats.Additions > 1000 →
      (0 : ℚ) < F64.ofInt pair.Stats.Additions / F64.ofInt pair.Stats.FilesChanged := by
    intro hf ha
    apply div_pos <;> apply F64.rnd_pos
    · have : (0 : ℤ) < pair.Stats.Additions := by omega
      exact_mod_cast this
    · have : (0 : ℤ) < pair.Stats.FilesChanged := by omega
      exact_mod_cast this
  have h1 : (NewFileExtensionPatternStrategy.Detect pair repoStats).1 = true ↔
      pair.Stats.FilesChanged > 10 ∧ pair.Stats.Additions > 1000 ∧
      50 < F64.div (F64.ofInt pair.Stats.Additions) (F64.ofInt pair.Stats.FilesChanged) ∧
      F64.div (F64.ofInt pair.Stats.Additions) (F64.ofInt pair.Stats.FilesChanged) < 200 ∧
      1 - Int.fract
          (F64.div (F64.ofInt pair.Stats.Additions) (F64.ofInt pair.Stats.FilesChanged))
        > 8 / 10 := by
    rw [fileExtension_detected]
    show _ ∧ _ ∧ 50 < FileExtensionPatternStrategy.avgLinesPerFile pair ∧
        FileExtensionPatternStrategy.avgLinesPerFile pair < 200 ∧ _ ↔
      _ ∧ _ ∧ 50 < FileExtensionPatternStrategy.avgLinesPerFile pair ∧
        FileExtensionPatternStrategy.avgLinesPerFile pair < 200 ∧
        1 - Int.fract (FileExtensionPatternStrategy.avgLinesPerFile pair) > 8 / 10
    constructor
    · rintro ⟨hf, ha, h50, h200, hc⟩
      exact ⟨hf, ha, h50, h200,
        (consistency_gt_iff (hq hf ha) h50 (lt_trans h200 (by norm_num))).mp hc⟩
    · rintro ⟨hf, ha, h50, h200, hc⟩
      exact ⟨hf, ha, h50, h200,
        (consistency_gt_iff (hq hf ha) h50 (lt_trans h200 (by norm_num))).mpr hc⟩
  refine ⟨h1, fun hsize hne => ?_⟩
  rw [h1]
  unfold FileExtensionPatternStrategy.exactCondition
  by_cases hf : pair.Stats.FilesChanged > 10
  · have := dispersion_tests_exact pair.Stats.Additions pair.Stats.FilesChanged hf hsize hne
    simp only [hf, true_and, this]
  · simp only [hf, false_and]

/-- The instance of the amended C6 at additions = 1921, filesChanged = 15: the
exact average is 128 + 1/15, the exact consistency score 14/15. -/
theorem C6_file_dispersion_flags_witness :
    (mkPair [] 1921 0 15 0 []).Stats.FilesChanged ≤ 2 ^ 40 ∧
    5 * ((mkPair [] 1921 0 15 0 []).Stats.Additions % (mkPair [] 1921 0 15 0 []).Stats.FilesChanged)
      ≠ (mkPair [] 1921 0 15 0 []).Stats.FilesChanged ∧
    FileExtensionPatternStrategy.exactCondition (mkPair [] 1921 0 15 0 []) ∧
    (NewFileExtensionPatternStrategy.Detect (mkPair [] 1921 0 15 0 []) ⟨[]⟩).1 = true :=
  have h1 : (mkPair [] 1921 0 15 0 []).Stats.FilesChanged ≤ 2 ^ 40 := by decide
  have h2 : 5 * ((mkPair [] 1921 0 15 0 []).Stats.Additions
      % (mkPair [] 1921 0 15 0 []).Stats.FilesChanged)
      ≠ (mkPair [] 1921 0 15 0 []).Stats.FilesChanged := by decide
  have h3 : FileExtensionPatternStrategy.exactCondition (mkPair [] 1921 0 15 0 []) := by
    have hfr : Int.fract ((1921 : ℚ) / 15) = 1 / 15 := by
      rw [Int.fract_eq_iff]
      exact ⟨by norm_num, by norm_num, 128, by norm_num⟩
    unfold FileExtensionPatternStrategy.exactCondition
    simp only [mkPair]
    push_cast
    rw [hfr]
    norm_num
  ⟨h1, h2, h3, ((C6_file_dispersion_flags (mkPair [] 1921 0 15 0 []) ⟨[]⟩).2 h1 h2).mpr h3⟩

/-! ## Naming strategy with a diff: theorems -/

theorem countP_two_of_mem {α : Type} [DecidableEq α] (P : α → Bool) (l : List α) (p q : α)
    (hp : p ∈ l) (hq : q ∈ l) (hpq : p ≠ q) (hPp : P p = true) (hPq : P q = true) :
    2 ≤ l.countP P := by
  rw [List.countP_eq_length_filter]
  have h1 : p ∈ l.filter P := List.mem_filter.mpr ⟨hp, hPp⟩
  have h2 : q ∈ l.filter P := List.mem_filter.mpr ⟨hq, hPq⟩
  match hl : l.filter P, h1, h2 with
  | [], h1, _ => simp at h1
  | [a], h1, h2 =>
    simp at h1 h2
    exact absurd (h1.trans h2.symm) hpq
  | a :: b :: rest, _, _ => simp

set_option maxRecDepth 100000 in
/-- C11: in the content analysis of the template strategy every phrase of the
10-entry template-comment list that occurs in the lower-cased added text adds
its own point (the count is not capped at one): for a diff with at least 10
added lines whose lower-cased added text contains two distinct phrases of the
list, suspiciousPatterns is at least the number of phrases found, hence at
least 2, and analyzeTemplatePatterns reports detected = true, whatever the
repetition, indentation and import signals are. The lower-casing is the one of
strings.ToLower: ten lines "// TODO: PLACEHOLDER" count 2 and ten lines
"// F" U+0130 "XME " U+0130 "MPLEMENT" count 2; ten lines with four phrases
count 4 phrases (and 5 points with the repetition signal); ten lines with the
one phrase todo count 1 and are not detected. -/
theorem C11_template_comments_uncapped (diffContent phrase1 phrase2 : Str)
    (hlines : (addedLines diffContent).length ≥ 10)
    (h1 : phrase1 ∈ TemplatePatternStrategy.templateComments)
    (h2 : phrase2 ∈ TemplatePatternStrategy.templateComments)
    (hne : phrase1 ≠ phrase2)
    (hin1 : phrase1 <:+: strings.ToLower (strings.Join '\n' (addedLines diffContent)))
    (hin2 : phrase2 <:+: strings.ToLower (strings.Join '\n' (addedLines diffContent))) :
    TemplatePatternStrategy.templateComments.length = 10 ∧
    (TemplatePatternStrategy.templateComments.countP fun phrase =>
        decide (phrase <:+: strings.ToLower (strings.Join '\n' (addedLines diffContent))))
      ≤ TemplatePatternStrategy.suspiciousPatterns (addedLines diffContent) ∧
    2 ≤ TemplatePatternStrategy.suspiciousPatterns (addedLines diffContent) ∧
    (TemplatePatternStrategy.analyzeTemplatePatterns diffContent).1 = true ∧
    TemplatePatternStrategy.templateComments =
      [ "todo".toList, "fixme".toList, "placeholder".toList, "implement".toList,
        "add code here".toList, "your code here".toList, "example".toList, "sample".toList,
        "template".toList, "boilerplate".toList ] ∧
    strings.ToLower "// F\xc4\xb0XME \xc4\xb0MPLEMENT".toList = "// fixme implement".toList ∧
    TemplatePatternStrategy.suspiciousPatterns (addedLines tenCapitalTemplateLines) = 2 ∧
    TemplatePatternStrategy.suspiciousPatterns (addedLines tenDottedTemplateLines) = 2 ∧
    (TemplatePatternStrategy.templateComments.countP fun phrase =>
        decide (phrase <:+:
          strings.ToLower (strings.Join '\n' (addedLines tenFourPhraseLines)))) = 4 ∧
    TemplatePatternStrategy.suspiciousPatterns (addedLines tenFourPhraseLines) = 5 ∧
    TemplatePatternStrategy.suspiciousPatterns (addedLines tenOnePhraseLines) = 1 ∧
    (TemplatePatternStrategy.analyzeTemplatePatterns tenOnePhraseLines).1 = false := by
  have hcount : 2 ≤ TemplatePatternStrategy.templateComments.countP fun phrase =>
      decide (phrase <:+: strings.ToLower (strings.Join '\n' (addedLines diffContent))) :=
    countP_two_of_mem _ _ phrase1 phrase2 h1 h2 hne (by simpa using hin1) (by simpa using hin2)
  have hle : (TemplatePatternStrategy.templateComments.countP fun phrase =>
        decide (phrase <:+: strings.ToLower (strings.Join '\n' (addedLines diffContent))))
      ≤ TemplatePatternStrategy.suspiciousPatterns (addedLines diffContent) := by
    rw [← countMatches_eq_countP]
    unfold TemplatePatternStrategy.suspiciousPatterns
    simp only
    omega
  have h2le : 2 ≤ TemplatePatternStrategy.suspiciousPatterns (addedLines diffContent) :=
    le_trans hcount hle
  refine ⟨by decide, hle, h2le, ?_, rfl, by decide, by decide, by decide, by decide, by decide,
    by decide, by decide⟩
  unfold TemplatePatternStrategy.analyzeTemplatePatterns
  have hn : ¬ (addedLines diffContent).length < 10 := by omega
  simp only [hn, if_false, ge_iff_le, h2le, if_true]

set_option maxRecDepth 100000 in
/-- The instance of C11 at ten added lines `// TODO: PLACEHOLDER`. -/
theorem C11_template_comments_uncapped_witness :
    (addedLines tenCapitalTemplateLines).length ≥ 10 ∧
    "todo".toList ≠ "placeholder".toList ∧
    (TemplatePatternStrategy.analyzeTemplatePatterns tenCapitalTemplateLines).1 = true :=
  have h : (addedLines tenCapitalTemplateLines).length ≥ 10 := by decide
  have hne : "todo".toList ≠ "placeholder".toList := by decide
  ⟨h, hne,
    (C11_template_comments_uncapped tenCapitalTemplateLines "todo".toList "placeholder".toList h
      (by decide) (by decide) hne (by decide) (by decide)).2.2.2.1⟩

/-! ## Velocity metric: theorems -/

theorem lit_minute : F64.lit 60000000000 = 60000000000 := by
  have := F64.rnd_intCast 60000000000 (by norm_num)
  simpa [F64.lit] using this

/-- A whole number of minutes is converted without rounding error. -/
theorem minutes_of_whole (k : Int) (hk0 : 0 ≤ k) (hk : k < 2 ^ 53) :
    Minutes (k * 60000000000) = k := by
  unfold Minutes
  have h1 : (k * 60000000000).tdiv 60000000000 = k := by
    rw [Int.tdiv_eq_ediv (by positivity) (by norm_num)]
    exact Int.mul_ediv_cancel k (by norm_num)
  have h2 : (k * 60000000000).tmod 60000000000 = 0 := by
    rw [Int.tmod_eq_emod (by positivity) (by norm_num)]
    exact Int.mul_emod_left k 60000000000
  rw [h1, h2, ofInt_small k (by rw [abs_of_nonneg hk0]; exact hk), ofInt_small 0 (by norm_num)]
  unfold F64.div F64.add
  simp only [Int.cast_zero, zero_div, F64.rnd_zero, add_zero]
  exact F64.rnd_intCast k (by rw [abs_of_nonneg hk0]; exact hk)

/-- A positive duration is a positive number of minutes: the division of
`CalculateVelocityPerMinute` never has a zero divisor. -/
theorem minutes_pos (d : Int) (hd : 0 < d) : 0 < Minutes d := by
  unfold Minutes
  rw [lit_minute]
  have h1 : d.tdiv 60000000000 = d / 60000000000 := Int.tdiv_eq_ediv hd.le (by norm_num)
  have h2 : d.tmod 60000000000 = d % 60000000000 := Int.tmod_eq_emod hd.le (by norm_num)
  rw [h1, h2]
  have hm0 : 0 ≤ d / 60000000000 := by omega
  have hn0 : 0 ≤ d % 60000000000 := by omega
  have e1 : (0 : ℚ) ≤ F64.ofInt (d / 60000000000) := rnd_nonneg (by exact_mod_cast hm0)
  have e2 : (0 : ℚ) ≤ F64.ofInt (d % 60000000000) := rnd_nonneg (by exact_mod_cast hn0)
  have e3 : (0 : ℚ) ≤ F64.div (F64.ofInt (d % 60000000000)) 60000000000 :=
    rnd_nonneg (div_nonneg e2 (by norm_num))
  apply F64.rnd_pos
  rcases Nat.eq_zero_or_pos (d / 60000000000).toNat with hz | hp
  · have hz' : d / 60000000000 = 0 := by omega
    have hn : 0 < d % 60000000000 := by omega
    have : (0 : ℚ) < F64.ofInt (d % 60000000000) := F64.rnd_pos (by exact_mod_cast hn)
    have : (0 : ℚ) < F64.div (F64.ofInt (d % 60000000000)) 60000000000 :=
      F64.rnd_pos (div_pos this (by norm_num))
    linarith
  · have hp' : 0 < d / 60000000000 := by omega
    have : (0 : ℚ) < F64.ofInt (d / 60000000000) := F64.rnd_pos (by exact_mod_cast hp')
    linarith

/-- C13: for each of the seven strategies, whatever its configuration, and
every commit pair, the reason returned by Detect is the empty string exactly
when detected is false. -/
theorem C13_reason_empty_iff_not_detected (pair : CommitPair) (repoStats : RepositoryStats) :
    (∀ s : CommitMessageStrategy,
      (s.Detect pair repoStats).2 = [] ↔ (s.Detect pair repoStats).1 = false) ∧
    (∀ s : NamingPatternStrategy,
      (s.Detect pair repoStats).2 = [] ↔ (s.Detect pair repoStats).1 = false) ∧
    (∀ s : StructuralConsistencyStrategy,
      (s.Detect pair repoStats).2 = [] ↔ (s.Detect pair repoStats).1 = false) ∧
    (∀ s : BurstPatternStrategy,
      (s.Detect pair repoStats).2 = [] ↔ (s.Detect pair repoStats).1 = false) ∧
    (∀ s : ErrorHandlingPatternStrategy,
      (s.Detect pair repoStats).2 = [] ↔ (s.Detect pair repoStats).1 = false) ∧
    (∀ s : TemplatePatternStrategy,
      (s.Detect pair repoStats).2 = [] ↔ (s.Detect pair repoStats).1 = false) ∧
    (∀ s : FileExtensionPatternStrategy,
      (s.Detect pair repoStats).2 = [] ↔ (s.Detect pair repoStats).1 = false) := by
  refine ⟨?_, ?_, ?_, ?_, ?_, ?_, ?_⟩
  · intro s
    unfold CommitMessageStrategy.Detect
    simp only
    split_ifs <;> simp [String.toList]
  · intro s
    unfold NamingPatternStrategy.Detect NamingPatternStrategy.analyzeCodeContent
    simp only
    split_ifs <;> simp [String.toList]
  · intro s
    unfold StructuralConsistencyStrategy.Detect
    split_ifs <;> simp [String.toList]
  · intro s
    unfold BurstPatternStrategy.Detect
    split_ifs <;> simp [String.toList]
  · intro s
    unfold ErrorHandlingPatternStrategy.Detect ErrorHandlingPatternStrategy.analyzeErrorHandling
    simp only
    split_ifs <;> simp [String.toList]
  · intro s
    unfold TemplatePatternStrategy.Detect TemplatePatternStrategy.messageFallback
      TemplatePatternStrategy.analyzeTemplatePatterns
    simp only
    split_ifs <;> simp_all [String.toList]
  · intro s
    unfold FileExtensionPatternStrategy.Detect
    split_ifs <;> simp [String.toList]

/-! ## Added-line extraction: theorems -/

theorem trimPrefix_plus (line : Str) (h : strings.HasPrefix line "+".toList = true) :
    line = '+' :: strings.TrimPrefix line "+".toList := by
  cases line with
  | nil => simp [strings.HasPrefix, String.toList] at h
  | cons c cs =>
    have hc : c = '+' := by
      have : '+' = c := by simpa [strings.HasPrefix, String.toList] using h
      exact this.symm
    subst hc
    simp [strings.TrimPrefix, strings.HasPrefix, String.toList]

/-- The extraction in terms of list prefixes: the lines that begin with `+` but
not with `+++`, in their order, each without its first code point. -/
theorem addedLines_eq (diffContent : Str) :
    addedLines diffContent
      = ((strings.Split '\n' diffContent).filter fun line =>
          decide ("+".toList <+: line) && !decide ("+++".toList <+: line)).map List.tail := by
  unfold addedLines
  have hf : (fun line : Str =>
      strings.HasPrefix line "+".toList && !strings.HasPrefix line "+++".toList)
      = fun line => decide ("+".toList <+: line) && !decide ("+++".toList <+: line) := by
    funext line
    simp only [strings.HasPrefix]
    congr 1
    · rw [Bool.eq_iff_iff]; simp
    · congr 1; rw [Bool.eq_iff_iff]; simp
  rw [hf]
  apply List.map_congr_left
  intro line hline
  have hp : strings.HasPrefix line "+".toList = true := by
    have := (List.mem_filter.mp hline).2
    simp only [Bool.and_eq_true, decide_eq_true_eq] at this
    simpa [strings.HasPrefix] using this.1
  have := trimPrefix_plus line hp
  rw [this]
  simp [strings.TrimPrefix, strings.HasPrefix, String.toList]

/-- C20: the extraction keeps, in their order, the lines of the diff that begin
with `+` but not with `+++`, each without its first `+`. It therefore drops
every line that begins with `+++`, not only the file header: an added line
whose content begins with `++` is never extracted, and in the diff of `x.c`
whose only added line is `++i;` (shown as `+++i;`) nothing is extracted. -/
theorem C20_added_lines_drop_increment (diffContent content : Str) :
    addedLines diffContent
      = ((strings.Split '\n' diffContent).filter fun line =>
          decide ("+".toList <+: line) && !decide ("+++".toList <+: line)).map List.tail ∧
    ("++".toList <+: content → content ∉ addedLines diffContent) ∧
    ('+' :: "++i;".toList) ∈ strings.Split '\n' incrementDiff ∧
    addedLines incrementDiff = [] := by
  refine ⟨addedLines_eq diffContent, ?_, by decide, by decide⟩
  intro hpre hmem
  unfold addedLines at hmem
  obtain ⟨line, hline, hcontent⟩ := List.mem_map.mp hmem
  have hcond := (List.mem_filter.mp hline).2
  simp only [Bool.and_eq_true, Bool.not_eq_true', strings.HasPrefix] at hcond
  have hp : strings.HasPrefix line "+".toList = true := hcond.1
  have hl := trimPrefix_plus line hp
  rw [hcontent] at hl
  obtain ⟨t, ht⟩ := hpre
  have : ("+++".toList).isPrefixOf line = true := by
    rw [List.isPrefixOf_iff_prefix, hl]
    exact ⟨t, by rw [← ht]; rfl⟩
  rw [this] at hcond
  exact absurd hcond.2 (by simp)

/-- The instance of C20 at the diff of `x.c` and the added statement `++i;`. -/
theorem C20_added_lines_drop_increment_witness :
    "++".toList <+: "++i;".toList ∧ "++i;".toList ∉ addedLines incrementDiff :=
  have h : "++".toList <+: "++i;".toList := by decide
  ⟨h, (C20_added_lines_drop_increment incrementDiff "++i;".toList).2.1 h⟩

/-! ## Determinism of the template strategy: theorems -/

/-- The sum over the buckets does not depend on the order of the visit. -/
theorem consistentIndentation_perm (totalLines : Nat) {entries entries' : List (Nat × Nat)}
    (h : entries.Perm entries') :
    TemplatePatternStrategy.consistentIndentation totalLines entries
      = TemplatePatternStrategy.consistentIndentation totalLines entries' := by
  unfold TemplatePatternStrategy.consistentIndentation
  apply List.Perm.foldl_eq' h
  intro x _ y _ z
  by_cases hx : x.2 > totalLines / 10 <;> by_cases hy : y.2 > totalLines / 10 <;>
    simp [hx, hy]
  omega

theorem bump_keys (indent : Nat) (levels : List (Nat × Nat)) :
    ∀ k, k ∈ (TemplatePatternStrategy.bump indent levels).map Prod.fst ↔
      k = indent ∨ k ∈ levels.map Prod.fst := by
  induction levels with
  | nil => intro k; simp [TemplatePatternStrategy.bump]
  | cons e rest ih =>
    intro k
    obtain ⟨a, n⟩ := e
    unfold TemplatePatternStrategy.bump
    by_cases h : a = indent
    · simp only [h, if_true, List.map_cons, List.mem_cons]
      tauto
    · simp only [h, if_false, List.map_cons, List.mem_cons, ih]
      tauto

theorem bump_nodup (indent : Nat) (levels : List (Nat × Nat))
    (h : (levels.map Prod.fst).Nodup) :
    ((TemplatePatternStrategy.bump indent levels).map Prod.fst).Nodup := by
  induction levels with
  | nil => simp [TemplatePatternStrategy.bump]
  | cons e rest ih =>
    obtain ⟨a, n⟩ := e
    rw [List.map_cons, List.nodup_cons] at h
    unfold TemplatePatternStrategy.bump
    by_cases ha : a = indent
    · simp only [ha, if_true, List.map_cons, List.nodup_cons]
      exact ⟨ha ▸ h.1, h.2⟩
    · simp only [ha, if_false, List.map_cons, List.nodup_cons]
      refine ⟨?_, ih h.2⟩
      rw [bump_keys]
      rintro (h1 | h1)
      · exact ha h1
      · exact h.1 h1

/-- The list that holds `indentationLevels` is a map: no key occurs twice. -/
theorem indentationLevels_nodup (added : List Str) :
    ((TemplatePatternStrategy.indentationLevels added).map Prod.fst).Nodup := by
  unfold TemplatePatternStrategy.indentationLevels
  suffices h : ∀ (init : List (Nat × Nat)), (init.map Prod.fst).Nodup →
      ((added.foldl (fun levels line =>
        if strings.TrimSpace line ≠ [] then
          TemplatePatternStrategy.bump (TemplatePatternStrategy.indentOf line) levels
        else levels) init).map Prod.fst).Nodup from h [] (by simp)
  induction added with
  | nil => intro init h; simpa using h
  | cons line rest ih =>
    intro init h
    rw [List.foldl_cons]
    apply ih
    split_ifs
    · exact bump_nodup _ _ h
    · exact h

/-- C14: the verdict and the reason of the template strategy do not depend on
the order in which the loop over the map of indentation buckets visits its
entries: for every two orders of visit (each yielding every entry of the map
once) the sum consistentIndentation, the count suspiciousPatterns and the
result (detected, reason) of Detect are the same, and they are the ones of the
function Detect. The map has no duplicate key. The other six strategies
iterate over slices only. -/
theorem C14_detect_deterministic
    (visit visit' : List (Nat × Nat) → List (Nat × Nat))
    (hvisit : ∀ m, (visit m).Perm m) (hvisit' : ∀ m, (visit' m).Perm m)
    (s : TemplatePatternStrategy) (pair : CommitPair) (repoStats : RepositoryStats) :
    ((TemplatePatternStrategy.indentationLevels (addedLines pair.DiffContent)).map
      Prod.fst).Nodup ∧
    TemplatePatternStrategy.consistentIndentation (addedLines pair.DiffContent).length
        (visit (TemplatePatternStrategy.indentationLevels (addedLines pair.DiffContent)))
      = TemplatePatternStrategy.consistentIndentation (addedLines pair.DiffContent).length
        (visit' (TemplatePatternStrategy.indentationLevels (addedLines pair.DiffContent))) ∧
    TemplatePatternStrategy.suspiciousPatternsVisiting visit (addedLines pair.DiffContent)
      = TemplatePatternStrategy.suspiciousPatternsVisiting visit' (addedLines pair.DiffContent) ∧
    s.DetectVisiting visit pair repoStats = s.DetectVisiting visit' pair repoStats ∧
    s.DetectVisiting visit pair repoStats = s.Detect pair repoStats := by
  have key : ∀ (v : List (Nat × Nat) → List (Nat × Nat)), (∀ m, (v m).Perm m) →
      ∀ added : List Str,
        TemplatePatternStrategy.suspiciousPatternsVisiting v added
          = TemplatePatternStrategy.suspiciousPatterns added := by
    intro v hv added
    unfold TemplatePatternStrategy.suspiciousPatternsVisiting
      TemplatePatternStrategy.suspiciousPatterns
    simp only [consistentIndentation_perm added.length (hv _)]
  have keyD : ∀ (v : List (Nat × Nat) → List (Nat × Nat)), (∀ m, (v m).Perm m) →
      s.DetectVisiting v pair repoStats = s.Detect pair repoStats := by
    intro v hv
    unfold TemplatePatternStrategy.DetectVisiting TemplatePatternStrategy.Detect
      TemplatePatternStrategy.analyzeTemplatePatternsVisiting
      TemplatePatternStrategy.analyzeTemplatePatterns
    simp only [key v hv]
  refine ⟨indentationLevels_nodup _, ?_, ?_, ?_, keyD visit hvisit⟩
  · rw [consistentIndentation_perm _ (hvisit _), consistentIndentation_perm _ (hvisit' _)]
  · rw [key visit hvisit, key visit' hvisit']
  · rw [keyD visit hvisit, keyD visit' hvisit']

/-- The instance of C14 at the visit in insertion order and the visit in the
reverse order. -/
theorem C14_detect_deterministic_witness :
    (∀ m : List (Nat × Nat), (id m).Perm m) ∧
    (∀ m : List (Nat × Nat), (List.reverse m).Perm m) ∧
    ∀ (s : TemplatePatternStrategy) (pair : CommitPair) (repoStats : RepositoryStats),
      s.DetectVisiting id pair repoStats = s.DetectVisiting List.reverse pair repoStats :=
  ⟨fun m => List.Perm.refl m, fun m => List.reverse_perm m, fun s pair repoStats =>
    (C14_detect_deterministic id List.reverse (fun m => List.Perm.refl m)
      (fun m => List.reverse_perm m) s pair repoStats).2.2.2.1⟩

/-! ## The strategies never fail: theorems -/

theorem idiv_const (x y : Nat) (hy : y ≠ 0) : Checked.idiv x y = some (x / y) := by
  simp [Checked.idiv, hy]

theorem fdiv_of_ne (x y : ℚ) (hy : y ≠ 0) : Checked.fdiv x y = some (F64.div x y) := by
  simp [Checked.fdiv, hy]

theorem ofInt_pos {n : Int} (hn : 0 < n) : 0 < F64.ofInt n := by
  unfold F64.ofInt
  apply F64.rnd_pos
  exact_mod_cast hn

theorem secondsChecked_eq (d : Int) : SecondsChecked d = some (Seconds d) := by
  unfold SecondsChecked Seconds
  rw [fdiv_of_ne _ _ (by rw [lit_billion]; norm_num)]
  rfl

theorem isPerfectCamelCaseChecked_eq (word : Str) :
    isPerfectCamelCaseChecked word = some (isPerfectCamelCase word) := by
  unfold isPerfectCamelCaseChecked isPerfectCamelCase
  by_cases h : byteLen word < 2
  · simp [h]
  · cases word with
    | nil => simp [byteLen] at h
    | cons c cs =>
      simp only [h, if_false, Checked.byte0, Option.bind_eq_bind, Option.some_bind]
      split_ifs <;> rfl

theorem perfectCamelCaseCount_from (words : List Str) (init : Nat) :
    words.foldlM
      (fun count word =>
        if byteLen word > 4 then do
          let perfect ← isPerfectCamelCaseChecked word
          pure (if perfect then count + 1 else count)
        else (pure count : Option Nat))
      init
      = some (init + words.countP fun word => byteLen word > 4 && isPerfectCamelCase word) := by
  induction words generalizing init with
  | nil => simp
  | cons w ws ih =>
    rw [List.foldlM_cons, List.countP_cons]
    by_cases h4 : byteLen w > 4
    · rw [if_pos h4, isPerfectCamelCaseChecked_eq]
      by_cases hp : isPerfectCamelCase w = true
      · have := ih (init + 1)
        simp only [hp, h4, if_true, Option.pure_def, Option.bind_eq_bind, Option.some_bind,
          decide_True, Bool.and_self] at this ⊢
        rw [this]
        congr 1
        omega
      · have := ih init
        simp only [hp, h4, if_true, Option.pure_def, Option.bind_eq_bind, Option.some_bind,
          decide_True, Bool.true_and, Bool.false_eq_true, if_false, add_zero] at this ⊢
        rw [this]
    · rw [if_neg h4]
      have := ih init
      simp only [h4, Option.pure_def, Option.bind_eq_bind, Option.some_bind,
        decide_False, Bool.false_and] at this ⊢
      rw [this]
      simp

theorem differences_from (words1 words2 : List Str) (h : words1.length = words2.length)
    (init : Nat) :
    (List.range words1.length).foldlM
      (fun differences j => do
        let w1 ← Checked.index words1 j
        let w2 ← Checked.index words2 j
        (pure (if w1 ≠ w2 then differences + 1 else differences) : Option Nat))
      init
      = some (init + (List.zip words1 words2).countP fun w => w.1 ≠ w.2) := by
  induction words1 generalizing words2 init with
  | nil => simp
  | cons a as ih =>
    cases words2 with
    | nil => simp at h
    | cons b bs =>
      have hl : as.length = bs.length := by simpa using h
      have := ih bs hl (if a ≠ b then init + 1 else init)
      rw [List.length_cons, List.range_succ_eq_map, List.foldlM_cons]
      simp only [Checked.index, List.getElem?_cons_zero,
        Option.bind_eq_bind, Option.some_bind, Option.pure_def] at this ⊢
      rw [List.foldlM_map]
      simp only [List.getElem?_cons_succ]
      rw [this, List.zip_cons_cons, List.countP_cons]
      by_cases hab : a = b
      · simp [hab]
      · simp [hab]; omega

theorem similarLinesChecked_eq (a b : Str) :
    TemplatePatternStrategy.similarLinesChecked a b
      = some (TemplatePatternStrategy.similarLines a b) := by
  unfold TemplatePatternStrategy.similarLinesChecked TemplatePatternStrategy.similarLines
  simp only
  split_ifs with h1 h2
  · unfold TemplatePatternStrategy.differencesChecked
    rw [differences_from _ _ h2.1 0]
    simp
  · rfl
  · rfl

theorem repetitiveCount_from (added : List Str) (init : Nat) :
    (List.range (added.length - 1)).foldlM
      (fun count i => do
        let a ← Checked.index added i
        let b ← Checked.index added (i + 1)
        let similar ← TemplatePatternStrategy.similarLinesChecked a b
        (pure (if similar then count + 1 else count) : Option Nat))
      init
      = some (init + TemplatePatternStrategy.repetitiveCount added) := by
  induction added generalizing init with
  | nil => simp [TemplatePatternStrategy.repetitiveCount]
  | cons a rest ih =>
    cases rest with
    | nil => simp [TemplatePatternStrategy.repetitiveCount]
    | cons b rest2 =>
      have hlen : (a :: b :: rest2).length - 1 = rest2.length + 1 := by simp
      have := ih (if TemplatePatternStrategy.similarLines a b = true then init + 1 else init)
      rw [hlen, List.range_succ_eq_map, List.foldlM_cons]
      simp only [Checked.index, List.getElem?_cons_zero, List.getElem?_cons_succ,
        Option.bind_eq_bind, Option.some_bind, Option.pure_def, similarLinesChecked_eq,
        List.length_cons, Nat.add_sub_cancel] at this ⊢
      rw [List.foldlM_map]
      simp only [List.getElem?_cons_succ]
      rw [this, TemplatePatternStrategy.repetitiveCount]
      by_cases hs : TemplatePatternStrategy.similarLines a b = true
      · simp [hs]; omega
      · simp [hs]

theorem consistentIndentation_from (totalLines : Nat) (entries : List (Nat × Nat)) (init : Nat) :
    entries.foldlM
      (fun acc e => do
        let tenth ← Checked.idiv totalLines 10
        (pure (if e.2 > tenth then acc + e.2 else acc) : Option Nat))
      init
      = some (entries.foldl (fun acc e => if e.2 > totalLines / 10 then acc + e.2 else acc) init) := by
  induction entries generalizing init with
  | nil => simp
  | cons e es ih =>
    rw [List.foldlM_cons, List.foldl_cons, idiv_const _ _ (by norm_num)]
    simp only [Option.bind_eq_bind, Option.some_bind, Option.pure_def]
    have := ih (if e.2 > totalLines / 10 then init + e.2 else init)
    rw [idiv_const _ _ (by norm_num)] at this
    simpa using this

theorem commitMessage_checked (s : CommitMessageStrategy) (pair : CommitPair)
    (repoStats : RepositoryStats) :
    s.DetectChecked pair repoStats = some (s.Detect pair repoStats) := by
  unfold CommitMessageStrategy.DetectChecked CommitMessageStrategy.Detect
  simp only [Option.pure_def]
  split_ifs <;> rfl

theorem naming_suspicious_checked (added : List Str) :
    NamingPatternStrategy.suspiciousPatternsChecked added
      = some (NamingPatternStrategy.suspiciousPatterns added) := by
  unfold NamingPatternStrategy.suspiciousPatternsChecked
    NamingPatternStrategy.suspiciousPatterns
    NamingPatternStrategy.perfectCamelCaseCountChecked
  simp only [perfectCamelCaseCount_from]
  simp only [Option.bind_eq_bind, Option.some_bind, Option.pure_def, zero_add,
    idiv_const _ 20 (by norm_num)]
  by_cases hw : (strings.Fields (strings.Join '\n' added)).length > 10
  · have hne : F64.ofInt ((strings.Fields (strings.Join '\n' added)).length : Int) ≠ 0 :=
      ne_of_gt (ofInt_pos (by omega))
    rw [if_pos hw, fdiv_of_ne _ _ hne]
    simp only [Option.some_bind, hw, true_and]
    split_ifs <;> first | rfl | omega | simp_all
  · rw [if_neg hw]
    simp only [Option.some_bind, hw, false_and, if_false]
    split_ifs <;> first | rfl | omega | simp_all

theorem naming_checked (s : NamingPatternStrategy) (pair : CommitPair)
    (repoStats : RepositoryStats) :
    s.DetectChecked pair repoStats = some (s.Detect pair repoStats) := by
  unfold NamingPatternStrategy.DetectChecked NamingPatternStrategy.Detect
    NamingPatternStrategy.analyzeCodeContentChecked NamingPatternStrategy.analyzeCodeContent
  simp only [Option.pure_def, naming_suspicious_checked, Option.bind_eq_bind, Option.some_bind]
  split_ifs <;> rfl

theorem structural_checked (s : StructuralConsistencyStrategy) (pair : CommitPair)
    (repoStats : RepositoryStats) :
    s.DetectChecked pair repoStats = some (s.Detect pair repoStats) := by
  unfold StructuralConsistencyStrategy.DetectChecked StructuralConsistencyStrategy.Detect
    StructuralConsistencyStrategy.ratioOf
  by_cases he : (!s.enabled) = true
  · simp [he]
  by_cases hg : pair.Stats.Additions > 100 ∧ pair.Stats.Deletions > 100
  · have hd : F64.ofInt pair.Stats.Deletions ≠ 0 := ne_of_gt (ofInt_pos (by omega))
    have hr : F64.div (F64.ofInt pair.Stats.Additions) (F64.ofInt pair.Stats.Deletions) ≠ 0 :=
      ne_of_gt (ratioOf_pos hg.1 hg.2)
    rw [if_neg he, if_neg he, if_pos hg, if_pos hg, fdiv_of_ne _ _ hd]
    simp only [Option.bind_eq_bind, Option.some_bind, Option.pure_def]
    generalize F64.div (F64.ofInt pair.Stats.Additions) (F64.ofInt pair.Stats.Deletions) = r
      at hr ⊢
    by_cases hb : r ≥ F64.lit (9 / 10) ∧ r ≤ F64.lit (11 / 10)
    · rw [if_pos hb, if_pos hb]
    · rw [if_neg hb, if_neg hb]
      by_cases hn : isNearInteger r (F64.lit (1 / 20)) = true
      · rw [if_pos hn]
        simp only [hn, Bool.true_or, if_true, Option.some_bind]
      · rw [if_neg hn, fdiv_of_ne _ _ hr]
        simp only [Option.some_bind]
        simp only [Bool.not_eq_true] at hn
        simp only [hn, Bool.false_or]
        split_ifs <;> rfl
  · rw [if_neg he, if_neg he, if_neg hg, if_neg hg]
    rfl

theorem burst_checked (s : BurstPatternStrategy) (pair : CommitPair)
    (repoStats : RepositoryStats) :
    s.DetectChecked pair repoStats = some (s.Detect pair repoStats) := by
  unfold BurstPatternStrategy.DetectChecked BurstPatternStrategy.Detect
  simp only [secondsChecked_eq, Option.bind_eq_bind, Option.some_bind, Option.pure_def]
  split_ifs <;> rfl

theorem analyzeErrorHandling_checked (diffContent : Str) (additions : Int) :
    ErrorHandlingPatternStrategy.analyzeErrorHandlingChecked diffContent additions
      = some (ErrorHandlingPatternStrategy.analyzeErrorHandling diffContent additions) := by
  unfold ErrorHandlingPatternStrategy.analyzeErrorHandlingChecked
    ErrorHandlingPatternStrategy.analyzeErrorHandling
  dsimp only
  generalize ErrorHandlingPatternStrategy.errorHandlingPatterns
    (strings.ToLower (strings.Join '\n' (addedLines diffContent))) = observed
  generalize addedLines diffContent = added
  by_cases h20 : added.length < 20
  · simp only [h20, if_true, Option.pure_def]
  · rw [if_neg h20, if_neg h20, idiv_const _ 30 (by norm_num), idiv_const _ 5 (by norm_num)]
    simp only [Option.bind_eq_bind, Option.some_bind, Option.pure_def]
    by_cases h1 : additions > 100 ∧ observed < added.length / 30
    · rw [if_pos h1, if_pos h1]
    · rw [if_neg h1, if_neg h1]
      by_cases h2 : observed > added.length / 5
      · rw [if_pos h2, if_pos h2]
      · rw [if_neg h2, if_neg h2]

theorem errorHandling_checked (s : ErrorHandlingPatternStrategy) (pair : CommitPair)
    (repoStats : RepositoryStats) :
    s.DetectChecked pair repoStats = some (s.Detect pair repoStats) := by
  unfold ErrorHandlingPatternStrategy.DetectChecked ErrorHandlingPatternStrategy.Detect
  simp only [analyzeErrorHandling_checked, Option.pure_def]
  split_ifs <;> rfl

theorem template_suspicious_checked (added : List Str) :
    TemplatePatternStrategy.suspiciousPatternsChecked added
      = some (TemplatePatternStrategy.suspiciousPatterns added) := by
  unfold TemplatePatternStrategy.suspiciousPatternsChecked
    TemplatePatternStrategy.suspiciousPatterns
    TemplatePatternStrategy.repetitiveCountChecked
    TemplatePatternStrategy.consistentIndentationChecked
    TemplatePatternStrategy.consistentIndentation
  simp only [repetitiveCount_from, consistentIndentation_from]
  simp only [Option.bind_eq_bind, Option.some_bind, Option.pure_def, zero_add,
    idiv_const _ 8 (by norm_num)]
  by_cases hw : added.length > 20
  · have hne : F64.ofInt (added.length : Int) ≠ 0 := ne_of_gt (ofInt_pos (by omega))
    rw [if_pos hw, fdiv_of_ne _ _ hne]
    simp only [Option.some_bind, hw, true_and]
  · rw [if_neg hw]
    simp only [Option.some_bind, hw, false_and, if_false]

theorem template_checked (s : TemplatePatternStrategy) (pair : CommitPair)
    (repoStats : RepositoryStats) :
    s.DetectChecked pair repoStats = some (s.Detect pair repoStats) := by
  unfold TemplatePatternStrategy.DetectChecked TemplatePatternStrategy.Detect
    TemplatePatternStrategy.analyzeTemplatePatternsChecked
    TemplatePatternStrategy.analyzeTemplatePatterns
  simp only [Option.pure_def, template_suspicious_checked, Option.bind_eq_bind,
    Option.some_bind]
  split_ifs <;> simp_all

theorem fileExtension_checked (s : FileExtensionPatternStrategy) (pair : CommitPair)
    (repoStats : RepositoryStats) :
    s.DetectChecked pair repoStats = some (s.Detect pair repoStats) := by
  unfold FileExtensionPatternStrategy.DetectChecked FileExtensionPatternStrategy.Detect
    FileExtensionPatternStrategy.avgLinesPerFile
  by_cases he : (!s.enabled) = true
  · simp [he]
  by_cases hg : pair.Stats.FilesChanged > 10 ∧ pair.Stats.Additions > 1000
  · have hd : F64.ofInt pair.Stats.FilesChanged ≠ 0 := ne_of_gt (ofInt_pos (by omega))
    rw [if_neg he, if_neg he, if_pos hg, if_pos hg, fdiv_of_ne _ _ hd]
    simp only [Option.bind_eq_bind, Option.some_bind, Option.pure_def]
    split_ifs <;> rfl
  · rw [if_neg he, if_neg he, if_neg hg, if_neg hg]
    rfl

/-- C15: the strategies never fail. For every commit pair (any message, any
diff text, any additions, deletions, filesChanged and timeDelta) and every
value of the seven strategies, Detect with every division and every index
expression checked returns a result, the one of Detect: no quotient is formed
with a zero divisor (additions/deletions, 1/ratio, additions/filesChanged, the
shares of the naming and template analyses) and no index is out of range (the
adjacent lines and their words in the template analysis, the first byte in
isPerfectCamelCase). -/
theorem C15_strategies_never_fail (pair : CommitPair) (repoStats : RepositoryStats)
    (s1 : CommitMessageStrategy) (s2 : NamingPatternStrategy)
    (s3 : StructuralConsistencyStrategy) (s4 : BurstPatternStrategy)
    (s5 : ErrorHandlingPatternStrategy) (s6 : TemplatePatternStrategy)
    (s7 : FileExtensionPatternStrategy) :
    s1.DetectChecked pair repoStats = some (s1.Detect pair repoStats) ∧
    s2.DetectChecked pair repoStats = some (s2.Detect pair repoStats) ∧
    s3.DetectChecked pair repoStats = some (s3.Detect pair repoStats) ∧
    s4.DetectChecked pair repoStats = some (s4.Detect pair repoStats) ∧
    s5.DetectChecked pair repoStats = some (s5.Detect pair repoStats) ∧
    s6.DetectChecked pair repoStats = some (s6.Detect pair repoStats) ∧
    s7.DetectChecked pair repoStats = some (s7.Detect pair repoStats) ∧
    (∀ word : Str, isPerfectCamelCaseChecked word = some (isPerfectCamelCase word)) ∧
    (∀ a b : Str, TemplatePatternStrategy.similarLinesChecked a b
      = some (TemplatePatternStrategy.similarLines a b)) :=
  ⟨commitMessage_checked s1 pair repoStats, naming_checked s2 pair repoStats,
    structural_checked s3 pair repoStats, burst_checked s4 pair repoStats,
    errorHandling_checked s5 pair repoStats, template_checked s6 pair repoStats,
    fileExtension_checked s7 pair repoStats, isPerfectCamelCaseChecked_eq,
    similarLinesChecked_eq⟩

/-! ## Detection engine: theorems -/

/-- The state of an evaluation after the strategies `l`, from the state `st`. -/
theorem engine_run_from (pair : CommitPair) (repoStats : RepositoryStats) (l : List Strategy)
    (st : Evaluation) :
    (l.foldl (Engine.step pair repoStats) st).invoked = st.invoked ++ l.map Strategy.Name ∧
    (l.foldl (Engine.step pair repoStats) st).triggered
      = st.triggered ++ (l.filter fun s => (s.Detect pair repoStats).1).map
          fun s => (s.Name, (s.Detect pair repoStats).2) := by
  induction l generalizing st with
  | nil => simp
  | cons s rest ih =>
    rw [List.foldl_cons]
    obtain ⟨h1, h2⟩ := ih (Engine.step pair repoStats st s)
    rw [h1, h2]
    constructor
    · simp [Engine.step]
    · by_cases hd : (s.Detect pair repoStats).1 = true
      · simp [Engine.step, hd, List.filter_cons]
      · simp [Engine.step, hd, List.filter_cons]

theorem engine_triggered (e : Engine) (pair : CommitPair) (repoStats : RepositoryStats) :
    (e.Evaluate pair repoStats).triggeredStrategies
      = (e.strategies.filter fun s => (s.Detect pair repoStats).1).map
          fun s => (s.Name, (s.Detect pair repoStats).2) := by
  have := (engine_run_from pair repoStats e.strategies { invoked := [], triggered := [] }).2
  simpa [Engine.Evaluate, Engine.run] using this

theorem twoSignals_detections (maxPerHour : Int) (repoStats : RepositoryStats) :
    (sevenStrategies maxPerHour).strategies.map (fun s => (s.Detect twoSignalsPair repoStats).1)
      = [true, true, false, false, false, false, false] := by
  have h1 : (NewCommitMessageStrategy.Detect twoSignalsPair repoStats).1 = true := by
    show (NewCommitMessageStrategy.Detect twoSignalsPair { counters := [] }).1 = true
    decide
  have h2 : (NewNamingPatternStrategy.Detect twoSignalsPair repoStats).1 = true := by
    show (NewNamingPatternStrategy.Detect twoSignalsPair { counters := [] }).1 = true
    decide
  have h3 : (NewStructuralConsistencyStrategy.Detect twoSignalsPair repoStats).1 = false := by
    simp [StructuralConsistencyStrategy.Detect, twoSignalsPair, mkPair]
  have h4 : ((NewBurstPatternStrategy maxPerHour).Detect twoSignalsPair repoStats).1 = false := by
    simp only [BurstPatternStrategy.Detect, twoSignalsPair, mkPair]
    split_ifs with ha hb
    · rfl
    · exact absurd hb.2 (by norm_num)
    · rfl
  have h5 : (NewErrorHandlingPatternStrategy.Detect twoSignalsPair repoStats).1 = false := by
    show (NewErrorHandlingPatternStrategy.Detect twoSignalsPair { counters := [] }).1 = false
    decide
  have h6 : (NewTemplatePatternStrategy.Detect twoSignalsPair repoStats).1 = false := by
    show (NewTemplatePatternStrategy.Detect twoSignalsPair { counters := [] }).1 = false
    decide
  have h7 : (NewFileExtensionPatternStrategy.Detect twoSignalsPair repoStats).1 = false := by
    simp [FileExtensionPatternStrategy.Detect, twoSignalsPair, mkPair]
  simp only [sevenStrategies, List.map_cons, List.map_nil, CommitMessageStrategy.toStrategy,
    NamingPatternStrategy.toStrategy, StructuralConsistencyStrategy.toStrategy,
    BurstPatternStrategy.toStrategy, ErrorHandlingPatternStrategy.toStrategy,
    TemplatePatternStrategy.toStrategy, FileExtensionPatternStrategy.toStrategy,
    h1, h2, h3, h4, h5, h6, h7]

/-- C19: engine aggregation. For every engine, commit pair and repository
statistics the evaluation invokes the registered strategies once each, in
registration order; the verdict is flagged iff at least one strategy detects;
the score is the number of triggered strategies divided by the number of
registered ones; the reason list holds exactly the (name, reason) pairs of the
triggered strategies, in registration order; and with seven strategies of
which exactly two detect, the score is 2/7 and the reason list has length 2. -/
theorem C19_engine_aggregation (e : Engine) (pair : CommitPair) (repoStats : RepositoryStats) :
    (e.run pair repoStats).invoked = e.strategies.map Strategy.Name ∧
    ((e.Evaluate pair repoStats).flagged = true ↔
      ∃ s ∈ e.strategies, (s.Detect pair repoStats).1 = true) ∧
    (e.Evaluate pair repoStats).score
      = ((e.strategies.countP fun s => (s.Detect pair repoStats).1 : Nat) : ℚ)
          / (e.strategies.length : ℚ) ∧
    (e.Evaluate pair repoStats).triggeredStrategies
      = (e.strategies.filter fun s => (s.Detect pair repoStats).1).map
          (fun s => (s.Name, (s.Detect pair repoStats).2)) ∧
    (e.strategies.length = 7 →
      (e.strategies.countP fun s => (s.Detect pair repoStats).1) = 2 →
      (e.Evaluate pair repoStats).score = 2 / 7 ∧
      (e.Evaluate pair repoStats).triggeredStrategies.length = 2) := by
  have hrun := engine_run_from pair repoStats e.strategies { invoked := [], triggered := [] }
  have htrig := engine_triggered e pair repoStats
  have hlen : (e.Evaluate pair repoStats).triggeredStrategies.length
      = e.strategies.countP fun s => (s.Detect pair repoStats).1 := by
    rw [htrig, List.length_map, List.countP_eq_length_filter]
  have hscore : (e.Evaluate pair repoStats).score
      = ((e.Evaluate pair repoStats).triggeredStrategies.length : ℚ)
          / (e.strategies.length : ℚ) := rfl
  refine ⟨by simpa [Engine.run] using hrun.1, ?_, ?_, htrig, ?_⟩
  · have hfl : (e.Evaluate pair repoStats).flagged
        = !(e.Evaluate pair repoStats).triggeredStrategies.isEmpty := rfl
    rw [hfl, htrig]
    simp [List.isEmpty_iff, List.filter_eq_nil_iff]
  · rw [hscore, hlen]
  · intro h7 h2
    rw [hscore, hlen, h7, h2]
    norm_num

/-- The instance of C19 at the seven strategies of the source and a commit
that triggers the commit-message and the naming strategy only. -/
theorem C19_engine_aggregation_witness :
    (sevenStrategies 10).strategies.length = 7 ∧
    ((sevenStrategies 10).strategies.countP
      fun s => (s.Detect twoSignalsPair { counters := [] }).1) = 2 ∧
    ((sevenStrategies 10).Evaluate twoSignalsPair { counters := [] }).score = 2 / 7 ∧
    ((sevenStrategies 10).Evaluate twoSignalsPair { counters := [] }).triggeredStrategies.length
      = 2 :=
  have hcount : ((sevenStrategies 10).strategies.countP
      fun s => (s.Detect twoSignalsPair { counters := [] }).1) = 2 := by
    have h := twoSignals_detections 10 { counters := [] }
    have hmap : ((sevenStrategies 10).strategies.countP
        fun s => (s.Detect twoSignalsPair { counters := [] }).1)
        = ((sevenStrategies 10).strategies.map
            fun s => (s.Detect twoSignalsPair { counters := [] }).1).countP fun b => b := by
      rw [List.countP_map]
      rfl
    rw [hmap, h]
    rfl
  ⟨rfl, hcount,
    (C19_engine_aggregation (sevenStrategies 10) twoSignalsPair { counters := [] }).2.2.2.2
      rfl hcount⟩

/-! ## Structured text extraction: theorems -/

/-- One pass of `Each` that appends the trimmed texts satisfying `P`. -/
theorem collect_from (P : Str → Prop) [DecidablePred P] (l : List Str) (init : List Str) :
    l.foldl
      (fun texts s =>
        let text := strings.TrimSpace s
        if P text then texts ++ [text] else texts)
      init
      = init ++ (l.map strings.TrimSpace).filter fun text => decide (P text) := by
  induction l generalizing init with
  | nil => simp
  | cons s rest ih =>
    rw [List.foldl_cons, ih, List.map_cons, List.filter_cons]
    by_cases h : P (strings.TrimSpace s)
    · simp [h]
    · simp [h]

/-- C18 as the spec states it fails: on the page paragraphThenHeading the
paragraph element precedes the heading element in document order and both
texts are included, yet the heading text comes first in the result. -/
theorem C18_document_order_counterexample :
    paragraphThenHeading.elements
      = [ ("html".toList, "This paragraph comes first on the page.Title".toList),
          ("body".toList, "This paragraph comes first on the page.Title".toList),
          ("p".toList, "This paragraph comes first on the page.".toList),
          ("h1".toList, "Title".toList) ] ∧
    byteLen (strings.TrimSpace "This paragraph comes first on the page.".toList) > 20 ∧
    strings.TrimSpace "Title".toList ≠ [] ∧
    extractStructuredText paragraphThenHeading
      = "Title".toList ++ '\n' :: "This paragraph comes first on the page.".toList ∧
    extractStructuredText paragraphThenHeading
      ≠ "This paragraph comes first on the page.".toList ++ '\n' :: "Title".toList := by
  decide

/-- C18, amended: for every document the structured text extraction is the
trimmed non-empty texts of all headings, followed by the trimmed texts longer
than 20 bytes of all paragraphs, followed by the trimmed non-empty texts of all
list items, joined by newlines; each of the three selections lists its elements
in document order. -/
theorem C18_extract_by_kind_then_document_order (doc : goquery.Node) :
    extractStructuredText doc
      = strings.Join '\n'
          ((((goquery.Find doc headingTags).map strings.TrimSpace).filter
              fun text => decide (text ≠ []))
            ++ (((goquery.Find doc ["p".toList]).map strings.TrimSpace).filter
              fun text => decide (byteLen text > 20))
            ++ (((goquery.Find doc ["li".toList]).map strings.TrimSpace).filter
              fun text => decide (text ≠ []))) ∧
    ∀ tags : List Str, (goquery.Find doc tags).Sublist (doc.elements.map fun e => e.2) := by
  constructor
  · unfold extractStructuredText
    simp only [collect_from (fun text => text ≠ []), collect_from (fun text => byteLen text > 20),
      List.nil_append]
  · intro tags
    unfold goquery.Find
    exact (List.filter_sublist _).map _

/-! ## Properties of the UTF-8 decoding -/

theorem toNat_ofNat_small (n : Nat) (h : n < 0xD800) : (Char.ofNat n).toNat = n := by
  unfold Char.ofNat
  have hv : n.isValidChar := Or.inl h
  simp only [hv, dite_true, Char.ofNatAux, Char.toNat, UInt32.toNat, BitVec.toNat_ofNatLt]

theorem char_valid (c : Char) : c.toNat < 0xD800 ∨ (0xDFFF < c.toNat ∧ c.toNat < 0x110000) := by
  have := c.valid
  simpa [Char.toNat, Nat.isValidChar, UInt32.isValidChar] using this

theorem between_iff (lo hi : Nat) (b : Char) :
    utf8.between lo hi b = true ↔ lo ≤ b.toNat ∧ b.toNat ≤ hi := by
  simp [utf8.between]

/-- Decoding the encoding of a code point gives the code point back, whatever
follows. -/
theorem decode_encode (r : Char) (rest : Str) :
    utf8.DecodeRune (utf8.EncodeRune r ++ rest) = (r, (utf8.EncodeRune r).length) := by
  have hv := char_valid r
  unfold utf8.EncodeRune
  by_cases h1 : r.toNat < 0x80
  · simp only [h1, if_true, List.singleton_append, utf8.DecodeRune, List.length_singleton]
  · rw [if_neg h1]
    by_cases h2 : r.toNat < 0x800
    · rw [if_pos h2]
      have e0 := toNat_ofNat_small (0xC0 + r.toNat / 64) (by omega)
      have e1 := toNat_ofNat_small (0x80 + r.toNat % 64) (by omega)
      have c0 : ¬ (0xC0 + r.toNat / 64 < 0x80) := by omega
      have c1 : 0xC2 ≤ 0xC0 + r.toNat / 64 ∧ 0xC0 + r.toNat / 64 ≤ 0xDF := by omega
      have c2 : 0x80 ≤ 0x80 + r.toNat % 64 ∧ 0x80 + r.toNat % 64 ≤ 0xBF := by omega
      have c3 : (0xC0 + r.toNat / 64 - 0xC0) * 64 + (0x80 + r.toNat % 64 - 0x80) = r.toNat := by
        omega
      simp only [List.cons_append, List.nil_append, utf8.DecodeRune, e0, e1, c0, if_false,
        (between_iff _ _ _).mpr (e0 ▸ c1), (between_iff _ _ _).mpr (e1 ▸ c2), if_true, c3,
        Char.ofNat_toNat, List.length_cons, List.length_nil]
    · rw [if_neg h2]
      by_cases h3 : r.toNat < 0x10000
      · rw [if_pos h3]
        have e0 := toNat_ofNat_small (0xE0 + r.toNat / 4096) (by omega)
        have e1 := toNat_ofNat_small (0x80 + r.toNat / 64 % 64) (by omega)
        have e2 := toNat_ofNat_small (0x80 + r.toNat % 64) (by omega)
        have c0 : ¬ (0xE0 + r.toNat / 4096 < 0x80) := by omega
        have c1 : ¬ (0xC2 ≤ 0xE0 + r.toNat / 4096 ∧ 0xE0 + r.toNat / 4096 ≤ 0xDF) := by omega
        have c2 : 0xE0 ≤ 0xE0 + r.toNat / 4096 ∧ 0xE0 + r.toNat / 4096 ≤ 0xEF := by omega
        have c3 : (if 0xE0 + r.toNat / 4096 = 0xE0 then 0xA0 else 0x80) ≤ 0x80 + r.toNat / 64 % 64 ∧
            0x80 + r.toNat / 64 % 64 ≤ (if 0xE0 + r.toNat / 4096 = 0xED then 0x9F else 0xBF) := by
          split_ifs <;> omega
        have c4 : 0x80 ≤ 0x80 + r.toNat % 64 ∧ 0x80 + r.toNat % 64 ≤ 0xBF := by omega
        have c5 : (0xE0 + r.toNat / 4096 - 0xE0) * 4096 + (0x80 + r.toNat / 64 % 64 - 0x80) * 64
            + (0x80 + r.toNat % 64 - 0x80) = r.toNat := by omega
        have b1 : utf8.between 0xC2 0xDF (Char.ofNat (0xE0 + r.toNat / 4096)) = false := by
          rw [Bool.eq_false_iff, ne_eq, between_iff, e0]; exact c1
        have b2 : utf8.between 0xE0 0xEF (Char.ofNat (0xE0 + r.toNat / 4096)) = true := by
          rw [between_iff, e0]; exact c2
        have b3 : utf8.between (if 0xE0 + r.toNat / 4096 = 0xE0 then 0xA0 else 0x80)
            (if 0xE0 + r.toNat / 4096 = 0xED then 0x9F else 0xBF)
            (Char.ofNat (0x80 + r.toNat / 64 % 64)) = true := by
          rw [between_iff, e1]; exact c3
        have b4 : utf8.between 0x80 0xBF (Char.ofNat (0x80 + r.toNat % 64)) = true := by
          rw [between_iff, e2]; exact c4
        simp only [List.cons_append, List.nil_append, utf8.DecodeRune, e0, e1, e2, c0, if_false,
          b1, b2, b3, b4, Bool.false_eq_true, Bool.and_self, if_true, c5, Char.ofNat_toNat,
          List.length_cons, List.length_nil]
      · rw [if_neg h3]
        have e0 := toNat_ofNat_small (0xF0 + r.toNat / 262144) (by omega)
        have e1 := toNat_ofNat_small (0x80 + r.toNat / 4096 % 64) (by omega)
        have e2 := toNat_ofNat_small (0x80 + r.toNat / 64 % 64) (by omega)
        have e3 := toNat_ofNat_small (0x80 + r.toNat % 64) (by omega)
        have c0 : ¬ (0xF0 + r.toNat / 262144 < 0x80) := by omega
        have c1 : ¬ (0xC2 ≤ 0xF0 + r.toNat / 262144 ∧ 0xF0 + r.toNat / 262144 ≤ 0xDF) := by omega
        have c1b : ¬ (0xE0 ≤ 0xF0 + r.toNat / 262144 ∧ 0xF0 + r.toNat / 262144 ≤ 0xEF) := by omega
        have c2 : 0xF0 ≤ 0xF0 + r.toNat / 262144 ∧ 0xF0 + r.toNat / 262144 ≤ 0xF4 := by omega
        have c3 : (if 0xF0 + r.toNat / 262144 = 0xF0 then 0x90 else 0x80)
              ≤ 0x80 + r.toNat / 4096 % 64 ∧
            0x80 + r.toNat / 4096 % 64
              ≤ (if 0xF0 + r.toNat / 262144 = 0xF4 then 0x8F else 0xBF) := by
          split_ifs <;> omega
        have c4 : 0x80 ≤ 0x80 + r.toNat / 64 % 64 ∧ 0x80 + r.toNat / 64 % 64 ≤ 0xBF := by omega
        have c4b : 0x80 ≤ 0x80 + r.toNat % 64 ∧ 0x80 + r.toNat % 64 ≤ 0xBF := by omega
        have c5 : (0xF0 + r.toNat / 262144 - 0xF0) * 262144
            + (0x80 + r.toNat / 4096 % 64 - 0x80) * 4096
            + (0x80 + r.toNat / 64 % 64 - 0x80) * 64
            + (0x80 + r.toNat % 64 - 0x80) = r.toNat := by omega
        have b1 : utf8.between 0xC2 0xDF (Char.ofNat (0xF0 + r.toNat / 262144)) = false := by
          rw [Bool.eq_false_iff, ne_eq, between_iff, e0]; exact c1
        have b1b : utf8.between 0xE0 0xEF (Char.ofNat (0xF0 + r.toNat / 262144)) = false := by
          rw [Bool.eq_false_iff, ne_eq, between_iff, e0]; exact c1b
        have b2 : utf8.between 0xF0 0xF4 (Char.ofNat (0xF0 + r.toNat / 262144)) = true := by
          rw [between_iff, e0]; exact c2
        have b3 : utf8.between (if 0xF0 + r.toNat / 262144 = 0xF0 then 0x90 else 0x80)
            (if 0xF0 + r.toNat / 262144 = 0xF4 then 0x8F else 0xBF)
            (Char.ofNat (0x80 + r.toNat / 4096 % 64)) = true := by
          rw [between_iff, e1]; exact c3
        have b4 : utf8.between 0x80 0xBF (Char.ofNat (0x80 + r.toNat / 64 % 64)) = true := by
          rw [between_iff, e2]; exact c4
        have b5 : utf8.between 0x80 0xBF (Char.ofNat (0x80 + r.toNat % 64)) = true := by
          rw [between_iff, e3]; exact c4b
        simp only [List.cons_append, List.nil_append, utf8.DecodeRune, e0, e1, e2, e3, c0,
          if_false, b1, b1b, b2, b3, b4, b5, Bool.false_eq_true, Bool.and_self, if_true, c5,
          Char.ofNat_toNat, List.length_cons, List.length_nil]
/-- A byte that is no continuation byte fails every test for one. -/
theorem between_clean (lo hi : Nat) (c : Char) (hlo : 0x80 ≤ lo) (hhi : hi ≤ 0xBF)
    (hc : ¬ (0x80 ≤ c.toNat ∧ c.toNat ≤ 0xBF)) : utf8.between lo hi c = false := by
  rw [Bool.eq_false_iff, ne_eq, between_iff]
  omega

/-- The decoding of the first code point does not look past a byte that is no
continuation byte. -/
theorem decode_append_clean (b0 : Char) (rest : Str) (c : Char) (s : Str)
    (hc : ¬ (0x80 ≤ c.toNat ∧ c.toNat ≤ 0xBF)) :
    utf8.DecodeRune (b0 :: rest ++ c :: s) = utf8.DecodeRune (b0 :: rest) := by
  have k1 : ∀ lo hi, 0x80 ≤ lo → hi ≤ 0xBF → utf8.between lo hi c = false :=
    fun lo hi h1 h2 => between_clean lo hi c h1 h2 hc
  have k2 := k1 0x80 0xBF (by norm_num) (by norm_num)
  have k3 : utf8.between (if b0.toNat = 0xE0 then 0xA0 else 0x80)
      (if b0.toNat = 0xED then 0x9F else 0xBF) c = false :=
    k1 _ _ (by split_ifs <;> norm_num) (by split_ifs <;> norm_num)
  have k4 : utf8.between (if b0.toNat = 0xF0 then 0x90 else 0x80)
      (if b0.toNat = 0xF4 then 0x8F else 0xBF) c = false :=
    k1 _ _ (by split_ifs <;> norm_num) (by split_ifs <;> norm_num)
  rcases rest with _ | ⟨b1, _ | ⟨b2, _ | ⟨b3, rest⟩⟩⟩ <;>
    rcases s with _ | ⟨c2, _ | ⟨c3, s⟩⟩ <;>
    simp only [List.cons_append, List.nil_append, utf8.DecodeRune, k2, k3, k4,
      Bool.false_eq_true, if_false, Bool.and_false, Bool.false_and, ite_self]
/-- A code point decoded from a non-empty string covers at least one byte and
no more than the string has. -/
theorem decode_width (b0 : Char) (rest : Str) :
    1 ≤ (utf8.DecodeRune (b0 :: rest)).2 ∧
      (utf8.DecodeRune (b0 :: rest)).2 ≤ (b0 :: rest).length := by
  rcases rest with _ | ⟨b1, _ | ⟨b2, _ | ⟨b3, rest⟩⟩⟩ <;>
    simp only [utf8.DecodeRune] <;> split_ifs <;> simp

/-- The decoding of a code point that is not an invalid byte does not depend
on what follows the string. -/
theorem decode_append_valid (b0 : Char) (rest t : Str)
    (h : utf8.DecodeRune (b0 :: rest) ≠ (utf8.RuneError, 1)) :
    utf8.DecodeRune (b0 :: rest ++ t) = utf8.DecodeRune (b0 :: rest) := by
  by_cases h0 : b0.toNat < 0x80
  · simp only [List.cons_append, utf8.DecodeRune, h0, if_true]
  by_cases h1 : utf8.between 0xC2 0xDF b0 = true
  · rcases rest with _ | ⟨b1, rest⟩
    · exact absurd (by simp only [utf8.DecodeRune, h0, h1, if_false, if_true, Bool.false_eq_true]) h
    · simp only [List.cons_append, utf8.DecodeRune, h0, h1, if_false, if_true, Bool.false_eq_true]
  by_cases h2 : utf8.between 0xE0 0xEF b0 = true
  · rcases rest with _ | ⟨b1, _ | ⟨b2, rest⟩⟩
    · exact absurd (by simp only [utf8.DecodeRune, h0, h1, h2, if_false, if_true, Bool.false_eq_true]) h
    · exact absurd (by simp only [utf8.DecodeRune, h0, h1, h2, if_false, if_true, Bool.false_eq_true]) h
    · simp only [List.cons_append, utf8.DecodeRune, h0, h1, h2, if_false, if_true, Bool.false_eq_true]
  by_cases h3 : utf8.between 0xF0 0xF4 b0 = true
  · rcases rest with _ | ⟨b1, _ | ⟨b2, _ | ⟨b3, rest⟩⟩⟩
    · exact absurd (by simp only [utf8.DecodeRune, h0, h1, h2, h3, if_false, if_true, Bool.false_eq_true]) h
    · exact absurd (by simp only [utf8.DecodeRune, h0, h1, h2, h3, if_false, if_true, Bool.false_eq_true]) h
    · exact absurd (by simp only [utf8.DecodeRune, h0, h1, h2, h3, if_false, if_true, Bool.false_eq_true]) h
    · simp only [List.cons_append, utf8.DecodeRune, h0, h1, h2, h3, if_false, if_true, Bool.false_eq_true]
  · exact absurd (by simp only [utf8.DecodeRune, h0, h1, h2, h3, if_false, Bool.false_eq_true]) h

theorem unitsFrom_drop (k : Nat) (s : Str) :
    utf8.unitsFrom k s = utf8.unitsFrom 0 (s.drop k) := by
  induction s generalizing k with
  | nil => cases k <;> simp [utf8.unitsFrom]
  | cons b bs ih =>
    cases k with
    | zero => simp
    | succ k => simp only [utf8.unitsFrom, List.drop_succ_cons]; exact ih k

/-- The decoding of a non-empty string: its first code point with the bytes it
covers, then the decoding of the rest. -/
theorem units_cons (b0 : Char) (rest : Str) :
    utf8.units (b0 :: rest)
      = ((utf8.DecodeRune (b0 :: rest)).1,
          (b0 :: rest).take (utf8.DecodeRune (b0 :: rest)).2)
        :: utf8.units ((b0 :: rest).drop (utf8.DecodeRune (b0 :: rest)).2) := by
  have hw := (decode_width b0 rest).1
  obtain ⟨k, hk⟩ : ∃ k, (utf8.DecodeRune (b0 :: rest)).2 = k + 1 :=
    ⟨(utf8.DecodeRune (b0 :: rest)).2 - 1, by omega⟩
  unfold utf8.units
  rw [utf8.unitsFrom, unitsFrom_drop, hk]
  simp

theorem units_nil : utf8.units [] = [] := rfl

/-- The decoding of a string followed by a string that does not start with a
continuation byte is the decoding of the one followed by the decoding of the
other. -/
theorem units_append_clean (a s : Str)
    (hs : ∀ c ∈ s.head?, ¬ (0x80 ≤ c.toNat ∧ c.toNat ≤ 0xBF)) :
    utf8.units (a ++ s) = utf8.units a ++ utf8.units s := by
  obtain ⟨n, hn⟩ : ∃ n, a.length = n := ⟨_, rfl⟩
  induction n using Nat.strong_induction_on generalizing a with
  | _ n ih =>
    cases a with
    | nil => simp [units_nil]
    | cons b0 rest =>
      have hdec : utf8.DecodeRune (b0 :: rest ++ s) = utf8.DecodeRune (b0 :: rest) := by
        cases s with
        | nil => simp
        | cons c s => exact decode_append_clean b0 rest c s (hs c (by simp))
      obtain ⟨hw1, hw2⟩ := decode_width b0 rest
      have e : b0 :: rest ++ s = b0 :: (rest ++ s) := rfl
      rw [e, units_cons b0 (rest ++ s), ← e, hdec, units_cons b0 rest,
        List.take_append_of_le_length hw2, List.drop_append_of_le_length hw2,
        ih _ (by rw [← hn, List.length_drop]; omega) _ rfl]
      rfl

/-- A well-formed non-empty string does not start with a continuation byte. -/
theorem valid_head_clean (b0 : Char) (rest : Str) (h : utf8.ValidString (b0 :: rest) = true) :
    ¬ (0x80 ≤ b0.toNat ∧ b0.toNat ≤ 0xBF) := by
  intro hb
  obtain ⟨hw1, hw2⟩ := decode_width b0 rest
  have hd : utf8.DecodeRune (b0 :: rest) = (utf8.RuneError, 1) := by
    have c0 : ¬ b0.toNat < 0x80 := by omega
    have c1 : utf8.between 0xC2 0xDF b0 = false := by
      rw [Bool.eq_false_iff, ne_eq, between_iff]; omega
    have c2 : utf8.between 0xE0 0xEF b0 = false := by
      rw [Bool.eq_false_iff, ne_eq, between_iff]; omega
    have c3 : utf8.between 0xF0 0xF4 b0 = false := by
      rw [Bool.eq_false_iff, ne_eq, between_iff]; omega
    simp only [utf8.DecodeRune, c0, c1, c2, c3, if_false, Bool.false_eq_true]
  unfold utf8.ValidString at h
  rw [units_cons, hd] at h
  simp at h

/-- The decoding of a well-formed string followed by any string is the
decoding of the one followed by the decoding of the other. -/
theorem units_append_valid (m b : Str) (hm : utf8.ValidString m = true) :
    utf8.units (m ++ b) = utf8.units m ++ utf8.units b := by
  obtain ⟨n, hn⟩ : ∃ n, m.length = n := ⟨_, rfl⟩
  induction n using Nat.strong_induction_on generalizing m with
  | _ n ih =>
    cases m with
    | nil => simp [units_nil]
    | cons b0 rest =>
      obtain ⟨hw1, hw2⟩ := decode_width b0 rest
      have hv := hm
      unfold utf8.ValidString at hv
      rw [units_cons, List.all_cons, Bool.and_eq_true] at hv
      obtain ⟨hv1, hv2⟩ := hv
      have hne : utf8.DecodeRune (b0 :: rest) ≠ (utf8.RuneError, 1) := by
        intro hd
        rw [hd] at hv1
        simp at hv1
      have hdec := decode_append_valid b0 rest b hne
      have e : b0 :: rest ++ b = b0 :: (rest ++ b) := rfl
      rw [e, units_cons b0 (rest ++ b), ← e, hdec, units_cons b0 rest,
        List.take_append_of_le_length hw2, List.drop_append_of_le_length hw2,
        ih _ (by rw [← hn, List.length_drop]; omega) _ hv2 rfl]
      rfl

/-- The code points of a well-formed string that occurs in another string
occur, as a contiguous run, among the code points of that string. -/
theorem runes_occur {m m2 : Str} (hm : utf8.ValidString m = true) (h : m <:+: m2) :
    utf8.runes m <:+: utf8.runes m2 := by
  obtain ⟨a, b, rfl⟩ := h
  cases m with
  | nil => exact ⟨utf8.runes (a ++ b), [], by simp [utf8.runes, units_nil]⟩
  | cons b0 rest =>
    have hc := valid_head_clean b0 rest hm
    refine ⟨utf8.runes a, utf8.runes b, ?_⟩
    unfold utf8.runes
    have e : a ++ (b0 :: rest) ++ b = a ++ ((b0 :: rest) ++ b) := List.append_assoc _ _ _
    rw [e, units_append_clean a ((b0 :: rest) ++ b) (by
      intro c hcm
      simp at hcm
      rw [← hcm]; exact hc), units_append_valid _ b hm]
    simp

/-- The decoding of an encoded text gives each code point with its encoding. -/
theorem units_encode (text : List Char) :
    utf8.units (utf8.encode text) = text.map fun r => (r, utf8.EncodeRune r) := by
  induction text with
  | nil => rfl
  | cons r text ih =>
    have hne : ∃ b0 rest, utf8.EncodeRune r = b0 :: rest := by
      unfold utf8.EncodeRune
      split_ifs <;> exact ⟨_, _, rfl⟩
    obtain ⟨b0, rest, hbr⟩ := hne
    have hd := decode_encode r (utf8.encode text)
    unfold utf8.encode at ih hd ⊢
    rw [List.flatMap_cons, List.map_cons]
    rw [hbr] at hd ⊢
    have e : b0 :: rest ++ List.flatMap text utf8.EncodeRune
        = b0 :: (rest ++ List.flatMap text utf8.EncodeRune) := rfl
    rw [e, units_cons, ← e, hd]
    simp [ih]
/-! ## Configuration: theorems -/

set_option maxRecDepth 100000 in
theorem sample_unmarshal : yaml.Unmarshal sampleConfig = some sampleEntries := by decide

/-- The decoding of a string that starts with an ASCII byte. -/
theorem units_ascii_cons (b : Char) (rest : Str) (hb : b.toNat < 0x80) :
    utf8.units (b :: rest) = (b, [b]) :: utf8.units rest := by
  have hd : utf8.DecodeRune (b :: rest) = (b, 1) := by
    simp only [utf8.DecodeRune, hb, if_true]
  rw [units_cons, hd]
  rfl

/-- Upper-casing a string that starts with an ASCII byte. -/
theorem toUpper_ascii_cons (b : Char) (rest : Str) (hb : b.toNat < 0x80) :
    strings.ToUpper (b :: rest)
      = (if 'a' ≤ b ∧ b ≤ 'z' then Char.ofNat (b.toNat - 32) else b) :: strings.ToUpper rest := by
  have hup : strings.toUpperRune b
      = if 'a' ≤ b ∧ b ≤ 'z' then Char.ofNat (b.toNat - 32) else b := by
    unfold strings.toUpperRune unicode.ToUpper
    rw [if_pos hb]
  have henc : utf8.EncodeRune (strings.toUpperRune b) = [strings.toUpperRune b] := by
    have hlt : (strings.toUpperRune b).toNat < 0x80 := by
      rw [hup]
      split_ifs with h
      · rw [toNat_ofNat_small _ (by omega)]
        omega
      · exact hb
    unfold utf8.EncodeRune
    rw [if_pos hlt]
  unfold strings.ToUpper utf8.runes utf8.encode
  rw [units_ascii_cons b rest hb, List.map_cons, List.map_cons, List.flatMap_cons, henc, hup]
  rfl

/-- Without a variable named `CADENCE_...`, no look-up of viper finds a value
in the environment. -/
theorem getEnv_none_of_clean (w : World) (h : noCadenceEnv w) (key : Str) :
    viper.Viper.getEnv w (strings.ToUpper ("CADENCE".toList ++ '_' :: key)) = none := by
  have hname : strings.ToUpper ("CADENCE".toList ++ '_' :: key)
      = "CADENCE_".toList ++ strings.ToUpper key := by
    show strings.ToUpper ('C' :: 'A' :: 'D' :: 'E' :: 'N' :: 'C' :: 'E' :: '_' :: key) = _
    rw [toUpper_ascii_cons _ _ (by decide), toUpper_ascii_cons _ _ (by decide),
      toUpper_ascii_cons _ _ (by decide), toUpper_ascii_cons _ _ (by decide),
      toUpper_ascii_cons _ _ (by decide), toUpper_ascii_cons _ _ (by decide),
      toUpper_ascii_cons _ _ (by decide), toUpper_ascii_cons _ _ (by decide)]
    rfl
  have hlook : os.LookupEnv (strings.ToUpper ("CADENCE".toList ++ '_' :: key)) w = none := by
    unfold os.LookupEnv
    rw [List.lookup_eq_none_iff]
    intro e he
    rw [bne_iff_ne]
    intro heq
    apply h e he
    rw [← heq, hname]
    exact List.prefix_append _ _
  unfold viper.Viper.getEnv
  rw [hlook]

/-- A key for which the environment holds no value, for the key and for the
mappings above it, is looked up in the configuration file and the defaults. -/
theorem find_of_no_env (v : viper.Viper) (w : World) (key : Str)
    (hk : viper.Viper.getEnv w (v.mergeWithEnvPrefix key) = none)
    (hp : ∀ p ∈ viper.parents key, viper.Viper.getEnv w (v.mergeWithEnvPrefix p) = none) :
    v.find w key = viper.findStored v.config v.defaults key := by
  unfold viper.Viper.find
  by_cases ha : v.automaticEnvApplied = true
  · rw [if_pos ha, hk]
    have : ((viper.parents key).any fun p => (viper.Viper.getEnv w (v.mergeWithEnvPrefix p)).isSome)
        = false := by
      rw [List.any_eq_false]
      intro p hpm
      rw [hp p hpm]
      simp
    simp only [this]
    rfl
  · rw [if_neg ha]

theorem find_clean (v : viper.Viper) (w : World) (h : noCadenceEnv w)
    (hp : v.envPrefix = "CADENCE".toList) (key : Str) :
    v.find w key = viper.findStored v.config v.defaults key := by
  have hmerge : ∀ k, v.mergeWithEnvPrefix k = strings.ToUpper ("CADENCE".toList ++ '_' :: k) := by
    intro k
    unfold viper.Viper.mergeWithEnvPrefix
    rw [hp]
    rfl
  apply find_of_no_env
  · rw [hmerge, getEnv_none_of_clean w h]
  · intro p _
    rw [hmerge, getEnv_none_of_clean w h]

theorem find_congr (v1 v2 : viper.Viper) (w : World) (key : Str)
    (hp : v1.envPrefix = v2.envPrefix) (ha : v1.automaticEnvApplied = v2.automaticEnvApplied)
    (hs : viper.findStored v1.config v1.defaults key
      = viper.findStored v2.config v2.defaults key) :
    v1.find w key = v2.find w key := by
  unfold viper.Viper.find viper.Viper.mergeWithEnvPrefix
  rw [hp, ha, hs]

/-- In the sample each threshold key holds the value `Load` sets as default. -/
theorem stored_sample :
    ∀ key ∈ thresholdKeys,
      viper.findStored sampleValues withDefaults.defaults (strings.ToLower key)
        = viper.findStored [] withDefaults.defaults (strings.ToLower key) := by
  decide

theorem stored_defaults :
    thresholdKeys.map (fun key => viper.findStored [] withDefaults.defaults (strings.ToLower key))
      = [ some (.scalar (.int 500)), some (.scalar (.int 1000)), some (.scalar (.int 100)),
          some (.scalar (.int 500)), some (.scalar (.int 60)), some (.scalar (.int 50)),
          some (.scalar (.decimal false 95 2)), some (.scalar (.decimal false 95 2)),
          some (.scalar (.int 100)), some (.scalar (.bool true)) ] := by
  decide

theorem decimal_95 : viper.decimalValue false 95 2 = F64.lit (95 / 100) := by
  unfold viper.decimalValue F64.lit
  norm_num

/-- The thresholds `Load` reads when each threshold key is looked up in the
defaults. -/
theorem thresholds_of_stored (conv : Libs) (v : viper.Viper) (w : World)
    (hget : ∀ key ∈ thresholdKeys, v.Get w key
      = viper.findStored [] withDefaults.defaults (strings.ToLower key)) :
    (readConfig conv v w).Thresholds = defaultThresholds := by
  have hs := stored_defaults
  simp only [thresholdKeys, List.map_cons, List.map_nil, List.cons.injEq, and_true] at hs
  obtain ⟨h1, h2, h3, h4, h5, h6, h7, h8, h9, h10⟩ := hs
  simp only [readConfig, defaultThresholds, viper.Viper.GetInt64, viper.Viper.GetInt,
    viper.Viper.GetFloat64, viper.Viper.GetBool]
  rw [hget _ (by decide), hget _ (by decide), hget _ (by decide), hget _ (by decide),
    hget _ (by decide), hget _ (by decide), hget _ (by decide), hget _ (by decide),
    hget _ (by decide), hget _ (by decide)]
  simp only [h1, h2, h3, h4, h5, h6, h7, h8, h9, h10,
    viper.ToInt64, viper.ToFloat64, viper.ToBool, decimal_95,
    ofInt_small 100 (by norm_num), ofInt_small 500 (by norm_num)]
  norm_num

/-- The thresholds `Load` returns when neither the environment nor a file
overrides a default. -/
theorem thresholds_of_defaults (conv : Libs) (v : viper.Viper) (w : World)
    (h : noCadenceEnv w) (hp : v.envPrefix = "CADENCE".toList) (hc : v.config = [])
    (hd : v.defaults = withDefaults.defaults) :
    (readConfig conv v w).Thresholds = defaultThresholds := by
  apply thresholds_of_stored
  intro key _
  unfold viper.Viper.Get
  rw [find_clean v w h hp, hc, hd]

/-- Reading the file `GenerateSampleConfig` wrote gives the entries of the
sample. -/
theorem read_written_sample (conv : Libs) (path : Str) (w w2 : World)
    (hyaml : filepath.Ext path = ".yaml".toList ∨ filepath.Ext path = ".yml".toList)
    (hwrite : GenerateSampleConfig path w = .ok w2) :
    (withDefaults.SetConfigFile path).ReadInConfig conv w2
      = .ok { withDefaults.SetConfigFile path with config := sampleValues } := by
  have hread : os.ReadFile path w2 = .ok sampleConfig := by
    unfold GenerateSampleConfig os.WriteFile at hwrite
    split_ifs at hwrite
    injection hwrite with hw
    subst hw
    simp [os.ReadFile]
  have htype : (withDefaults.SetConfigFile path).getConfigType = "yaml".toList ∨
      (withDefaults.SetConfigFile path).getConfigType = "yml".toList := by
    unfold viper.Viper.getConfigType viper.Viper.SetConfigFile
    rcases hyaml with h | h
    · left; simp only [h]; decide
    · right; simp only [h]; decide
  have hsup : (withDefaults.SetConfigFile path).getConfigType ∈ viper.SupportedExts := by
    rcases htype with h | h <;> rw [h] <;> decide
  unfold viper.Viper.ReadInConfig
  have hfile : (withDefaults.SetConfigFile path).configFile = path := rfl
  rw [if_neg (not_not.mpr hsup), hfile, hread]
  simp only [htype, if_true, sample_unmarshal]
  rfl

/-- A path whose extension viper does not support is refused by `Load`. -/
theorem load_unsupported (conv : Libs) (path : Str) (w : World) (hne : path ≠ [])
    (hext : (withDefaults.SetConfigFile path).getConfigType ∉ viper.SupportedExts) :
    Load conv path w
      = .error (.failedToReadConfigFile
          (.UnsupportedConfigError (withDefaults.SetConfigFile path).getConfigType)) := by
  unfold Load viper.Viper.ReadInConfig
  simp only [hne, ne_eq, not_false_eq_true, if_true, hext]

/-- C16 as the spec states it fails in two ways. Written to sample.txt, to
sample or to sample.YAML the sample cannot be loaded: viper refuses the
extension. And with the environment variable
CADENCE_THRESHOLDS.SUSPICIOUS_ADDITIONS set to 250, loading the sample written
to cadence.yaml yields suspicious_additions = 250, not the default 500. -/
theorem C16_sample_round_trip_counterexample :
    (∀ conv : Libs,
      (∃ w2, GenerateSampleConfig "sample.txt".toList emptyWorld = .ok w2 ∧
        Load conv "sample.txt".toList w2
          = .error (.failedToReadConfigFile (.UnsupportedConfigError "txt".toList))) ∧
      (∃ w2, GenerateSampleConfig "sample".toList emptyWorld = .ok w2 ∧
        Load conv "sample".toList w2
          = .error (.failedToReadConfigFile (.UnsupportedConfigError []))) ∧
      (∃ w2, GenerateSampleConfig "sample.YAML".toList emptyWorld = .ok w2 ∧
        Load conv "sample.YAML".toList w2
          = .error (.failedToReadConfigFile (.UnsupportedConfigError "YAML".toList)))) ∧
    (∀ conv : Libs, conv.ParseInt "250".toList = some 250 →
      ∃ w2 c, GenerateSampleConfig "cadence.yaml".toList overridingWorld = .ok w2 ∧
        Load conv "cadence.yaml".toList w2 = .ok c ∧
        c.Thresholds.SuspiciousAdditions = 250 ∧
        c.Thresholds ≠ defaultThresholds) := by
  constructor
  · intro conv
    refine ⟨⟨_, rfl, ?_⟩, ⟨_, rfl, ?_⟩, ⟨_, rfl, ?_⟩⟩
    · exact load_unsupported conv _ _ (by decide) (by decide)
    · exact load_unsupported conv _ _ (by decide) (by decide)
    · exact load_unsupported conv _ _ (by decide) (by decide)
  · intro conv hparse
    have hread := read_written_sample conv "cadence.yaml".toList overridingWorld
      overriddenSampleWorld (Or.inl (by decide)) rfl
    have hload : Load conv "cadence.yaml".toList overriddenSampleWorld
        = .ok (readConfig conv
            (({ withDefaults.SetConfigFile "cadence.yaml".toList with
              config := sampleValues }.SetEnvPrefix "CADENCE".toList).AutomaticEnv)
            overriddenSampleWorld) := by
      unfold Load
      have hne : "cadence.yaml".toList ≠ [] := by decide
      simp only [hne, ne_eq, not_false_eq_true, if_true, hread]
    have hval : (readConfig conv
        (({ withDefaults.SetConfigFile "cadence.yaml".toList with
          config := sampleValues }.SetEnvPrefix "CADENCE".toList).AutomaticEnv)
        overriddenSampleWorld).Thresholds.SuspiciousAdditions = 250 := by
      have hfind : (({ withDefaults.SetConfigFile "cadence.yaml".toList with
          config := sampleValues }.SetEnvPrefix "CADENCE".toList).AutomaticEnv).Get
          overriddenSampleWorld "thresholds.suspicious_additions".toList
            = some (.scalar (.str "250".toList)) := by
        decide
      simp only [readConfig, viper.Viper.GetInt64, hfind, viper.ToInt64, hparse, Option.getD_some]
    refine ⟨_, _, rfl, hload, hval, ?_⟩
    intro h
    have h2 := congrArg Thresholds.SuspiciousAdditions h
    rw [hval] at h2
    exact absurd h2 (by decide)

/-- C16, amended: round trip of the sample configuration. For each of the ten
threshold keys the value the sample holds is the default `Load` sets. Hence,
when GenerateSampleConfig has written the sample to a file with the extension
.yaml or .yml, loading that file succeeds and yields the thresholds that Load
yields without a configuration file; and when no environment variable that
viper looks up for a threshold key (CADENCE_THRESHOLDS and
CADENCE_THRESHOLDS.<KEY>, the key in capitals) is set to a non-empty value,
these are the defaults 500, 1000, 100, 500, 60, 50, 0.95, 0.95, 100, true. -/
theorem C16_sample_round_trip (conv : Libs) (path : Str) (w w2 : World)
    (hyaml : filepath.Ext path = ".yaml".toList ∨ filepath.Ext path = ".yml".toList)
    (hwrite : GenerateSampleConfig path w = .ok w2)
    (henv : noThresholdEnv w2) :
    yaml.Unmarshal sampleConfig = some sampleEntries ∧
    (∀ key ∈ thresholdKeys,
      (sampleEntries.lookup key).map viper.ofNode = withDefaults.defaults.lookup key ∧
      (withDefaults.defaults.lookup key).isSome = true) ∧
    thresholdEnvNames
      = "CADENCE_THRESHOLDS".toList ::
          thresholdKeys.map (fun key =>
            ((withDefaults.SetEnvPrefix "CADENCE".toList).AutomaticEnv).mergeWithEnvPrefix
              key) ∧
    ∃ c c0 : Config,
      Load conv path w2 = .ok c ∧ Load conv [] w2 = .ok c0 ∧
      c.Thresholds = c0.Thresholds ∧
      c.Thresholds = defaultThresholds := by
  refine ⟨sample_unmarshal, by decide, by decide, ?_⟩
  have hne : path ≠ [] := by
    rintro rfl
    rcases hyaml with h | h <;> exact absurd h (by decide)
  have hread := read_written_sample conv path w w2 hyaml hwrite
  refine ⟨readConfig conv
      (({ withDefaults.SetConfigFile path with config := sampleValues }.SetEnvPrefix
        "CADENCE".toList).AutomaticEnv) w2,
    readConfig conv ((withDefaults.SetEnvPrefix "CADENCE".toList).AutomaticEnv) w2, ?_, ?_, ?_⟩
  · unfold Load
    simp only [hne, ne_eq, not_false_eq_true, if_true, hread]
  · unfold Load
    simp only [ne_eq, not_true_eq_false, if_false]
  · have hget : ∀ key ∈ thresholdKeys,
        (({ withDefaults.SetConfigFile path with config := sampleValues }.SetEnvPrefix
          "CADENCE".toList).AutomaticEnv).Get w2 key
          = ((withDefaults.SetEnvPrefix "CADENCE".toList).AutomaticEnv).Get w2 key := by
      intro key hkey
      unfold viper.Viper.Get
      exact find_congr _ _ w2 _ rfl rfl (stored_sample key hkey)
    have hsame : (readConfig conv
        (({ withDefaults.SetConfigFile path with config := sampleValues }.SetEnvPrefix
          "CADENCE".toList).AutomaticEnv) w2).Thresholds
        = (readConfig conv
          ((withDefaults.SetEnvPrefix "CADENCE".toList).AutomaticEnv) w2).Thresholds := by
      simp only [readConfig, viper.Viper.GetInt64, viper.Viper.GetInt, viper.Viper.GetFloat64,
        viper.Viper.GetBool]
      rw [hget _ (by decide), hget _ (by decide), hget _ (by decide), hget _ (by decide),
        hget _ (by decide), hget _ (by decide), hget _ (by decide), hget _ (by decide),
        hget _ (by decide), hget _ (by decide)]
    refine ⟨hsame, ?_⟩
    rw [hsame]
    apply thresholds_of_stored
    intro key hkey
    unfold viper.Viper.Get
    have hnames : ∀ key ∈ thresholdKeys,
        ((withDefaults.SetEnvPrefix "CADENCE".toList).AutomaticEnv).mergeWithEnvPrefix
            (strings.ToLower key) ∈ thresholdEnvNames ∧
        ∀ p ∈ viper.parents (strings.ToLower key),
          ((withDefaults.SetEnvPrefix "CADENCE".toList).AutomaticEnv).mergeWithEnvPrefix p
            ∈ thresholdEnvNames := by
      decide
    rw [find_of_no_env _ w2 _ (henv _ (hnames key hkey).1)
      (fun p hp => henv _ ((hnames key hkey).2 p hp))]
    rfl

/-- The instance of the amended C16 at the file `cadence.yaml` written into an
empty directory, with no environment variable set. -/
theorem C16_sample_round_trip_witness :
    filepath.Ext "cadence.yaml".toList = ".yaml".toList ∧
    GenerateSampleConfig "cadence.yaml".toList emptyWorld = .ok sampleWorld ∧
    noThresholdEnv sampleWorld ∧
    ∃ c c0 : Config,
      Load noLibs "cadence.yaml".toList sampleWorld = .ok c ∧
      Load noLibs [] sampleWorld = .ok c0 ∧
      c.Thresholds = c0.Thresholds ∧
      c.Thresholds = defaultThresholds :=
  have henv : noThresholdEnv sampleWorld := fun _ _ => rfl
  ⟨by decide, rfl, henv,
    (C16_sample_round_trip noLibs "cadence.yaml".toList emptyWorld sampleWorld
      (Or.inl (by decide)) rfl henv).2.2.2⟩

/-- C17 fails on the code for the provider: with no configuration file and no
environment variable named CADENCE_..., Load succeeds and returns the AI
configuration enabled = false, api_key empty, model = gpt-4o-mini and the
webhook configuration enabled = false, host 0.0.0.0, port 3000, max_workers 4,
timeouts 30 and 30, but the provider is the empty string, not openai: Load
sets no default for ai.provider and has no fallback for it. -/
theorem C17_provider_left_empty (conv : Libs) (w : World) (h : noCadenceEnv w) :
    ∃ c : Config,
      Load conv [] w = .ok c ∧
      c.AI = { Enabled := false, Provider := [], APIKey := [], Model := "gpt-4o-mini".toList } ∧
      c.AI.Provider ≠ "openai".toList ∧
      c.Webhook
        = { Enabled := false, Host := "0.0.0.0".toList, Port := 3000, Secret := [],
            MaxWorkers := 4, ReadTimeout := 30, WriteTimeout := 30 } ∧
      c.Thresholds = defaultThresholds ∧
      c.ExcludeFiles = [] := by
  refine ⟨readConfig conv ((withDefaults.SetEnvPrefix "CADENCE".toList).AutomaticEnv) w, ?_, ?_⟩
  · unfold Load
    simp only [ne_eq, not_true_eq_false, if_false]
  have hget : ∀ key,
      ((withDefaults.SetEnvPrefix "CADENCE".toList).AutomaticEnv).Get w key
        = viper.findStored [] withDefaults.defaults (strings.ToLower key) := by
    intro key
    unfold viper.Viper.Get
    rw [find_clean _ w h rfl]
    rfl
  have hnone : ∀ key ∈ ["webhook.enabled".toList, "webhook.host".toList, "webhook.port".toList,
      "webhook.secret".toList, "webhook.max_workers".toList, "webhook.read_timeout".toList,
      "webhook.write_timeout".toList, "ai.enabled".toList, "ai.provider".toList,
      "ai.api_key".toList, "ai.model".toList, "exclude_files".toList],
      viper.findStored [] withDefaults.defaults (strings.ToLower key) = none := by
    decide
  have hai : (readConfig conv ((withDefaults.SetEnvPrefix "CADENCE".toList).AutomaticEnv) w).AI
      = { Enabled := false, Provider := [], APIKey := [], Model := "gpt-4o-mini".toList } := by
    simp only [readConfig, viper.Viper.GetBool, viper.Viper.GetString, hget]
    rw [hnone _ (by decide), hnone _ (by decide), hnone _ (by decide), hnone _ (by decide)]
    rfl
  refine ⟨hai, ?_, ?_, thresholds_of_defaults conv _ w h rfl rfl rfl, ?_⟩
  · rw [hai]
    decide
  · simp only [readConfig, viper.Viper.GetBool, viper.Viper.GetString, viper.Viper.GetInt, hget]
    rw [hnone _ (by decide), hnone _ (by decide), hnone _ (by decide), hnone _ (by decide),
      hnone _ (by decide), hnone _ (by decide), hnone _ (by decide)]
    rfl
  · simp only [readConfig, viper.Viper.GetStringSlice, hget]
    rw [hnone _ (by decide)]
    rfl

/-- The instance of C17 at a process without files and without environment
variables. -/
theorem C17_provider_left_empty_witness :
    noCadenceEnv emptyWorld ∧
    ∃ c : Config,
      Load noLibs [] emptyWorld = .ok c ∧
      c.AI = { Enabled := false, Provider := [], APIKey := [], Model := "gpt-4o-mini".toList } ∧
      c.AI.Provider ≠ "openai".toList ∧
      c.Webhook
        = { Enabled := false, Host := "0.0.0.0".toList, Port := 3000, Secret := [],
            MaxWorkers := 4, ReadTimeout := 30, WriteTimeout := 30 } ∧
      c.Thresholds = defaultThresholds ∧
      c.ExcludeFiles = [] :=
  ⟨fun e he => absurd he (List.not_mem_nil e),
    C17_provider_left_empty noLibs emptyWorld (fun e he => absurd he (List.not_mem_nil e))⟩

/-! ## Independence of the repository statistics: theorems -/

/-- C23: the result of Detect does not depend on the repoStats argument. For
each of the seven strategies (any value of the strategy, enabled or not), every
commit pair and every two values of RepositoryStats, the two calls return the
same (detected, reason): no Detect reads its second argument. -/
theorem C23_detect_ignores_repoStats (pair : CommitPair) (repoStats repoStats2 : RepositoryStats)
    (s1 : CommitMessageStrategy) (s2 : NamingPatternStrategy)
    (s3 : StructuralConsistencyStrategy) (s4 : BurstPatternStrategy)
    (s5 : ErrorHandlingPatternStrategy) (s6 : TemplatePatternStrategy)
    (s7 : FileExtensionPatternStrategy) :
    s1.Detect pair repoStats = s1.Detect pair repoStats2 ∧
    s2.Detect pair repoStats = s2.Detect pair repoStats2 ∧
    s3.Detect pair repoStats = s3.Detect pair repoStats2 ∧
    s4.Detect pair repoStats = s4.Detect pair repoStats2 ∧
    s5.Detect pair repoStats = s5.Detect pair repoStats2 ∧
    s6.Detect pair repoStats = s6.Detect pair repoStats2 ∧
    s7.Detect pair repoStats = s7.Detect pair repoStats2 := by
  refine ⟨?_, ?_, ?_, ?_, ?_, ?_, ?_⟩
  · unfold CommitMessageStrategy.Detect; rfl
  · unfold NamingPatternStrategy.Detect; rfl
  · unfold StructuralConsistencyStrategy.Detect; rfl
  · unfold BurstPatternStrategy.Detect; rfl
  · unfold ErrorHandlingPatternStrategy.Detect; rfl
  · unfold TemplatePatternStrategy.Detect; rfl
  · unfold FileExtensionPatternStrategy.Detect; rfl

/-! ## Monotonicity of the commit-message strategy: theorems -/

/-- The defining equation of `strings.fieldsOf` on a non-empty text. -/
theorem fieldsOf_cons_eq (u : Char × Str) (us : List (Char × Str)) :
    strings.fieldsOf (u :: us)
      = if strings.isSpace u.1 = true then strings.fieldsOf us
        else
          match us, strings.fieldsOf us with
          | d :: _, w :: ws =>
            if strings.isSpace d.1 = true then u.2 :: w :: ws else (u.2 ++ w) :: ws
          | _, ws => u.2 :: ws := by
  rfl

theorem fieldsOf_nil : strings.fieldsOf [] = [] := rfl

/-- A text that starts with a code point that is no space has a first word. -/
theorem fieldsOf_ne_nil (d : Char × Str) (ds : List (Char × Str))
    (hd : strings.isSpace d.1 = false) : strings.fieldsOf (d :: ds) ≠ [] := by
  rw [fieldsOf_cons_eq]
  simp only [hd, Bool.false_eq_true, if_false]
  cases ds with
  | nil => rw [fieldsOf_nil]; simp
  | cons e es =>
    cases strings.fieldsOf (e :: es) with
    | nil => simp
    | cons w ws =>
      simp only
      split_ifs <;> simp

/-- The number of words of a text, from the number of words of its tail. -/
theorem fieldsOf_length_cons (c : Char × Str) (cs : List (Char × Str)) :
    (strings.fieldsOf (c :: cs)).length
      = if strings.isSpace c.1 = true then (strings.fieldsOf cs).length
        else if cs.head?.map (fun u => strings.isSpace u.1) = some false then
          (strings.fieldsOf cs).length
        else (strings.fieldsOf cs).length + 1 := by
  rw [fieldsOf_cons_eq]
  by_cases hc : strings.isSpace c.1 = true
  · simp only [hc, if_true]
  · simp only [hc, Bool.false_eq_true, if_false]
    cases cs with
    | nil => rw [fieldsOf_nil]; simp
    | cons d ds =>
      by_cases hd : strings.isSpace d.1 = true
      · cases strings.fieldsOf (d :: ds) with
        | nil => simp [hd]
        | cons w ws => simp [hd]
      · have hd2 : strings.isSpace d.1 = false := by simpa using hd
        cases hf : strings.fieldsOf (d :: ds) with
        | nil => exact absurd hf (fieldsOf_ne_nil d ds hd2)
        | cons w ws => simp [hd2]

theorem fieldsOf_length_le_cons (c : Char × Str) (s : List (Char × Str)) :
    (strings.fieldsOf s).length ≤ (strings.fieldsOf (c :: s)).length := by
  rw [fieldsOf_length_cons]
  split_ifs <;> omega

theorem fieldsOf_length_le_append_left (a s : List (Char × Str)) :
    (strings.fieldsOf s).length ≤ (strings.fieldsOf (a ++ s)).length := by
  induction a with
  | nil => simp
  | cons c a ih => exact le_trans ih (fieldsOf_length_le_cons c (a ++ s))

theorem fieldsOf_length_le_append_right (s b : List (Char × Str)) :
    (strings.fieldsOf s).length ≤ (strings.fieldsOf (s ++ b)).length := by
  induction s with
  | nil => rw [fieldsOf_nil]; exact Nat.zero_le _
  | cons c cs ih =>
    rw [List.cons_append, fieldsOf_length_cons, fieldsOf_length_cons c (cs ++ b)]
    by_cases hc : strings.isSpace c.1 = true
    · simp only [hc, if_true]; exact ih
    · simp only [hc, Bool.false_eq_true, if_false]
      cases cs with
      | nil =>
        rw [List.nil_append, fieldsOf_nil]
        simp only [List.head?_nil, Option.map_none', reduceCtorEq, if_false, List.length_nil,
          zero_add]
        cases b with
        | nil => rw [fieldsOf_nil]; simp
        | cons d ds =>
          by_cases hd : strings.isSpace d.1 = false
          · have hpos : 0 < (strings.fieldsOf (d :: ds)).length :=
              List.length_pos.mpr (fieldsOf_ne_nil d ds hd)
            simp only [List.head?_cons, Option.map_some', hd, if_true]
            omega
          · simp only [List.head?_cons, Option.map_some', Option.some.injEq]
            rw [if_neg hd]
            omega
      | cons d ds =>
        simp only [List.cons_append, List.head?_cons] at ih ⊢
        split_ifs <;> omega

/-- A decoded text has at least as many words as any contiguous part of it. -/
theorem fieldsOf_length_mono {us us2 : List (Char × Str)} (h : us <:+: us2) :
    (strings.fieldsOf us).length ≤ (strings.fieldsOf us2).length := by
  obtain ⟨a, b, rfl⟩ := h
  rw [List.append_assoc]
  exact le_trans (fieldsOf_length_le_append_right us b)
    (fieldsOf_length_le_append_left a (us ++ b))

/-- The decoding of a lower-cased string: the lower-cased code points of the
string, each with its encoding. -/
theorem units_toLower (m : Str) :
    utf8.units (strings.ToLower m)
      = (utf8.runes m).map fun r => (strings.toLowerRune r, utf8.EncodeRune (strings.toLowerRune r)) := by
  unfold strings.ToLower
  rw [units_encode, List.map_map]
  rfl

/-- Lower-casing keeps the occurrences of a well-formed string. -/
theorem toLower_occurs {m m2 : Str} (hm : utf8.ValidString m = true) (h : m <:+: m2) :
    strings.ToLower m <:+: strings.ToLower m2 := by
  obtain ⟨a, b, hab⟩ := runes_occur hm h
  refine ⟨utf8.encode (a.map strings.toLowerRune), utf8.encode (b.map strings.toLowerRune), ?_⟩
  unfold strings.ToLower utf8.encode
  rw [← hab]
  simp [List.flatMap_append]

/-- The lower-cased text has at least as many words as the lower-casing of a
well-formed string that occurs in it. -/
theorem fields_toLower_mono {m m2 : Str} (hm : utf8.ValidString m = true) (h : m <:+: m2) :
    (strings.Fields (strings.ToLower m)).length
      ≤ (strings.Fields (strings.ToLower m2)).length := by
  unfold strings.Fields
  rw [units_toLower, units_toLower]
  exact fieldsOf_length_mono ((runes_occur hm h).map _)

theorem contains_mono {text text2 : Str} (h : text <:+: text2) (sub : Str)
    (hs : strings.Contains text sub = true) : strings.Contains text2 sub = true := by
  rw [contains_iff_occurs] at hs ⊢
  exact hs.trans h

theorem countMatches_mono {text text2 : Str} (h : text <:+: text2) (patterns : List Str) :
    countMatches text patterns ≤ countMatches text2 patterns := by
  unfold countMatches
  exact List.countP_mono_left fun pattern _ hp => contains_mono h pattern hp

/-- C24 as the spec states it fails on a message that is not well-formed
UTF-8: the message of the bytes A0 20 followed by "a b c d e f g implement"
occurs in the message that puts the byte C2 in front of it; the first is
flagged, its lower-casing having nine words, the first of them U+FFFD for the
invalid byte A0; the second is not flagged, its bytes C2 A0 being the space
U+00A0 and its words eight. -/
theorem C24_commit_message_counterexample :
    "\xa0 a b c d e f g implement".toList <:+: "\xc2\xa0 a b c d e f g implement".toList ∧
    utf8.ValidString "\xa0 a b c d e f g implement".toList = false ∧
    strings.ToLower "\xa0 a b c d e f g implement".toList
      = "\xef\xbf\xbd a b c d e f g implement".toList ∧
    (strings.Fields (strings.ToLower "\xa0 a b c d e f g implement".toList)).length = 9 ∧
    (strings.Fields (strings.ToLower "\xc2\xa0 a b c d e f g implement".toList)).length = 8 ∧
    (NewCommitMessageStrategy.Detect
      (mkPair "\xa0 a b c d e f g implement".toList 0 0 0 0 []) ⟨[]⟩).1 = true ∧
    (NewCommitMessageStrategy.Detect
      (mkPair "\xc2\xa0 a b c d e f g implement".toList 0 0 0 0 []) ⟨[]⟩).1 = false := by
  refine ⟨⟨"\xc2".toList, [], by decide⟩, by decide, by decide, by decide, by decide, by decide,
    by decide⟩

/-- C24, amended: the commit-message strategy is monotone under extending a
message that is well-formed UTF-8. If the current message of a pair is
well-formed and occurs as a contiguous part of the current message of another
pair, then on the lower-cased messages aiScore, genericScore and the number of
words do not decrease and the phrases implement and functionality stay
present, and if Detect flags the first pair it flags the second. The words
and the scores are those of strings.Fields and strings.ToLower: a message
with two blanks, a tab and a no-break space has five words, and phrases in
capitals or written with U+0130 are counted. -/
theorem C24_commit_message_monotone (s : CommitMessageStrategy) (pair pair2 : CommitPair)
    (repoStats repoStats2 : RepositoryStats)
    (hvalid : utf8.ValidString pair.Current.Message = true)
    (hsub : pair.Current.Message <:+: pair2.Current.Message) :
    countMatches (strings.ToLower pair.Current.Message) CommitMessageStrategy.aiPatterns
      ≤ countMatches (strings.ToLower pair2.Current.Message) CommitMessageStrategy.aiPatterns ∧
    countMatches (strings.ToLower pair.Current.Message) CommitMessageStrategy.genericPatterns
      ≤ countMatches (strings.ToLower pair2.Current.Message)
          CommitMessageStrategy.genericPatterns ∧
    (strings.Fields (strings.ToLower pair.Current.Message)).length
      ≤ (strings.Fields (strings.ToLower pair2.Current.Message)).length ∧
    (∀ phrase : Str, strings.Contains (strings.ToLower pair.Current.Message) phrase = true →
      strings.Contains (strings.ToLower pair2.Current.Message) phrase = true) ∧
    ((s.Detect pair repoStats).1 = true → (s.Detect pair2 repoStats2).1 = true) ∧
    strings.Fields (strings.ToLower "Fix  the\tBUG\xc2\xa0\xc4\xb0n Parser".toList)
      = ["fix".toList, "the".toList, "bug".toList, "in".toList, "parser".toList] ∧
    countMatches (strings.ToLower "IMPLEMENT it, Add Functionality".toList)
      CommitMessageStrategy.aiPatterns = 2 ∧
    countMatches (strings.ToLower "\xc4\xb0MPROVEMENTS and Updates".toList)
      CommitMessageStrategy.genericPatterns = 2 := by
  have hl := toLower_occurs hvalid hsub
  have h1 := countMatches_mono hl CommitMessageStrategy.aiPatterns
  have h2 := countMatches_mono hl CommitMessageStrategy.genericPatterns
  have h3 := fields_toLower_mono hvalid hsub
  have h4 := contains_mono hl
  refine ⟨h1, h2, h3, h4, ?_, by decide, by decide, by decide⟩
  rw [commitMessage_detected, commitMessage_detected]
  rintro ⟨he, hc⟩
  refine ⟨he, ?_⟩
  rcases hc with hc | hc | ⟨hw, hc | hc⟩
  · left; omega
  · right; left; omega
  · right; right; exact ⟨by omega, Or.inl (h4 _ hc)⟩
  · right; right; exact ⟨by omega, Or.inr (h4 _ hc)⟩

/-- The instance of the amended C24 at the well-formed message U+0130
"MPROVEMENTS", which is flagged, inside a longer message that is not
well-formed. -/
theorem C24_commit_message_monotone_witness :
    utf8.ValidString "\xc4\xb0MPROVEMENTS".toList = true ∧
    "\xc4\xb0MPROVEMENTS".toList <:+: "\xa0 WIP: \xc4\xb0MPROVEMENTS\xc2 (again)".toList ∧
    utf8.ValidString "\xa0 WIP: \xc4\xb0MPROVEMENTS\xc2 (again)".toList = false ∧
    (NewCommitMessageStrategy.Detect
      (mkPair "\xc4\xb0MPROVEMENTS".toList 1 1 1 0 []) ⟨[]⟩).1 = true ∧
    (NewCommitMessageStrategy.Detect
      (mkPair "\xa0 WIP: \xc4\xb0MPROVEMENTS\xc2 (again)".toList 1 1 1 0 []) ⟨[]⟩).1 = true :=
  ⟨by decide, ⟨"\xa0 WIP: ".toList, "\xc2 (again)".toList, by decide⟩, by decide, by decide,
    (C24_commit_message_monotone NewCommitMessageStrategy
      (mkPair "\xc4\xb0MPROVEMENTS".toList 1 1 1 0 [])
      (mkPair "\xa0 WIP: \xc4\xb0MPROVEMENTS\xc2 (again)".toList 1 1 1 0 [])
      ⟨[]⟩ ⟨[]⟩ (by decide)
      ⟨"\xa0 WIP: ".toList, "\xc2 (again)".toList, by decide⟩).2.2.2.2.1 (by decide)⟩

/-! ## Case folding in the naming analysis: theorems -/

/-- The count of `analyzeCodeContent` is the sum of its four signals. -/
theorem suspiciousPatterns_eq_signals (added : List Str) :
    NamingPatternStrategy.suspiciousPatterns added
      = NamingPatternStrategy.genericSignal added + NamingPatternStrategy.todoSignal added
        + NamingPatternStrategy.camelCaseSignal added
        + NamingPatternStrategy.errorHandlingSignal added := rfl

/-- C21 holds for two of the three signals only. For added lines that differ
in letter case alone (equal after lower-casing) the generic-identifier signal
and the todo/fixme signal give the same contribution; the catch/except/try
signal is computed on the text as written: the lines capitalCatchLines and
lowerCatchLines differ in case alone, yet the signal is 0 for the first and 1
for the second, and Detect flags the diff with the lower-case lines but not the
diff with the capitalised ones. -/
theorem C21_case_folding_two_of_three (added added2 : List Str)
    (hfold : strings.ToLower (strings.Join '\n' added)
      = strings.ToLower (strings.Join '\n' added2)) :
    NamingPatternStrategy.genericSignal added = NamingPatternStrategy.genericSignal added2 ∧
    NamingPatternStrategy.todoSignal added = NamingPatternStrategy.todoSignal added2 ∧
    strings.ToLower (strings.Join '\n' capitalCatchLines)
      = strings.ToLower (strings.Join '\n' lowerCatchLines) ∧
    addedLines capitalCatchDiff = capitalCatchLines ∧
    addedLines lowerCatchDiff = lowerCatchLines ∧
    NamingPatternStrategy.errorHandlingSignal capitalCatchLines = 0 ∧
    NamingPatternStrategy.errorHandlingSignal lowerCatchLines = 1 ∧
    NamingPatternStrategy.suspiciousPatterns capitalCatchLines = 1 ∧
    NamingPatternStrategy.suspiciousPatterns lowerCatchLines = 2 ∧
    (NewNamingPatternStrategy.Detect (mkPair [] 2 0 1 0 capitalCatchDiff)
      { counters := [] }).1 = false ∧
    (NewNamingPatternStrategy.Detect (mkPair [] 2 0 1 0 lowerCatchDiff)
      { counters := [] }).1 = true := by
  refine ⟨?_, ?_, by decide, by decide, by decide, by decide, by decide, by decide, by decide,
    by decide, by decide⟩
  · unfold NamingPatternStrategy.genericSignal
    rw [hfold]
  · unfold NamingPatternStrategy.todoSignal
    rw [hfold]

/-- The instance of C21 at the capitalised and the lower-case lines. -/
theorem C21_case_folding_two_of_three_witness :
    strings.ToLower (strings.Join '\n' capitalCatchLines)
      = strings.ToLower (strings.Join '\n' lowerCatchLines) ∧
    NamingPatternStrategy.genericSignal capitalCatchLines
      = NamingPatternStrategy.genericSignal lowerCatchLines ∧
    NamingPatternStrategy.todoSignal capitalCatchLines
      = NamingPatternStrategy.todoSignal lowerCatchLines ∧
    NamingPatternStrategy.errorHandlingSignal capitalCatchLines
      ≠ NamingPatternStrategy.errorHandlingSignal lowerCatchLines :=
  have h := C21_case_folding_two_of_three capitalCatchLines lowerCatchLines (by decide)
  ⟨by decide, h.1, h.2.1, by rw [h.2.2.2.2.2.1, h.2.2.2.2.2.2.1]; decide⟩

/-! ## The helper isNearInteger for an arbitrary tolerance: theorems -/

/-- From 2^63 on the conversion `int(value)` leaves the range of `int`, and the
remainder `value - float64(int(value))` is above 1. -/
theorem remainder_of_huge {x : ℚ} (hx : 0 ≤ x) (hge : 2 ^ 63 ≤ x) :
    (1 : ℚ) < F64.sub x (F64.ofInt (F64.toInt x)) := by
  have hfl : ¬ ((⌊x⌋ : ℤ) < 2 ^ 63) := by
    rw [Int.floor_lt, not_lt]
    exact_mod_cast hge
  have hto : F64.toInt x = -2 ^ 63 := by
    unfold F64.toInt
    simp only [if_pos hx]
    rw [if_neg fun h => hfl h.2]
  rw [hto]
  unfold F64.sub F64.ofInt
  have e : F64.rnd (((-2 ^ 63 : ℤ)) : ℚ) = -2 ^ 63 := by
    have := F64.rnd_dyadic (-1) 63 (by norm_num)
    norm_num at this ⊢
    exact this
  rw [e]
  have h2 : ((2 : ℤ) : ℚ) ≤ x - -2 ^ 63 := by
    norm_num
    linarith
  have := F64.rnd_mono h2
  rw [F64.rnd_intCast 2 (by norm_num)] at this
  push_cast at this
  linarith

/-- A float64 from 2^63 on is an integer. -/
theorem fract_of_huge {x : ℚ} (hf : IsF64 x) (hge : 2 ^ 63 ≤ x) : Int.fract x = 0 := by
  obtain ⟨m, j, hm, rfl⟩ := hf
  have hj : 0 ≤ j := by
    by_contra hneg
    have hj1 : j ≤ -1 := by omega
    have h2j : (2 : ℚ) ^ j ≤ 2 ^ (-1 : ℤ) :=
      zpow_le_zpow_right₀ (by norm_num) hj1
    have hmq : (m : ℚ) < 2 ^ 53 := by
      have := (abs_lt.mp hm).2
      exact_mod_cast this
    have hpos : (0 : ℚ) < 2 ^ j := by positivity
    have hm0 : (0 : ℚ) ≤ m := by
      by_contra hc
      have := mul_neg_of_neg_of_pos (not_le.mp hc) hpos
      linarith
    have : (m : ℚ) * 2 ^ j ≤ 2 ^ 53 * 2 ^ (-1 : ℤ) :=
      mul_le_mul hmq.le h2j hpos.le (by positivity)
    norm_num at this hge
    linarith
  obtain ⟨k, rfl⟩ := Int.eq_ofNat_of_zero_le hj
  rw [zpow_natCast]
  have : (m : ℚ) * 2 ^ k = ((m * 2 ^ k : ℤ) : ℚ) := by push_cast; ring
  rw [this, Int.fract_intCast]

/-- The test of `isNearInteger` on a non-negative float64 and a positive
tolerance, in terms of the fractional part of the value. -/
theorem isNearInteger_fract {value : ℚ} (tol : ℚ) (h0 : 0 ≤ value) (hv : IsF64 value)
    (htol : 0 < tol) :
    isNearInteger value tol = true ↔
      Int.fract value < tol ∨ F64.sub 1 tol < Int.fract value := by
  rcases lt_or_le value (2 ^ 63) with hlt | hge
  · unfold isNearInteger
    simp only [frac_exact h0 hv hlt, Bool.or_eq_true, decide_eq_true_eq, gt_iff_lt]
  · have hbig := remainder_of_huge h0 hge
    have hsub : F64.sub 1 tol ≤ 1 := by
      have := F64.rnd_mono (show 1 - tol ≤ ((1 : ℤ) : ℚ) by push_cast; linarith)
      rw [F64.rnd_intCast 1 (by norm_num)] at this
      unfold F64.sub
      exact_mod_cast this
    rw [fract_of_huge hv hge]
    constructor
    · intro _
      exact Or.inl htol
    · intro _
      unfold isNearInteger
      simp only [Bool.or_eq_true, decide_eq_true_eq, gt_iff_lt]
      right
      linarith

theorem distToInteger_lt (x t : ℚ) :
    distToInteger x < t ↔ Int.fract x < t ∨ 1 - t < Int.fract x := by
  unfold distToInteger
  rw [min_lt_iff]
  constructor
  · rintro (h | h)
    · exact Or.inl h
    · exact Or.inr (by linarith)
  · rintro (h | h)
    · exact Or.inl h
    · exact Or.inr (by linarith)

/-- The float64 constant 0.1. -/
theorem lit_tenth : F64.lit (1 / 10) = 7205759403792794 * 2 ^ (-56 : ℤ) := by
  have := F64.rnd_eq_of (q := 1 / 10) (-4) 7205759403792794
    (by norm_num) (by norm_num) (by norm_num [abs_lt])
  norm_num [F64.lit] at this ⊢
  exact this

/-- The float64 constant 0.9. -/
theorem lit_nine_tenths : F64.lit (9 / 10) = 8106479329266893 * 2 ^ (-53 : ℤ) := by
  have := F64.rnd_eq_of (q := 9 / 10) (-1) 8106479329266893
    (by norm_num) (by norm_num) (by norm_num [abs_lt])
  norm_num [F64.lit] at this ⊢
  exact this

/-- The float64 difference `1.0 - 0.1` is the constant 0.9: the exact
difference is rounded up. -/
theorem one_sub_tenth : F64.sub 1 (F64.lit (1 / 10)) = 8106479329266893 * 2 ^ (-53 : ℤ) := by
  rw [lit_tenth]
  have := F64.rnd_eq_of (q := 1 - 7205759403792794 * 2 ^ (-56 : ℤ)) (-1) 8106479329266893
    (by norm_num) (by norm_num) (by norm_num [abs_lt])
  norm_num [F64.sub] at this ⊢
  exact this

/-- C25 as the spec states it fails: for the float64 value 0.9 and the float64
tolerance 0.1 the distance to the nearest integer, 1 - 0.9, is strictly
less than the tolerance, yet isNearInteger is false: the fractional part equals
the float64 difference 1.0 - 0.1, which is rounded up to 0.9. -/
theorem C25_tolerance_counterexample :
    0 ≤ F64.lit (9 / 10) ∧ 0 < F64.lit (1 / 10) ∧
    distToInteger (F64.lit (9 / 10)) < F64.lit (1 / 10) ∧
    isNearInteger (F64.lit (9 / 10)) (F64.lit (1 / 10)) = false := by
  have hv : IsF64 (F64.lit (9 / 10)) := rnd_isF64 _
  have h9 := lit_nine_tenths
  have h1 := lit_tenth
  have hs := one_sub_tenth
  have hpos : 0 ≤ F64.lit (9 / 10) := by rw [h9]; norm_num
  have htol : 0 < F64.lit (1 / 10) := by rw [h1]; norm_num
  have hfr : Int.fract (F64.lit (9 / 10)) = F64.lit (9 / 10) := by
    rw [Int.fract_eq_self]
    rw [h9]
    constructor <;> norm_num
  refine ⟨hpos, htol, ?_, ?_⟩
  · rw [distToInteger_lt, hfr, h9, h1]
    right
    norm_num
  · rw [Bool.eq_false_iff, Ne, isNearInteger_fract _ hpos hv htol, hfr, hs, h9, h1]
    norm_num

/-- C25, amended: for every non-negative float64 value and every tolerance > 0,
isNearInteger is true exactly when the distance from the value to the nearest
integer is strictly less than the tolerance, unless the fractional part of the
value is at least the tolerance and equals the float64 difference
1.0 - tolerance, where it is false. Whenever isNearInteger is true the
distance is below the tolerance; and where the float64 difference
1.0 - tolerance is not above the exact one, the two tests coincide. Below 2^63
the remainder the test computes, value - float64(int(value)), is the exact
fractional part of the value, the truncation being the floor; from 2^63 on the
value is an integer and the test is true. -/
theorem C25_near_integer (value tol : ℚ) (h0 : 0 ≤ value) (hv : IsF64 value)
    (htol : 0 < tol) :
    (isNearInteger value tol = true ↔
      distToInteger value < tol ∧
        ¬ (tol ≤ Int.fract value ∧ Int.fract value = F64.sub 1 tol)) ∧
    (isNearInteger value tol = true → distToInteger value < tol) ∧
    (F64.sub 1 tol ≤ 1 - tol →
      (isNearInteger value tol = true ↔ distToInteger value < tol)) ∧
    (value < 2 ^ 63 →
      F64.toInt value = ⌊value⌋ ∧
      F64.sub value (F64.ofInt (F64.toInt value)) = Int.fract value) ∧
    (2 ^ 63 ≤ value → Int.fract value = 0 ∧ isNearInteger value tol = true) := by
  have hf := isF64_fract h0 hv
  have key : isNearInteger value tol = true ↔
      distToInteger value < tol ∧
        ¬ (tol ≤ Int.fract value ∧ Int.fract value = F64.sub 1 tol) := by
    rw [isNearInteger_fract tol h0 hv htol, distToInteger_lt]
    constructor
    · rintro (h | h)
      · exact ⟨Or.inl h, fun hc => absurd h (not_lt.mpr hc.1)⟩
      · exact ⟨Or.inr (lt_of_rnd_lt hf h), fun hc => absurd hc.2 (ne_of_gt h)⟩
    · rintro ⟨h | h, hne⟩
      · exact Or.inl h
      · by_cases ht : Int.fract value < tol
        · exact Or.inl ht
        · right
          have hle : F64.sub 1 tol ≤ Int.fract value := by
            have := F64.rnd_mono h.le
            rwa [rnd_of_isF64 hf] at this
          rcases hle.lt_or_eq with hlt | heq
          · exact hlt
          · exact absurd ⟨not_lt.mp ht, heq.symm⟩ hne
  refine ⟨key, fun h => (key.mp h).1, fun hdown => ?_, fun hlt => ?_, fun hge => ?_⟩
  · rw [key]
    constructor
    · exact fun h => h.1
    · intro h
      refine ⟨h, fun hc => ?_⟩
      rw [distToInteger_lt] at h
      rcases h with h | h
      · exact absurd h (not_lt.mpr hc.1)
      · rw [hc.2] at h
        linarith
  · exact ⟨toInt_of_nonneg h0 hlt, frac_exact h0 hv hlt⟩
  · have hz := fract_of_huge hv hge
    refine ⟨hz, ?_⟩
    rw [isNearInteger_fract tol h0 hv htol, hz]
    exact Or.inl htol

/-- The instance of C25 at the value 7/4 and the tolerance 1/2: the fractional
part 3/4 is above 1.0 - 1/2, which is computed exactly, and the test is true
by its second comparison. -/
theorem C25_near_integer_witness :
    (0 : ℚ) ≤ 7 / 4 ∧ IsF64 (7 / 4) ∧ (0 : ℚ) < 1 / 2 ∧ F64.sub 1 (1 / 2) ≤ 1 - 1 / 2 ∧
    Int.fract ((7 : ℚ) / 4) = 3 / 4 ∧ ¬ (Int.fract ((7 : ℚ) / 4) < 1 / 2) ∧
    distToInteger (7 / 4) = 1 / 4 ∧
    isNearInteger (7 / 4) (1 / 2) = true :=
  have hsub : F64.sub 1 (1 / 2) ≤ 1 - 1 / 2 := by
    have := F64.rnd_dyadic 1 (-1) (by norm_num)
    unfold F64.sub
    norm_num at this ⊢
    rw [this]
  have hv : IsF64 (7 / 4) := ⟨7, -2, by norm_num, by norm_num⟩
  have hfr : Int.fract ((7 : ℚ) / 4) = 3 / 4 := by
    rw [Int.fract_eq_iff]
    exact ⟨by norm_num, by norm_num, 1, by norm_num⟩
  have hdist : distToInteger (7 / 4) = 1 / 4 := by
    unfold distToInteger
    rw [hfr]
    norm_num
  ⟨by norm_num, hv, by norm_num, hsub, hfr, by rw [hfr]; norm_num, hdist,
    ((C25_near_integer (7 / 4) (1 / 2) (by norm_num) hv (by norm_num)).2.2.1 hsub).mpr
      (by rw [hdist]; norm_num)⟩

/-! ## Structural-consistency strategy on extreme ratios: theorems -/

/-- The relative error of a rounding is at most 2^-53. -/
theorem rnd_relative {q : ℚ} (hq : 0 < q) :
    q * (1 - 1 / 2 ^ 53) ≤ F64.rnd q ∧ F64.rnd q ≤ q * (1 + 1 / 2 ^ 53) := by
  have hu := F64.ulp_pos q
  have hle := F64.ulp_le hq
  have h1 := F64.le_roundEven (q / F64.ulp q)
  have h2 := F64.roundEven_le (q / F64.ulp q)
  have hr : F64.rnd q = F64.roundEven (q / F64.ulp q) * F64.ulp q := by
    unfold F64.rnd
    rw [if_neg hq.ne']
  have e1 : q - F64.ulp q / 2 ≤ F64.rnd q := by
    rw [hr]
    have := mul_le_mul_of_nonneg_right h1 hu.le
    rw [sub_mul, div_mul_cancel₀ _ hu.ne'] at this
    linarith
  have e2 : F64.rnd q ≤ q + F64.ulp q / 2 := by
    rw [hr]
    have := mul_le_mul_of_nonneg_right h2 hu.le
    rw [add_mul, div_mul_cancel₀ _ hu.ne'] at this
    linarith
  have hu2 : F64.ulp q ≤ q / 2 ^ 52 := by
    rw [le_div_iff₀ (by positivity)]
    linarith
  constructor
  · have : q * (1 - 1 / 2 ^ 53) = q - q / 2 ^ 52 / 2 := by ring
    rw [this]; linarith
  · have : q * (1 + 1 / 2 ^ 53) = q + q / 2 ^ 52 / 2 := by ring
    rw [this]; linarith

/-- The quotient of two rounded positive integers, from below. -/
theorem quotient_lower {a d : ℤ} (hd : 0 < d) (ha : 20 * d < a) :
    (639 : ℚ) / 32 ≤ F64.ofInt a / F64.ofInt d := by
  have hdq : (0 : ℚ) < d := by exact_mod_cast hd
  have haq : (20 : ℚ) * d < a := by exact_mod_cast ha
  have haq0 : (0 : ℚ) < a := by linarith
  have h1 := (rnd_relative haq0).1
  have h2 := (rnd_relative hdq).2
  have hdpos : 0 < F64.ofInt d := F64.rnd_pos hdq
  unfold F64.ofInt at *
  rw [le_div_iff₀ hdpos]
  have e : (2 : ℚ) ^ 53 = 9007199254740992 := by norm_num
  rw [e] at h1 h2
  nlinarith

/-- The quotient of two rounded positive integers, from above. -/
theorem quotient_upper {a d : ℤ} (ha : 0 < a) (hd : 20 * a < d) :
    F64.ofInt a / F64.ofInt d ≤ (3277 : ℚ) / 65536 := by
  have haq : (0 : ℚ) < a := by exact_mod_cast ha
  have hdq : (20 : ℚ) * a < d := by exact_mod_cast hd
  have hdq0 : (0 : ℚ) < d := by linarith
  have h1 := (rnd_relative haq).2
  have h2 := (rnd_relative hdq0).1
  have hdpos : 0 < F64.ofInt d := F64.rnd_pos hdq0
  unfold F64.ofInt at *
  rw [div_le_iff₀ hdpos]
  have e : (2 : ℚ) ^ 53 = 9007199254740992 := by norm_num
  rw [e] at h1 h2
  nlinarith

/-- A float64 of at least 19.96875 passes the test of the strategy, itself or
through its reciprocal. -/
theorem near_of_large {r : ℚ} (hf : IsF64 r) (hr : (639 : ℚ) / 32 ≤ r) :
    isNearInteger r (F64.lit (1 / 20)) = true ∨
      isNearInteger (F64.div 1 r) (F64.lit (1 / 20)) = true := by
  have hr0 : 0 ≤ r := le_trans (by norm_num) hr
  have htol : (1 : ℚ) / 20 ≤ F64.lit (1 / 20) := by rw [lit_twentieth]; norm_num
  by_cases hlt : r < 641 / 32
  · left
    rw [isNearInteger_iff hr0 hf]
    refine ⟨20, ?_⟩
    rw [abs_lt]
    push_cast
    constructor <;> linarith
  · right
    have hge : (641 : ℚ) / 32 ≤ r := not_lt.mp hlt
    have hrpos : 0 < r := lt_of_lt_of_le (by norm_num) hge
    have hinv : 1 / r ≤ ((409 : ℤ) : ℚ) * 2 ^ (-13 : ℤ) := by
      rw [div_le_iff₀ hrpos]
      have : (((409 : ℤ) : ℚ) * 2 ^ (-13 : ℤ)) = 409 / 8192 := by norm_num
      rw [this]
      linarith
    have hx := rnd_le_of_le_dyadic 409 (-13) (by norm_num) hinv
    have e : (((409 : ℤ) : ℚ) * 2 ^ (-13 : ℤ)) = 409 / 8192 := by norm_num
    rw [e] at hx
    have hx0 : 0 ≤ F64.rnd (1 / r) := rnd_nonneg (by positivity)
    unfold F64.div
    rw [isNearInteger_iff hx0 (rnd_isF64 _)]
    refine ⟨0, ?_⟩
    rw [abs_lt]
    push_cast
    constructor <;> linarith

/-- A positive float64 of at most 0.05000305 passes the test of the strategy,
itself or through its reciprocal. -/
theorem near_of_small {r : ℚ} (hf : IsF64 r) (hr0 : 0 < r) (hr : r ≤ (3277 : ℚ) / 65536) :
    isNearInteger r (F64.lit (1 / 20)) = true ∨
      isNearInteger (F64.div 1 r) (F64.lit (1 / 20)) = true := by
  have htol : (1 : ℚ) / 20 ≤ F64.lit (1 / 20) := by rw [lit_twentieth]; norm_num
  by_cases hlt : r < F64.lit (1 / 20)
  · left
    rw [isNearInteger_iff hr0.le hf]
    refine ⟨0, ?_⟩
    rw [abs_lt]
    push_cast
    constructor <;> linarith
  · right
    have hge : F64.lit (1 / 20) ≤ r := not_lt.mp hlt
    have hge2 : (1 : ℚ) / 20 ≤ r := le_trans htol hge
    have hlo : ((639 : ℤ) : ℚ) * 2 ^ (-5 : ℤ) ≤ 1 / r := by
      rw [le_div_iff₀ hr0]
      have : (((639 : ℤ) : ℚ) * 2 ^ (-5 : ℤ)) = 639 / 32 := by norm_num
      rw [this]
      linarith
    have hhi : 1 / r ≤ ((20 : ℤ) : ℚ) * 2 ^ (0 : ℤ) := by
      rw [div_le_iff₀ hr0]
      have : (((20 : ℤ) : ℚ) * 2 ^ (0 : ℤ)) = 20 := by norm_num
      rw [this]
      linarith
    have hx1 := le_rnd_of_dyadic_le 639 (-5) (by norm_num) hlo
    have hx2 := rnd_le_of_le_dyadic 20 0 (by norm_num) hhi
    have hx0 : 0 ≤ F64.rnd (1 / r) := rnd_nonneg (by positivity)
    have e1 : (((639 : ℤ) : ℚ) * 2 ^ (-5 : ℤ)) = 639 / 32 := by norm_num
    have e2 : (((20 : ℤ) : ℚ) * 2 ^ (0 : ℤ)) = 20 := by norm_num
    rw [e1] at hx1
    rw [e2] at hx2
    unfold F64.div
    rw [isNearInteger_iff hx0 (rnd_isF64 _)]
    refine ⟨20, ?_⟩
    rw [abs_lt]
    push_cast
    constructor <;> linarith

/-- For counts below 2^52 with additions > 20 * deletions the float64
reciprocal of the ratio is below the float64 constant 0.05. -/
theorem reciprocal_below_tolerance {a d : ℤ} (hd : 0 < d) (ha : 20 * d < a) (hbig : a < 2 ^ 52) :
    F64.div 1 (F64.div (F64.ofInt a) (F64.ofInt d)) < F64.lit (1 / 20) := by
  have hdq : (0 : ℚ) < d := by exact_mod_cast hd
  have ha' : (20 : ℚ) * d + 1 ≤ a := by exact_mod_cast (show 20 * d + 1 ≤ a by omega)
  have hd48 : (d : ℚ) ≤ 2 ^ 48 := by
    have : d ≤ 2 ^ 48 := by omega
    exact_mod_cast this
  rw [ofInt_small a (by rw [abs_lt]; constructor <;> omega),
    ofInt_small d (by rw [abs_lt]; constructor <;> omega), lit_twentieth]
  have hq : ((5629499534213121 : ℤ) : ℚ) * 2 ^ (-48 : ℤ) ≤ (a : ℚ) / d := by
    rw [le_div_iff₀ hdq]
    have e : (((5629499534213121 : ℤ) : ℚ) * 2 ^ (-48 : ℤ)) = 20 + 1 / 2 ^ 48 := by norm_num
    rw [e]
    have : (1 : ℚ) / 2 ^ 48 * d ≤ 1 := by
      rw [div_mul_eq_mul_div, one_mul, div_le_one (by positivity)]
      exact hd48
    linarith
  have hr := le_rnd_of_dyadic_le 5629499534213121 (-48) (by norm_num) hq
  have hrpos : 0 < F64.rnd ((a : ℚ) / d) := lt_of_lt_of_le (by norm_num) hr
  have hinv : 1 / F64.rnd ((a : ℚ) / d) ≤ ((7205759403792793 : ℤ) : ℚ) * 2 ^ (-57 : ℤ) := by
    rw [div_le_iff₀ hrpos]
    have e : (1 : ℚ) ≤ ((7205759403792793 : ℤ) : ℚ) * 2 ^ (-57 : ℤ)
        * (((5629499534213121 : ℤ) : ℚ) * 2 ^ (-48 : ℤ)) := by norm_num
    have hp : (0 : ℚ) ≤ ((7205759403792793 : ℤ) : ℚ) * 2 ^ (-57 : ℤ) := by norm_num
    exact le_trans e (mul_le_mul_of_nonneg_left hr hp)
  have hx := rnd_le_of_le_dyadic 7205759403792793 (-57) (by norm_num) hinv
  unfold F64.div
  have e : (((7205759403792793 : ℤ) : ℚ) * 2 ^ (-57 : ℤ)) < 7205759403792794 * 2 ^ (-57 : ℤ) := by
    norm_num
  exact lt_of_le_of_lt hx e

/-- For counts below 2^52 with deletions > 20 * additions the float64 ratio is
below the float64 constant 0.05. -/
theorem ratio_below_tolerance {a d : ℤ} (ha : 0 < a) (hd : 20 * a < d) (hbig : d < 2 ^ 52) :
    F64.div (F64.ofInt a) (F64.ofInt d) < F64.lit (1 / 20) := by
  have haq : (0 : ℚ) < a := by exact_mod_cast ha
  have hd' : (20 : ℚ) * a + 1 ≤ d := by exact_mod_cast (show 20 * a + 1 ≤ d by omega)
  have hdq : (0 : ℚ) < d := by linarith
  have ha48 : (a : ℚ) ≤ 2 ^ 48 := by
    have : a ≤ 2 ^ 48 := by omega
    exact_mod_cast this
  rw [ofInt_small a (by rw [abs_lt]; constructor <;> omega),
    ofInt_small d (by rw [abs_lt]; constructor <;> omega), lit_twentieth]
  have hq : (a : ℚ) / d ≤ ((7205759403792793 : ℤ) : ℚ) * 2 ^ (-57 : ℤ) := by
    rw [div_le_iff₀ hdq]
    have e : (((7205759403792793 : ℤ) : ℚ) * 2 ^ (-57 : ℤ)) = 7205759403792793 / 2 ^ 57 := by
      norm_num
    rw [e, div_mul_eq_mul_div, le_div_iff₀ (by positivity)]
    have e48 : (2 : ℚ) ^ 48 = 281474976710656 := by norm_num
    have e57 : (2 : ℚ) ^ 57 = 144115188075855872 := by norm_num
    rw [e48] at ha48
    rw [e57]
    nlinarith
  have hx := rnd_le_of_le_dyadic 7205759403792793 (-57) (by norm_num) hq
  unfold F64.div
  have e : (((7205759403792793 : ℤ) : ℚ) * 2 ^ (-57 : ℤ)) < 7205759403792794 * 2 ^ (-57 : ℤ) := by
    norm_num
  exact lt_of_le_of_lt hx e

/-- C22: a pair with deletions > 100 and additions > 20 * deletions, or with
additions > 100 and deletions > 20 * additions, is flagged by the
structural-consistency strategy whatever the counts are. For counts below 2^52
the reason is the stated one: the smaller of the float64 ratio and its float64
reciprocal is below the float64 constant 0.05, and isNearInteger is true on it. -/
theorem C22_extreme_ratio_flags (pair : CommitPair) (repoStats : RepositoryStats) :
    (pair.Stats.Deletions > 100 → pair.Stats.Additions > 20 * pair.Stats.Deletions →
      (NewStructuralConsistencyStrategy.Detect pair repoStats).1 = true ∧
      (pair.Stats.Additions < 2 ^ 52 →
        F64.div 1 (StructuralConsistencyStrategy.ratioOf pair) < F64.lit (1 / 20) ∧
        isNearInteger (F64.div 1 (StructuralConsistencyStrategy.ratioOf pair))
          (F64.lit (1 / 20)) = true)) ∧
    (pair.Stats.Additions > 100 → pair.Stats.Deletions > 20 * pair.Stats.Additions →
      (NewStructuralConsistencyStrategy.Detect pair repoStats).1 = true ∧
      (pair.Stats.Deletions < 2 ^ 52 →
        StructuralConsistencyStrategy.ratioOf pair < F64.lit (1 / 20) ∧
        isNearInteger (StructuralConsistencyStrategy.ratioOf pair) (F64.lit (1 / 20))
          = true)) := by
  have hnear0 : ∀ x : ℚ, 0 ≤ x → IsF64 x → x < F64.lit (1 / 20) →
      isNearInteger x (F64.lit (1 / 20)) = true := by
    intro x hx0 hxf hlt
    rw [isNearInteger_iff hx0 hxf]
    refine ⟨0, ?_⟩
    rw [abs_lt]
    push_cast
    constructor <;> linarith
  constructor
  · intro hd ha
    have hd0 : 0 < pair.Stats.Deletions := by omega
    have ha100 : pair.Stats.Additions > 100 := by omega
    have hq := quotient_lower hd0 (by omega : 20 * pair.Stats.Deletions < pair.Stats.Additions)
    have e : (((639 : ℤ) : ℚ) * 2 ^ (-5 : ℤ)) = 639 / 32 := by norm_num
    have hr : (639 : ℚ) / 32 ≤ StructuralConsistencyStrategy.ratioOf pair := by
      rw [← e] at hq
      have := le_rnd_of_dyadic_le 639 (-5) (by norm_num) hq
      rw [e] at this
      exact this
    have hflag := near_of_large (rnd_isF64 _) hr
    refine ⟨?_, fun hbig => ?_⟩
    · rw [structural_detected]
      exact ⟨rfl, ha100, hd, Or.inr hflag⟩
    · have hlt := reciprocal_below_tolerance hd0
        (by omega : 20 * pair.Stats.Deletions < pair.Stats.Additions) hbig
      refine ⟨hlt, hnear0 _ (rnd_nonneg ?_) (rnd_isF64 _) hlt⟩
      have := ratioOf_pos ha100 hd
      positivity
  · intro ha hd
    have ha0 : 0 < pair.Stats.Additions := by omega
    have hd100 : pair.Stats.Deletions > 100 := by omega
    have hq := quotient_upper ha0 (by omega : 20 * pair.Stats.Additions < pair.Stats.Deletions)
    have e : (((3277 : ℤ) : ℚ) * 2 ^ (-16 : ℤ)) = 3277 / 65536 := by norm_num
    have hr : StructuralConsistencyStrategy.ratioOf pair ≤ (3277 : ℚ) / 65536 := by
      rw [← e] at hq
      have := rnd_le_of_le_dyadic 3277 (-16) (by norm_num) hq
      rw [e] at this
      exact this
    have hpos := ratioOf_pos ha hd100
    have hflag := near_of_small (rnd_isF64 _) hpos hr
    refine ⟨?_, fun hbig => ?_⟩
    · rw [structural_detected]
      exact ⟨rfl, ha, hd100, Or.inr hflag⟩
    · have hlt := ratio_below_tolerance ha0
        (by omega : 20 * pair.Stats.Additions < pair.Stats.Deletions) hbig
      exact ⟨hlt, hnear0 _ hpos.le (rnd_isF64 _) hlt⟩

/-- The instance of C22 at 5000 additions against 101 deletions. -/
theorem C22_extreme_ratio_flags_witness :
    (mkPair [] 5000 101 1 0 []).Stats.Deletions > 100 ∧
    (mkPair [] 5000 101 1 0 []).Stats.Additions > 20 * (mkPair [] 5000 101 1 0 []).Stats.Deletions ∧
    (mkPair [] 5000 101 1 0 []).Stats.Additions < 2 ^ 52 ∧
    (NewStructuralConsistencyStrategy.Detect (mkPair [] 5000 101 1 0 []) { counters := [] }).1
      = true ∧
    F64.div 1 (StructuralConsistencyStrategy.ratioOf (mkPair [] 5000 101 1 0 []))
      < F64.lit (1 / 20) :=
  have h := (C22_extreme_ratio_flags (mkPair [] 5000 101 1 0 []) { counters := [] }).1
    (by decide) (by decide)
  ⟨by decide, by decide, by decide, h.1, (h.2 (by decide)).1⟩

/-- The float64 sum of a non-negative number and a rounded non-negative number
is the exact sum up to a relative error of 2^-51. -/
theorem add_rounded_bounds (q x : ℚ) (hq : 0 ≤ q) (hx : 0 ≤ x) (hpos : 0 < q + x) :
    |F64.rnd (q + F64.rnd x) - (q + x)| ≤ (q + x) / 2 ^ 51 := by
  rcases hx.lt_or_eq with hx0 | hx0
  · obtain ⟨a1, a2⟩ := rnd_relative hx0
    have hrx : 0 < F64.rnd x := F64.rnd_pos hx0
    obtain ⟨b1, b2⟩ := rnd_relative (show 0 < q + F64.rnd x by linarith)
    rw [abs_le]
    norm_num at a1 a2 b1 b2 ⊢
    constructor <;> linarith
  · subst hx0
    rw [F64.rnd_zero]
    simp only [add_zero] at hpos ⊢
    obtain ⟨b1, b2⟩ := rnd_relative hpos
    rw [abs_le]
    norm_num at b1 b2 ⊢
    constructor <;> linarith

/-- For a positive duration inside the int64 range, `Duration.Minutes` is the
exact number of minutes up to a relative error of 2^-51. -/
theorem minutes_bounds (d : Int) (hd : 0 < d) (h63 : d < 2 ^ 63) :
    |Minutes d - (d : ℚ) / 60000000000| ≤ (d : ℚ) / 60000000000 / 2 ^ 51 := by
  unfold Minutes
  rw [lit_minute]
  have h1 : d.tdiv 60000000000 = d / 60000000000 := Int.tdiv_eq_ediv hd.le (by norm_num)
  have h2 : d.tmod 60000000000 = d % 60000000000 := Int.tmod_eq_emod hd.le (by norm_num)
  rw [h1, h2]
  have hq0 : 0 ≤ d / 60000000000 := by omega
  have hq1 : d / 60000000000 < 2 ^ 53 := by omega
  have hr0 : 0 ≤ d % 60000000000 := by omega
  have hr1 : d % 60000000000 < 60000000000 := by omega
  have hdec : d = 60000000000 * (d / 60000000000) + d % 60000000000 :=
    (Int.ediv_add_emod d 60000000000).symm
  have hm : (d : ℚ) / 60000000000
      = ((d / 60000000000 : ℤ) : ℚ) + ((d % 60000000000 : ℤ) : ℚ) / 60000000000 := by
    have : (d : ℚ) = 60000000000 * ((d / 60000000000 : ℤ) : ℚ) + ((d % 60000000000 : ℤ) : ℚ) := by
      exact_mod_cast hdec
    rw [this]; field_simp; ring
  have hdq : (0 : ℚ) < (d : ℚ) / 60000000000 :=
    div_pos (by exact_mod_cast hd) (by norm_num)
  rw [ofInt_small _ (by rw [abs_of_nonneg hq0]; exact hq1),
    ofInt_small _ (by rw [abs_of_nonneg hr0]; omega)]
  rw [hm] at hdq ⊢
  exact add_rounded_bounds _ _ (by exact_mod_cast hq0)
    (div_nonneg (by exact_mod_cast hr0) (by norm_num)) hdq

/-- The float64 quotient of a rounded positive number by an approximation of
`m` within 2^-51 is the exact quotient up to a relative error of 2^-50. -/
theorem quotient_bounds (l m M : ℚ) (hl : 0 < l) (hm : 0 < m)
    (hM : |M - m| ≤ m / 2 ^ 51) :
    |F64.rnd (F64.rnd l / M) - l / m| ≤ l / m / 2 ^ 50 := by
  rw [abs_le] at hM
  obtain ⟨m1, m2⟩ := hM
  have hMpos : 0 < M := by
    have : m / 2 ^ 51 < m := by
      rw [div_lt_iff₀ (by positivity)]
      have : m * 1 < m * 2 ^ 51 := by
        apply mul_lt_mul_of_pos_left _ hm
        norm_num
      linarith
    linarith
  obtain ⟨a1, a2⟩ := rnd_relative hl
  have hL : 0 < F64.rnd l := F64.rnd_pos hl
  have hy : 0 < F64.rnd l / M := div_pos hL hMpos
  obtain ⟨b1, b2⟩ := rnd_relative hy
  have hV : 0 < l / m := div_pos hl hm
  have hyM : F64.rnd l / M * M = F64.rnd l := div_mul_cancel₀ _ hMpos.ne'
  have hVm : l / m * m = l := div_mul_cancel₀ _ hm.ne'
  generalize F64.rnd (F64.rnd l / M) = v at *
  generalize F64.rnd l / M = y at *
  generalize F64.rnd l = L at *
  generalize hVdef : l / m = V at *
  -- y * m within the bounds given by V * m
  have c1 : y * (m - m / 2 ^ 51) ≤ y * M := mul_le_mul_of_nonneg_left (by linarith) hy.le
  have c2 : y * M ≤ y * (m + m / 2 ^ 51) := mul_le_mul_of_nonneg_left (by linarith) hy.le
  have d1 : (y * (1 - 1 / 2 ^ 51)) * m ≤ (V * (1 + 1 / 2 ^ 53)) * m := by
    have : y * (m - m / 2 ^ 51) = (y * (1 - 1 / 2 ^ 51)) * m := by ring
    have e : l * (1 + 1 / 2 ^ 53) = (V * (1 + 1 / 2 ^ 53)) * m := by rw [← hVm]; ring
    linarith
  have d2 : (V * (1 - 1 / 2 ^ 53)) * m ≤ (y * (1 + 1 / 2 ^ 51)) * m := by
    have : y * (m + m / 2 ^ 51) = (y * (1 + 1 / 2 ^ 51)) * m := by ring
    have e : l * (1 - 1 / 2 ^ 53) = (V * (1 - 1 / 2 ^ 53)) * m := by rw [← hVm]; ring
    linarith
  have e1 := le_of_mul_le_mul_right d1 hm
  have e2 := le_of_mul_le_mul_right d2 hm
  rw [abs_le]
  norm_num at b1 b2 e1 e2 ⊢
  constructor <;> linarith
/-- The velocity is the exact quotient of `loc` by the number of minutes up to
a relative error of 2^-50. -/
theorem velocity_bounds (loc d : Int) (hd : 0 < d) (h63 : d < 2 ^ 63) :
    |F64.div (F64.ofInt loc) (Minutes d) - (loc : ℚ) / ((d : ℚ) / 60000000000)|
      ≤ |(loc : ℚ) / ((d : ℚ) / 60000000000)| / 2 ^ 50 := by
  have hm : (0 : ℚ) < (d : ℚ) / 60000000000 := div_pos (by exact_mod_cast hd) (by norm_num)
  have hM := minutes_bounds d hd h63
  unfold F64.div F64.ofInt
  rcases lt_trichotomy 0 loc with hl | hl | hl
  · have hlq : (0 : ℚ) < (loc : ℚ) := by exact_mod_cast hl
    rw [abs_of_pos (div_pos hlq hm)]
    exact quotient_bounds _ _ _ hlq hm hM
  · subst hl
    simp [F64.rnd_zero]
  · have hlq : (0 : ℚ) < -(loc : ℚ) := by
      have : (loc : ℚ) < 0 := by exact_mod_cast hl
      linarith
    have h := quotient_bounds _ _ _ hlq hm hM
    have e1 : F64.rnd (loc : ℚ) = -F64.rnd (-(loc : ℚ)) := by
      rw [F64.rnd_neg]; ring
    have e2 : F64.rnd (F64.rnd (loc : ℚ) / Minutes d)
        = -F64.rnd (F64.rnd (-(loc : ℚ)) / Minutes d) := by
      rw [e1, neg_div, F64.rnd_neg]
    have e3 : |(loc : ℚ) / ((d : ℚ) / 60000000000)| = -(loc : ℚ) / ((d : ℚ) / 60000000000) := by
      rw [← abs_neg, ← neg_div]
      exact abs_of_pos (div_pos hlq hm)
    rw [e2, e3, ← abs_neg]
    have e4 : -(-F64.rnd (F64.rnd (-(loc : ℚ)) / Minutes d) - (loc : ℚ) / ((d : ℚ) / 60000000000))
        = F64.rnd (F64.rnd (-(loc : ℚ)) / Minutes d) - -(loc : ℚ) / ((d : ℚ) / 60000000000) := by
      ring
    rw [e4]
    exact h

/-- The number of minutes of 90 seconds. -/
theorem minutes_of_90s : Minutes 90000000000 = 3 / 2 := by
  unfold Minutes
  rw [lit_minute]
  have h1 : (90000000000 : Int).tdiv 60000000000 = 1 := by decide
  have h2 : (90000000000 : Int).tmod 60000000000 = 30000000000 := by decide
  rw [h1, h2, ofInt_small 1 (by norm_num), ofInt_small 30000000000 (by norm_num)]
  unfold F64.div F64.add
  have e1 : F64.rnd (((30000000000 : ℤ) : ℚ) / 60000000000) = 1 / 2 := by
    have := F64.rnd_dyadic 1 (-1) (by norm_num)
    norm_num at this ⊢
    exact this
  rw [e1]
  have e2 : F64.rnd (((1 : ℤ) : ℚ) + 1 / 2) = 3 / 2 := by
    have := F64.rnd_dyadic 3 (-1) (by norm_num)
    norm_num at this ⊢
    exact this
  rw [e2]

/-- C12: for every loc and timeDelta, CalculateVelocityPerMinute fails with the
invalid-time-delta error exactly when timeDelta <= 0 and otherwise returns the
float64 quotient of loc by timeDelta expressed in minutes (a positive number),
and CalculateVelocity wraps that result. For a duration of the int64 range the
float64 number of minutes is the exact one, timeDelta / 60000000000, up to a
relative error of 2^-51, and the velocity returned is the exact quotient
loc / (timeDelta / 60000000000) up to a relative error of 2^-50; a whole number
k of minutes is converted to k. velocity(600, 10 minutes) = 60,
velocity(300, 90 seconds) = 200, velocity(-300, 90 seconds) = -200, and
velocity(x, 0) is the error for every x, not a zero velocity. -/
theorem C12_velocity (loc timeDelta : Int) :
    (CalculateVelocityPerMinute loc timeDelta = .error (.invalidTimeDelta timeDelta) ↔
      timeDelta ≤ 0) ∧
    (0 < timeDelta →
      0 < Minutes timeDelta ∧
      CalculateVelocityPerMinute loc timeDelta
        = .ok (F64.div (F64.ofInt loc) (Minutes timeDelta))) ∧
    (0 < timeDelta → timeDelta < 2 ^ 63 →
      |Minutes timeDelta - (timeDelta : ℚ) / 60000000000|
        ≤ (timeDelta : ℚ) / 60000000000 / 2 ^ 51 ∧
      ∃ v : ℚ, CalculateVelocityPerMinute loc timeDelta = .ok v ∧
        |v - (loc : ℚ) / ((timeDelta : ℚ) / 60000000000)|
          ≤ |(loc : ℚ) / ((timeDelta : ℚ) / 60000000000)| / 2 ^ 50) ∧
    (∀ k : Int, 0 ≤ k → k < 2 ^ 53 → Minutes (k * 60000000000) = k) ∧
    CalculateVelocity loc timeDelta
      = (CalculateVelocityPerMinute loc timeDelta).map (fun v => { LOCPerMinute := v }) ∧
    CalculateVelocityPerMinute 600 (10 * 60000000000) = .ok 60 ∧
    Minutes 90000000000 = 3 / 2 ∧
    CalculateVelocityPerMinute 300 90000000000 = .ok 200 ∧
    CalculateVelocityPerMinute (-300) 90000000000 = .ok (-200) ∧
    CalculateVelocityPerMinute loc 0 = .error (.invalidTimeDelta 0) ∧
    CalculateVelocityPerMinute loc 0 ≠ .ok 0 ∧
    CalculateVelocityPerMinute loc (-60000000000) = .error (.invalidTimeDelta (-60000000000)) := by
  refine ⟨?_, ?_, ?_, fun k hk0 hk => minutes_of_whole k hk0 hk, ?_, ?_, minutes_of_90s, ?_, ?_,
    ?_, ?_, ?_⟩
  · unfold CalculateVelocityPerMinute
    by_cases h : timeDelta ≤ 0
    · simp [h]
    · simp [h]
  · intro h
    refine ⟨minutes_pos timeDelta h, ?_⟩
    unfold CalculateVelocityPerMinute
    rw [if_neg (by omega)]
  · intro h h63
    refine ⟨minutes_bounds timeDelta h h63, _, ?_, velocity_bounds loc timeDelta h h63⟩
    unfold CalculateVelocityPerMinute
    rw [if_neg (by omega)]
  · unfold CalculateVelocity
    cases CalculateVelocityPerMinute loc timeDelta <;> rfl
  · unfold CalculateVelocityPerMinute
    rw [if_neg (by norm_num), minutes_of_whole 10 (by norm_num) (by norm_num),
      ofInt_small 600 (by norm_num)]
    unfold F64.div
    have : F64.rnd (((600 : ℤ) : ℚ) / ((10 : ℤ) : ℚ)) = 60 := by
      have := F64.rnd_intCast 60 (by norm_num)
      norm_num at this ⊢
      exact this
    rw [this]
  · unfold CalculateVelocityPerMinute
    rw [if_neg (by norm_num), minutes_of_90s, ofInt_small 300 (by norm_num)]
    unfold F64.div
    have : F64.rnd (((300 : ℤ) : ℚ) / (3 / 2)) = 200 := by
      have := F64.rnd_intCast 200 (by norm_num)
      norm_num at this ⊢
      exact this
    rw [this]
  · unfold CalculateVelocityPerMinute
    rw [if_neg (by norm_num), minutes_of_90s, ofInt_small (-300) (by norm_num)]
    unfold F64.div
    have : F64.rnd (((-300 : ℤ) : ℚ) / (3 / 2)) = -200 := by
      have := F64.rnd_intCast (-200) (by norm_num)
      norm_num at this ⊢
      exact this
    rw [this]
  · unfold CalculateVelocityPerMinute
    simp
  · unfold CalculateVelocityPerMinute
    simp
  · unfold CalculateVelocityPerMinute
    simp

/-- The instance of C12 at loc = 300 and 90 seconds: 1.5 minutes and a velocity
of 200, inside the error bounds. -/
theorem C12_velocity_witness :
    (0 : Int) < 90000000000 ∧ (90000000000 : Int) < 2 ^ 63 ∧
    |Minutes 90000000000 - ((90000000000 : Int) : ℚ) / 60000000000|
      ≤ ((90000000000 : Int) : ℚ) / 60000000000 / 2 ^ 51 ∧
    ∃ v : ℚ, CalculateVelocityPerMinute 300 90000000000 = .ok v ∧
      |v - ((300 : Int) : ℚ) / (((90000000000 : Int) : ℚ) / 60000000000)|
        ≤ |((300 : Int) : ℚ) / (((90000000000 : Int) : ℚ) / 60000000000)| / 2 ^ 50 :=
  have h : (0 : Int) < 90000000000 := by decide
  have h63 : (90000000000 : Int) < 2 ^ 63 := by decide
  ⟨h, h63, (C12_velocity 300 90000000000).2.2.1 h h63⟩

end Cadence
